import Mathlib

/-!
# Image Crop: scheduling and output-validity engine (src/imgcrop/imgcrop.c)

A shallow embedding of `imgmodecrop`, `wcsmodecrop` and `imgcrop`.

* The shared program state (`p->log`, `p->up.catset`, the `done` counter) is
  an explicit `State`; every call of a collaborator that the source makes is
  recorded, in program order, in `State.trace`.
* The collaborators whose code is not part of `imgcrop.c` (`radecoverlap`,
  `onecrop`, `iscenterfilled`, `cropname`, CFITSIO, `unlink`, pthreads) are
  represented by the results they return, collected in `Env`.
* `error(EXIT_FAILURE, ...)` and `fitsioerror` end the process: a function
  that can reach them returns `Except Fatal State`.
-/

namespace ImgCrop

/-! ## Data model -/

/-- One element of `p->log` (`struct imgcroplog`): output name, number of
contributing images, and the centre-coverage flag. -/
structure imgcroplog where
  name : Option String
  numimg : Nat
  centerfilled : Int
deriving DecidableEq, Repr

/-- The calls that the functions of `imgcrop.c` make to their collaborators,
with the arguments that identify them. -/
inductive Ev where
  | readfitshdu (imgindex : Nat)
  | cropname (outindex : Nat) (catset : Int)
  | onecrop (outindex imgindex : Nat)
  | setcsides (outindex : Nat)
  | radecoverlap (outindex imgindex : Nat)
  | iscenterfilled (outindex : Nat)
  | copyrightandend (outindex : Nat)
  | fits_close_outfits (outindex : Nat)
  | fits_close_infits (imgindex : Nat)
  | unlink (outindex : Nat)
  | reporttiming (outindex : Nat)
  | pthread_mutex_lock
  | done_increment
  | pthread_cond_signal
  | pthread_mutex_unlock
  | pthread_attr_init
  | pthread_cond_init
  | pthread_mutex_init
  | pthread_attr_setdetachstate
  | pthread_create (i : Nat)
  | pthread_cond_wait
  | pthread_attr_destroy
  | printlog
deriving DecidableEq, Repr

/-- The fatal exits (`error(EXIT_FAILURE, ...)`, `fitsioerror`) written in
`imgcrop.c`. -/
inductive Fatal where
  | close_outfits   -- "CFITSIO could not close the opened file."
  | unlink          -- error(EXIT_FAILURE, errno, log->name)
  | close_infits    -- "imgcroponthreads could not close FITS file."
  | nomode          -- "neither the imgmode is on or the wcsmode"
  | malloc_crp
  | malloc_t
  | thread_init
  | pthread_create (i : Nat)
deriving DecidableEq, Repr

/-- Results returned by the collaborators of `imgcrop.c`, and the constant
`NONTHRDINDEX` of `astrthreads.h`; none of them is defined in the sources
under study, so the embedding is parametric in them. An `Int` field is the
C `int` the call returns. -/
structure Env where
  /-- the value that terminates a block of indices -/
  NONTHRDINDEX : Nat
  /-- `radecoverlap(crp)` for `crp->outindex`, `crp->imgindex` -/
  radecoverlap : Nat → Nat → Int
  /-- whether `onecrop(crp)` found pixels of image `imgindex` in the crop
  `outindex` (and so counted the image in `log->numimg`) -/
  onecrop : Nat → Nat → Bool
  /-- `iscenterfilled(crp)` for `crp->outindex` -/
  iscenterfilled : Nat → Int
  /-- the name `cropname(crp)` derives for `crp->outindex` under the given
  value of `p->up.catset` -/
  cropname : Nat → Int → String
  /-- `fits_close_file(crp->outfits, &status)` for the output `outindex` -/
  fits_close_outfits : Nat → Int
  /-- `fits_close_file(crp->infits, &status)` for the image `imgindex` -/
  fits_close_infits : Nat → Int
  /-- `unlink(log->name)` for the output `outindex` -/
  unlink : Nat → Int
  /-- whether `malloc` returned a non-NULL `crp` / `t` -/
  malloc_crp : Bool
  malloc_t : Bool
  /-- the error codes of the four pthread initialisation calls -/
  pthread_attr_init : Int
  pthread_cond_init : Int
  pthread_mutex_init : Int
  pthread_attr_setdetachstate : Int
  /-- the error code of `pthread_create(&t[i], ...)` -/
  pthread_create : Nat → Int

/-- The fields of `struct imgcropparams` (and of its `cp`) that `imgcrop.c`
only reads. -/
structure imgcropparams where
  numimg : Nat
  keepblankcenter : Int
  verb : Int
  numthreads : Nat
  cs0 : Nat
  imgmode : Int
  wcsmode : Int
deriving DecidableEq, Repr

/-- The state shared by the controller and the workers: the log array
`p->log`, the flag `p->up.catset` (which `wcsmodecrop` toggles), the
completion counter `done`, and the calls made so far. -/
structure State where
  log : Nat → imgcroplog
  catset : Int
  done : Nat
  trace : List Ev

/-- Record one call. -/
def State.emit (s : State) (e : Ev) : State :=
  { s with trace := s.trace ++ [e] }

/-- Assign through `log=&p->log[i]`: only slot `i` changes. -/
def State.setLog (s : State) (i : Nat) (f : imgcroplog → imgcroplog) : State :=
  { s with log := Function.update s.log i (f (s.log i)) }

/-- Assign `p->up.catset`. -/
def State.setCatset (s : State) (c : Int) : State :=
  { s with catset := c }

/-! ## Collaborators that write the log -/

/-- Modelled from the spec: `cropname` (crop.c is not among the sources).
"Crop Request ... derived output file name"; "Log Entry ... output name":
the call stores the derived name in the log entry of `crp->outindex`. -/
def cropname (env : Env) (s : State) (outindex : Nat) : State :=
  (s.emit (.cropname outindex s.catset)).setLog outindex
    (fun l => { l with name := some (env.cropname outindex s.catset) })

/-- Modelled from the spec: `onecrop` (crop.c is not among the sources).
"`contributingCount` is incremented once per source that contributed at
least one pixel": the call adds one to `numimg` of the log entry of
`crp->outindex` exactly when the image contributed. -/
def onecrop (env : Env) (s : State) (outindex imgindex : Nat) : State :=
  (s.emit (.onecrop outindex imgindex)).setLog outindex
    (fun l => { l with numimg := l.numimg + (if env.onecrop outindex imgindex then 1 else 0) })

/-! ## imgmodecrop -/

/-- Lines 77-96 of `imgmodecrop`: "Check the final output". -/
def imgmode_check (env : Env) (p : imgcropparams) (s : State) (outindex : Nat) :
    Except Fatal State :=
  if (s.log outindex).numimg ≠ 0 then
    let s1 := (s.emit (.iscenterfilled outindex)).setLog outindex
      (fun l => { l with centerfilled := env.iscenterfilled outindex })
    let s2 := s1.emit (.copyrightandend outindex)
    let s3 := s2.emit (.fits_close_outfits outindex)
    if env.fits_close_outfits outindex ≠ 0 then .error .close_outfits
    else if (s3.log outindex).centerfilled = 0 ∧ p.keepblankcenter = 0 then
      let s4 := s3.emit (.unlink outindex)
      if env.unlink outindex ≠ 0 then .error .unlink else .ok s4
    else .ok s3
  else .ok (s.setLog outindex (fun l => { l with centerfilled := 0 }))

/-- Lines 101-106: the report printed when `cp->verb` is set. -/
def report (p : imgcropparams) (s : State) (outindex : Nat) : State :=
  if p.verb ≠ 0 then s.emit (.reporttiming outindex) else s

/-- The body of the loop of `imgmodecrop` (lines 67-106) for
`crp->outindex = outindex`; `crp->imgindex` is 0 throughout. -/
def imgmode_request (env : Env) (p : imgcropparams) (s : State) (outindex : Nat) :
    Except Fatal State :=
  let s1 := s.setLog outindex (fun l => { l with numimg := 0 })
  let s2 := cropname env s1 outindex
  let s3 := onecrop env s2 outindex 0
  match imgmode_check env p s3 outindex with
  | .error e => .error e
  | .ok s4 => .ok (report p s4 outindex)

/-- The loop `for(i=0;crp->indexs[i]!=NONTHRDINDEX;++i)` of `imgmodecrop`
over the memory `indexs` that `crp->indexs` points to. (Running off the end
of the array is undefined in C; the embedding stops there.) -/
def imgmode_loop (env : Env) (p : imgcropparams) : List Nat → State → Except Fatal State
  | [], s => .ok s
  | x :: rest, s =>
    if x = env.NONTHRDINDEX then .ok s
    else
      match imgmode_request env p s x with
      | .error e => .error e
      | .ok s1 => imgmode_loop env p rest s1

/-- Lines 115-123 / 219-227: "Increment the done counter and return if more
than one thread was desired." -/
def signal_done (p : imgcropparams) (s : State) : State :=
  if p.numthreads > 1 then
    let s1 := s.emit .pthread_mutex_lock
    let s2 := { s1 with done := s1.done + 1 }.emit .done_increment
    let s3 := s2.emit .pthread_cond_signal
    s3.emit .pthread_mutex_unlock
  else s

/-- The function `imgmodecrop`, run on the block of indices `indexs`. -/
def imgmodecrop (env : Env) (p : imgcropparams) (indexs : List Nat) (s : State) :
    Except Fatal State :=
  let s0 := s.emit (.readfitshdu 0)
  match imgmode_loop env p indexs s0 with
  | .error e => .error e
  | .ok s1 =>
    let s2 := s1.emit (.fits_close_infits 0)
    if env.fits_close_infits 0 ≠ 0 then .error .close_infits
    else .ok (signal_done p s2)

/-! ## wcsmodecrop -/

/-- The body of the `do ... while` of `wcsmodecrop` (lines 162-175) for one
value of `crp->imgindex`. -/
def wcs_image (env : Env) (s : State) (outindex imgindex : Nat) : Except Fatal State :=
  let s1 := s.emit (.radecoverlap outindex imgindex)
  if env.radecoverlap outindex imgindex ≠ 0 then
    let s2 := s1.emit (.readfitshdu imgindex)
    let s3 := if (s2.log outindex).name = none then cropname env s2 outindex else s2
    let s4 := onecrop env s3 outindex imgindex
    let s5 := s4.emit (.fits_close_infits imgindex)
    if env.fits_close_infits imgindex ≠ 0 then .error .close_infits else .ok s5
  else .ok s1

/-- The loop `do body while( ++(crp->imgindex) < p->numimg )` (lines
160-176), entered with `crp->imgindex = imgindex`. `more` is the number of
times the test `++imgindex < numimg` will still succeed, that is
`numimg - 1 - imgindex`: the body always runs once, and once more for each
success of the test. -/
def wcs_images (env : Env) (outindex : Nat) : (more : Nat) → (imgindex : Nat) → State →
    Except Fatal State
  | 0, imgindex, s => wcs_image env s outindex imgindex
  | more + 1, imgindex, s =>
    match wcs_image env s outindex imgindex with
    | .error e => .error e
    | .ok s1 => wcs_images env outindex more (imgindex + 1) s1

/-- Lines 179-206 of `wcsmodecrop`: "Check the final output". `tcatset` is
the local variable of that name; it is returned with the state. -/
def wcs_check (env : Env) (p : imgcropparams) (s : State) (tcatset : Int) (outindex : Nat) :
    Except Fatal (State × Int) :=
  if (s.log outindex).numimg ≠ 0 then
    let s1 := (s.emit (.iscenterfilled outindex)).setLog outindex
      (fun l => { l with centerfilled := env.iscenterfilled outindex })
    let s2 := s1.emit (.copyrightandend outindex)
    let s3 := s2.emit (.fits_close_outfits outindex)
    if env.fits_close_outfits outindex ≠ 0 then .error .close_outfits
    else if (s3.log outindex).centerfilled = 0 ∧ p.keepblankcenter = 0 then
      let s4 := s3.emit (.unlink outindex)
      if env.unlink outindex ≠ 0 then .error .unlink else .ok (s4, tcatset)
    else .ok (s3, tcatset)
  else
    let (s1, tcatset1) :=
      if s.catset = 0 then (s.setCatset 1, (1 : Int)) else (s, tcatset)
    let s2 := cropname env s1 outindex
    let s3 := if tcatset1 ≠ 0 then s2.setCatset 0 else s2
    .ok (s3.setLog outindex (fun l => { l with centerfilled := 0 }), tcatset1)

/-- The body of the outer loop of `wcsmodecrop` (lines 146-216) for
`crp->outindex = outindex`. -/
def wcs_request (env : Env) (p : imgcropparams) (s : State) (tcatset : Int) (outindex : Nat) :
    Except Fatal (State × Int) :=
  let s1 := s.setLog outindex (fun l => { l with name := none, numimg := 0 })
  let s2 := s1.emit (.setcsides outindex)
  match wcs_images env outindex (p.numimg - 1) 0 s2 with
  | .error e => .error e
  | .ok s3 =>
    match wcs_check env p s3 tcatset outindex with
    | .error e => .error e
    | .ok (s4, tcatset1) => .ok (report p s4 outindex, tcatset1)

/-- The loop `for(i=0;crp->indexs[i]!=NONTHRDINDEX;++i)` of `wcsmodecrop`. -/
def wcs_loop (env : Env) (p : imgcropparams) : List Nat → State → Int →
    Except Fatal (State × Int)
  | [], s, tcatset => .ok (s, tcatset)
  | x :: rest, s, tcatset =>
    if x = env.NONTHRDINDEX then .ok (s, tcatset)
    else
      match wcs_request env p s tcatset x with
      | .error e => .error e
      | .ok (s1, tcatset1) => wcs_loop env p rest s1 tcatset1

/-- The function `wcsmodecrop`, run on the block of indices `indexs`
(`tcatset` starts at 0). -/
def wcsmodecrop (env : Env) (p : imgcropparams) (indexs : List Nat) (s : State) :
    Except Fatal State :=
  match wcs_loop env p indexs s 0 with
  | .error e => .error e
  | .ok (s1, _) => .ok (signal_done p s1)

/-! ## distinthreads -/

/-- First index of the block of worker `i` when `nindexs` jobs are split
among `nthrds` workers. -/
def blockStart (nindexs nthrds i : Nat) : Nat :=
  i * (nindexs / nthrds) + min i (nindexs % nthrds)

/-- Number of jobs in the block of worker `i`. -/
def blockSize (nindexs nthrds i : Nat) : Nat :=
  nindexs / nthrds + (if i < nindexs % nthrds then 1 else 0)

/-- Row `i` of the array of `distinthreads`: the jobs of worker `i`, then
the sentinel up to the row length `thrdcols`. -/
def distRow (sentinel nindexs nthrds thrdcols i : Nat) : List Nat :=
  List.range' (blockStart nindexs nthrds i) (blockSize nindexs nthrds i)
    ++ List.replicate (thrdcols - blockSize nindexs nthrds i) sentinel

/-- Modelled from the spec: `distinthreads` (astrthreads.c is not among the
sources). "jobs are split into `workerCount` contiguous, roughly
equal-sized index blocks; a block may be empty if `workerCount > totalJobs`,
signaled by a reserved "no more work" sentinel index value terminating that
worker's block". The result is the array `indexs` (one row of `thrdcols`
entries per worker, as `imgcrop` reads it) and `thrdcols`; the blocks differ
in size by at most one, the larger ones first. -/
def distinthreads (sentinel nindexs nthrds : Nat) : List Nat × Nat :=
  let thrdcols := nindexs / nthrds + 2
  ((List.range nthrds).flatMap (distRow sentinel nindexs nthrds thrdcols), thrdcols)

/-- The indices a worker processes when `crp->indexs` points at position
`start` of `indexs`: those before the first sentinel. -/
def blockOf (sentinel : Nat) (indexs : List Nat) (start : Nat) : List Nat :=
  (indexs.drop start).takeWhile (fun x => decide (x ≠ sentinel))

/-! ## imgcrop -/

/-- The two values of `modefunction`. -/
inductive Mode where
  | img
  | wcs
deriving DecidableEq, Repr

/-- Lines 273-281: "Set the function to run". -/
def modefunction (p : imgcropparams) : Option Mode :=
  if p.imgmode ≠ 0 then some .img
  else if p.wcsmode ≠ 0 then some .wcs
  else none

/-- The call `modefunction(&crp[i])` with `crp[i].indexs` pointing at
`indexs`. -/
def runmode (m : Mode) (env : Env) (p : imgcropparams) (indexs : List Nat) (s : State) :
    Except Fatal State :=
  match m with
  | .img => imgmodecrop env p indexs s
  | .wcs => wcsmodecrop env p indexs s

/-- Lines 318-338: allocation of `t` and "Initialize all the thread
parameters" (`done=numactive=0` and the four pthread calls). -/
def threads_init (env : Env) (s : State) : Except Fatal State :=
  if env.malloc_t = false then .error .malloc_t
  else
    let s1 := { s with done := 0 }.emit .pthread_attr_init
    if env.pthread_attr_init ≠ 0 then .error .thread_init
    else
      let s2 := s1.emit .pthread_cond_init
      if env.pthread_cond_init ≠ 0 then .error .thread_init
      else
        let s3 := s2.emit .pthread_mutex_init
        if env.pthread_mutex_init ≠ 0 then .error .thread_init
        else
          let s4 := s3.emit .pthread_attr_setdetachstate
          if env.pthread_attr_setdetachstate ≠ 0 then .error .thread_init
          else .ok s4

/-- Where the controller thread is in the multi-threaded branch of `imgcrop`. -/
inductive Ctrl where
  /-- in the loop of lines 341-352, about to test `i<nt`, with the current
  value of `numactive` -/
  | spawning (i numactive : Nat)
  /-- inside `pthread_cond_wait` (line 357), the mutex released -/
  | waiting (numactive : Nat)
  /-- past the barrier: `printlog` has been called -/
  | finished
  /-- the process has exited through a fatal error -/
  | aborted (e : Fatal)
deriving DecidableEq, Repr

/-- The process while `imgcrop` runs: the shared state, the position of the
controller, and the threads that `pthread_create` has started and that have
not run yet (by their index `i` in `crp`). -/
structure Sys where
  st : State
  ctrl : Ctrl
  ready : List Nat

/-- What the scheduler lets run next. -/
inductive Act where
  | controller
  | worker (i : Nat)
deriving DecidableEq, Repr

/-- The test of `while(done<numactive) pthread_cond_wait(&cv, &mtx);` made
with the mutex held (lines 356-357), and what follows when it fails (lines
358-367): unlock, destroy the attribute, `printlog`. -/
def barrier (numactive : Nat) (sys : Sys) : Sys :=
  if sys.st.done < numactive then
    { sys with st := sys.st.emit .pthread_cond_wait, ctrl := .waiting numactive }
  else
    { sys with
      st := ((sys.st.emit .pthread_mutex_unlock).emit .pthread_attr_destroy).emit .printlog
      ctrl := .finished }

/-- One scheduling step of the multi-threaded branch (lines 340-367).
The controller advances by one test of a loop condition: one round of the
loop that starts the threads, or (taking the mutex, or woken in
`pthread_cond_wait`) one test of the barrier. A started thread runs its
whole `modefunction` call as one step; it can only run while the controller
does not hold the mutex. An action that is not enabled leaves the system as
it is. (A read of `indexs` beyond its end, undefined in C, yields the
sentinel.) -/
def sysStep (env : Env) (p : imgcropparams) (m : Mode) (indexs : List Nat) (thrdcols : Nat)
    (a : Act) (sys : Sys) : Sys :=
  match a, sys.ctrl with
  | .controller, .spawning i numactive =>
    if i < p.numthreads then
      if indexs.getD (i * thrdcols) env.NONTHRDINDEX ≠ env.NONTHRDINDEX then
        let st := sys.st.emit (.pthread_create i)
        if env.pthread_create i ≠ 0 then
          { sys with st := st, ctrl := .aborted (.pthread_create i) }
        else
          { st := st, ctrl := .spawning (i + 1) (numactive + 1), ready := sys.ready ++ [i] }
      else { sys with ctrl := .spawning (i + 1) numactive }
    else barrier numactive { sys with st := sys.st.emit .pthread_mutex_lock }
  | .controller, .waiting numactive => barrier numactive sys
  | .controller, .finished => sys
  | .controller, .aborted _ => sys
  | .worker _, .aborted _ => sys
  | .worker i, _ =>
    if i ∈ sys.ready then
      match runmode m env p (indexs.drop (i * thrdcols)) sys.st with
      | .error e => { sys with ctrl := .aborted e }
      | .ok st => { sys with st := st, ready := sys.ready.erase i }
    else sys

/-- Run the scheduling steps `sched` in order. -/
def sysRun (env : Env) (p : imgcropparams) (m : Mode) (indexs : List Nat) (thrdcols : Nat) :
    List Act → Sys → Sys
  | [], sys => sys
  | a :: sched, sys => sysRun env p m indexs thrdcols sched (sysStep env p m indexs thrdcols a sys)

/-- Lines 299-304: "Distribute the indexs into the threads"; the result is
the pair of `indexs` and `thrdcols`. -/
def distribute (env : Env) (p : imgcropparams) (s : State) : List Nat × Nat :=
  if s.catset ≠ 0 then distinthreads env.NONTHRDINDEX p.cs0 p.numthreads
  else distinthreads env.NONTHRDINDEX 1 p.numthreads

/-- The function `imgcrop`. `sched` is the order in which the scheduler lets
the controller and the started threads run in the multi-threaded branch; the
result is the process after those steps. With one thread the mode function
is called directly and `sched` plays no role. -/
def imgcrop (env : Env) (p : imgcropparams) (sched : List Act) (s : State) : Sys :=
  match modefunction p with
  | none => { st := s, ctrl := .aborted .nomode, ready := [] }
  | some m =>
    if env.malloc_crp = false then { st := s, ctrl := .aborted .malloc_crp, ready := [] }
    else
      let d := distribute env p s
      if p.numthreads = 1 then
        match runmode m env p d.1 s with
        | .error e => { st := s, ctrl := .aborted e, ready := [] }
        | .ok s1 => { st := s1.emit .printlog, ctrl := .finished, ready := [] }
      else
        match threads_init env s with
        | .error e => { st := s, ctrl := .aborted e, ready := [] }
        | .ok s1 => sysRun env p m d.1 d.2 sched { st := s1, ctrl := .spawning 0 0, ready := [] }

/-! ## Reading the trace -/

/-- The events after the first `n` of the trace: what was done since the
trace had length `n`. -/
def State.since (s : State) (n : Nat) : List Ev := s.trace.drop n

/-- The calls made for one crop request in `imgmodecrop` (lines 67-106). -/
def imgReqEv : Ev → Bool
  | .cropname _ _ => true
  | .onecrop _ _ => true
  | .iscenterfilled _ => true
  | .copyrightandend _ => true
  | .fits_close_outfits _ => true
  | .unlink _ => true
  | .reporttiming _ => true
  | _ => false

/-- The calls made for one crop request in `wcsmodecrop` (lines 146-216). -/
def wcsReqEv : Ev → Bool
  | .setcsides _ => true
  | .radecoverlap _ _ => true
  | .readfitshdu _ => true
  | .fits_close_infits _ => true
  | e => imgReqEv e

/-- Thread creation, mutex and condition-variable operations, and the
update of `done`. -/
def threadEv : Ev → Bool
  | .pthread_mutex_lock => true
  | .done_increment => true
  | .pthread_cond_signal => true
  | .pthread_mutex_unlock => true
  | .pthread_attr_init => true
  | .pthread_cond_init => true
  | .pthread_mutex_init => true
  | .pthread_attr_setdetachstate => true
  | .pthread_create _ => true
  | .pthread_cond_wait => true
  | .pthread_attr_destroy => true
  | _ => false

/-- The calls made by the check step (lines 77-96, 179-206). -/
def checkEv : Ev → Bool
  | .cropname _ _ => true
  | .iscenterfilled _ => true
  | .copyrightandend _ => true
  | .fits_close_outfits _ => true
  | .unlink _ => true
  | _ => false

/-- The calls made after the images of a request were tried: the check
step and the report. -/
def tailEv : Ev → Bool
  | .reporttiming _ => true
  | e => checkEv e

/-- The `(outindex, imgindex)` of the `radecoverlap` calls, in order. -/
def overlapTests (evs : List Ev) : List (Nat × Nat) :=
  evs.filterMap (fun e => match e with
    | .radecoverlap o i => some (o, i)
    | _ => none)

/-- The `(outindex, imgindex)` of the `onecrop` calls, in order. -/
def onecropCalls (evs : List Ev) : List (Nat × Nat) :=
  evs.filterMap (fun e => match e with
    | .onecrop o i => some (o, i)
    | _ => none)

/-- The indices `i` of the `pthread_create(&t[i], ...)` calls, in order. -/
def created (evs : List Ev) : List Nat :=
  evs.filterMap (fun e => match e with
    | .pthread_create i => some i
    | _ => none)

/-- The request that a call handles, for the call that the mode function
makes exactly once for every request of its block: `onecrop` in
`imgmodecrop` (where `crp->imgindex` is 0 throughout), `setcsides` in
`wcsmodecrop`. -/
def requestCall : Mode → Ev → Option Nat
  | .img, .onecrop o _ => some o
  | .wcs, .setcsides o => some o
  | _, _ => none

/-- The requests handled by a sequence of calls, in order. -/
def requestsHandled (m : Mode) (evs : List Ev) : List Nat :=
  evs.filterMap (requestCall m)

/-- The calls of a request of `wcsmodecrop` that follow its `setcsides`. -/
def wcsRestEv : Ev → Bool
  | .setcsides _ => false
  | e => wcsReqEv e

/-- The number of `readfitshdu` calls: how often a source was opened. -/
def sourceOpens (evs : List Ev) : Nat :=
  (evs.filter (fun e => match e with
    | .readfitshdu _ => true
    | _ => false)).length

/-- The number of `fits_close_file(crp->infits, ...)` calls. -/
def sourceCloses (evs : List Ev) : Nat :=
  (evs.filter (fun e => match e with
    | .fits_close_infits _ => true
    | _ => false)).length

/-- The source handle `crp->infits` of a worker: not open, open on image
`img`, or open on `img` with `onecrop` already done. -/
inductive Handle where
  | closed
  | opened (img : Nat)
  | cropped (img : Nat)
deriving DecidableEq, Repr

/-- One call seen by the scoped-handle discipline "open, crop, close at
once": `none` when the call breaks it (a source opened while one is open, a
close or an `onecrop` without an open source, or anything but `cropname`,
`onecrop` and the close while a source is open). -/
def handleStep : Handle → Ev → Option Handle
  | .closed, .readfitshdu i => some (.opened i)
  | .closed, .fits_close_infits _ => none
  | .closed, .onecrop _ _ => none
  | .closed, _ => some .closed
  | .opened i, .cropname _ _ => some (.opened i)
  | .opened i, .onecrop _ k => if k = i then some (.cropped i) else none
  | .opened _, _ => none
  | .cropped i, .fits_close_infits k => if k = i then some .closed else none
  | .cropped _, _ => none

/-- Run the discipline over a sequence of calls. -/
def handleScan : Handle → List Ev → Option Handle
  | h, [] => some h
  | h, e :: es =>
    match handleStep h e with
    | none => none
    | some h1 => handleScan h1 es

/-- The number of workers `i < k` to which `imgcrop` gives a thread: those
with `indexs[i*thrdcols] != NONTHRDINDEX`. -/
def launched (sentinel : Nat) (indexs : List Nat) (thrdcols k : Nat) : List Nat :=
  (List.range k).filter (fun i => decide (indexs.getD (i * thrdcols) sentinel ≠ sentinel))

/-- Spec side, "running the same jobs directly without pool machinery":
the requests `jobs` of pixel mode processed one after the other. -/
def direct_img (env : Env) (p : imgcropparams) : List Nat → State → Except Fatal State
  | [], s => .ok s
  | j :: jobs, s =>
    match imgmode_request env p s j with
    | .error e => .error e
    | .ok s1 => direct_img env p jobs s1

/-- Spec side: the requests `jobs` of sky mode processed one after the
other. -/
def direct_wcs (env : Env) (p : imgcropparams) : List Nat → State → Int →
    Except Fatal (State × Int)
  | [], s, t => .ok (s, t)
  | j :: jobs, s, t =>
    match wcs_request env p s t j with
    | .error e => .error e
    | .ok (s1, t1) => direct_wcs env p jobs s1 t1

/-- Spec side, "running the same jobs directly without pool machinery": the
list `jobs` of requests processed in order by the code of the mode, with no
array of blocks, no sentinel, no thread and no synchronisation. In pixel
mode the one source is opened before and closed after the requests. -/
def crop_direct (m : Mode) (env : Env) (p : imgcropparams) (jobs : List Nat) (s : State) :
    Except Fatal State :=
  match m with
  | .img =>
    match direct_img env p jobs (s.emit (.readfitshdu 0)) with
    | .error e => .error e
    | .ok s1 =>
      if env.fits_close_infits 0 ≠ 0 then .error .close_infits
      else .ok (s1.emit (.fits_close_infits 0))
  | .wcs =>
    match direct_wcs env p jobs s 0 with
    | .error e => .error e
    | .ok (s1, _) => .ok s1

/-- The state `s'` comes from `s` by calls that all satisfy `P`, by writes
to log slots listed in `B` only, and without a change of `done`. -/
def Advances (P : Ev → Bool) (B : List Nat) (s s' : State) : Prop :=
  (∃ evs, s'.trace = s.trace ++ evs ∧ ∀ e ∈ evs, P e = true) ∧
  s'.done = s.done ∧ ∀ j, j ∉ B → s'.log j = s.log j

/-- What holds of the process at every moment of the multi-threaded branch
of `imgcrop`, `base` being the threads created before the branch began:
the threads created so far are the workers with a non-empty block among
those the loop has passed, `numactive` is their number, every created
thread has either run (and counted itself in `done`) or is still to run,
and past the barrier none is still to run. -/
def SysInv (env : Env) (p : imgcropparams) (indexs : List Nat) (thrdcols : Nat)
    (base : List Nat) (sys : Sys) : Prop :=
  (∀ i ∈ sys.ready, i < p.numthreads) ∧
  match sys.ctrl with
  | .spawning i numactive =>
    i ≤ p.numthreads ∧
    created sys.st.trace = base ++ launched env.NONTHRDINDEX indexs thrdcols i ∧
    numactive = (launched env.NONTHRDINDEX indexs thrdcols i).length ∧
    sys.st.done + sys.ready.length = numactive
  | .waiting numactive =>
    created sys.st.trace = base ++ launched env.NONTHRDINDEX indexs thrdcols p.numthreads ∧
    numactive = (launched env.NONTHRDINDEX indexs thrdcols p.numthreads).length ∧
    sys.st.done + sys.ready.length = numactive
  | .finished =>
    created sys.st.trace = base ++ launched env.NONTHRDINDEX indexs thrdcols p.numthreads ∧
    sys.st.done = (launched env.NONTHRDINDEX indexs thrdcols p.numthreads).length ∧
    sys.ready = []
  | .aborted _ => True

/-- Parameters: two images, two threads, sky mode. -/
def params2 : imgcropparams where
  numimg := 2
  keepblankcenter := 0
  verb := 1
  numthreads := 2
  cs0 := 3
  imgmode := 0
  wcsmode := 1

/-- A schedule for two threads and one job: the controller goes through
its loop and waits, worker 0 runs, the controller is woken. -/
def sched2 : List Act :=
  [.controller, .controller, .controller, .worker 0, .controller]

/-! ## Test data -/

/-- An environment in which every overlap test succeeds, every image
contributes, no centre is filled and no call fails. -/
def env0 : Env where
  NONTHRDINDEX := 18446744073709551615
  radecoverlap := fun _ _ => 1
  onecrop := fun _ _ => true
  iscenterfilled := fun _ => 0
  cropname := fun _ _ => "crop.fits"
  fits_close_outfits := fun _ => 0
  fits_close_infits := fun _ => 0
  unlink := fun _ => 0
  malloc_crp := true
  malloc_t := true
  pthread_attr_init := 0
  pthread_cond_init := 0
  pthread_mutex_init := 0
  pthread_attr_setdetachstate := 0
  pthread_create := fun _ => 0

/-- The state at the start of `imgcrop`, with the catalog flag given. -/
def state0 (catset : Int) : State where
  log := fun _ => { name := none, numimg := 0, centerfilled := 0 }
  catset := catset
  done := 0
  trace := []

/-- As `env0`, but no image contributes to any crop, and `iscenterfilled`
would answer 1 if it were asked. -/
def env1 : Env :=
  { env0 with onecrop := fun _ _ => false, iscenterfilled := fun _ => 1 }

/-- A log in which image 0 has contributed to output 0. -/
def state1 : State where
  log := fun _ => { name := some "crop.fits", numimg := 1, centerfilled := 0 }
  catset := 1
  done := 0
  trace := []

/-- Parameters: two images, one thread, a catalog of three rows, pixel mode. -/
def params0 : imgcropparams where
  numimg := 2
  keepblankcenter := 0
  verb := 1
  numthreads := 1
  cs0 := 3
  imgmode := 1
  wcsmode := 0

end ImgCrop

/-!
# Image Crop: reading the command line (src/imgcrop/args.h)

A shallow embedding of `parse_opt`. `argp_error` prints its message and
ends the process, so `parse_opt` returns `Except ArgFatal _`. The helpers of
`checkset.h` that read a number from the argument (and end the process when
it is not one) and `nameisfits` are not part of the sources under study;
their results are collected in `ArgEnv`.
-/

namespace Args

/-- The `key` that argp hands to `parse_opt`: the character of an option,
one of the two special keys that `parse_opt` handles, or any other value. -/
inductive Key where
  | short (c : Char)
  | ARGP_KEY_ARG
  | ARGP_KEY_END
  | other (code : Int)
deriving DecidableEq, Repr

/-- The value `parse_opt` returns: 0 or `ARGP_ERR_UNKNOWN`. -/
inductive error_t where
  | zero
  | ARGP_ERR_UNKNOWN
deriving DecidableEq, Repr

/-- The ways `parse_opt` ends the process. -/
inductive ArgFatal where
  | argp_error (message : String)
  | checkset          -- a helper of checkset.h rejected the argument
  | malloc            -- error(EXIT_FAILURE, 0, NULL) after malloc
deriving DecidableEq, Repr

/-- Results of the helpers that `parse_opt` calls and that are not defined
in the sources under study. `none` means that the helper ended the process
with its own error message. -/
structure ArgEnv where
  /-- `nameisfits(arg)` -/
  nameisfits : String → Int
  /-- `sizetlzero`: a `size_t` larger than zero -/
  sizetlzero : String → Option Nat
  /-- `sizetelzero`: a `size_t` equal to or larger than zero -/
  sizetelzero : String → Option Nat
  /-- whether `anydouble` accepts the text as a double -/
  anydouble : String → Bool
  /-- whether `doublel0` accepts the text as a double larger than zero -/
  doublel0 : String → Bool
  /-- whether `malloc` for the suffix returned a non-NULL pointer -/
  malloc : Bool

/-- The fields of `struct uiparams` (`p->up`) that `parse_opt` uses.
`stll` is the linked list of image names (`NULL` is `[]`). -/
structure uiparams where
  catname : Option String
  stll : List String
  catset : Int
  imgmodeset : Int
  wcsmodeset : Int
  checkcenterset : Int
  suffixset : Int
  racolset : Int
  deccolset : Int
  raset : Int
  decset : Int
  xcolset : Int
  ycolset : Int
  xcset : Int
  ycset : Int
  iwidthset : Int
  wwidthset : Int
  sectionset : Int
deriving DecidableEq, Repr

/-- The fields of `struct commonparams` (`p->cp`) that `parse_opt` reads. -/
structure commonparams where
  setdirconf : Int
  setusrconf : Int
  printparams : Int
deriving DecidableEq, Repr

/-- The fields of `struct imgcropparams` that `parse_opt` uses. The fields
of type `double` (`ra`, `dec`, `xc`, `yc`, `wwidth`) are not represented:
of the call that reads them only whether it returns is kept. The field
`section` is called `sectionstr` here. -/
structure imgcropparams where
  up : uiparams
  cp : commonparams
  imgmode : Int
  wcsmode : Int
  noblank : Int
  keepblankcenter : Int
  zeroisnotblank : Int
  checkcenter : Nat
  racol : Nat
  deccol : Nat
  xcol : Nat
  ycol : Nat
  iwidth : Nat
  suffix : Option String
  sectionstr : Option String
  numimg : Nat
deriving DecidableEq, Repr

/-- The string behind `arg` where the source uses it without a test (argp
gives a non-NULL `arg` to the options declared with an argument and to
`ARGP_KEY_ARG`). -/
def argstr (arg : Option String) : String := arg.getD ""

/-- The lines of `parse_opt` for an option whose argument is read into a
`size_t` field by a helper of checkset.h. -/
def readSize (r : Option Nat) (store : Nat → imgcropparams) :
    Except ArgFatal (imgcropparams × error_t) :=
  match r with
  | none => .error .checkset
  | some v => .ok (store v, .zero)

/-- The lines of `parse_opt` for an option whose argument is read into a
`double` field by a helper of checkset.h. -/
def readDouble (accepted : Bool) (p1 : imgcropparams) :
    Except ArgFatal (imgcropparams × error_t) :=
  if accepted then .ok (p1, .zero) else .error .checkset

/-- The test `arg && arg[0]=='='` at the head of `parse_opt`. -/
def equal_sign (arg : Option String) : Bool :=
  match arg with
  | some a => decide (a.data.head? = some '=')
  | none => false

/-- The function `parse_opt` of args.h: one call, for `key` and `arg`, with
`arg_num` the value of `state->arg_num` and `p` the structure behind
`state->input`. The `switch(key)` is written as the chain of tests of
`key` against its case labels. -/
def parse_opt (env : ArgEnv) (key : Key) (arg : Option String) (arg_num : Nat)
    (p : imgcropparams) : Except ArgFatal (imgcropparams × error_t) :=
  if equal_sign arg = true then
    .error (.argp_error "Incorrect use of the equal sign")
  else
    if key = .short 'I' then
      if p.up.imgmodeset ≠ 0 then
        .error (.argp_error "Only one of Image or WCS modes can be chosen.")
      else
        .ok ({ p with imgmode := 1, wcsmode := 0,
                      up := { p.up with imgmodeset := 1, wcsmodeset := 1 } }, .zero)
    else if key = .short 'W' then
      if p.up.wcsmodeset ≠ 0 then
        .error (.argp_error "Only one of Image or WCS modes can be chosen.")
      else
        .ok ({ p with imgmode := 0, wcsmode := 1,
                      up := { p.up with imgmodeset := 1, wcsmodeset := 1 } }, .zero)
    else if key = .short 'b' then .ok ({ p with noblank := 1 }, .zero)
    else if key = .short 'k' then .ok ({ p with keepblankcenter := 1 }, .zero)
    else if key = .short 'c' then
      readSize (env.sizetlzero (argstr arg))
        (fun v => { p with checkcenter := v, up := { p.up with checkcenterset := 1 } })
    else if key = .short 'p' then
      if env.malloc = false then .error .malloc
      else .ok ({ p with suffix := some (argstr arg),
                         up := { p.up with suffixset := 1 } }, .zero)
    else if key = .short 'f' then
      readSize (env.sizetelzero (argstr arg))
        (fun v => { p with racol := v, up := { p.up with racolset := 1 } })
    else if key = .short 'g' then
      readSize (env.sizetelzero (argstr arg))
        (fun v => { p with deccol := v, up := { p.up with deccolset := 1 } })
    else if key = .short 'r' then
      readDouble (env.anydouble (argstr arg)) { p with up := { p.up with raset := 1 } }
    else if key = .short 'd' then
      readDouble (env.anydouble (argstr arg)) { p with up := { p.up with decset := 1 } }
    else if key = .short 'i' then
      readSize (env.sizetelzero (argstr arg))
        (fun v => { p with xcol := v, up := { p.up with xcolset := 1 } })
    else if key = .short 'j' then
      readSize (env.sizetelzero (argstr arg))
        (fun v => { p with ycol := v, up := { p.up with ycolset := 1 } })
    else if key = .short 'x' then
      readDouble (env.anydouble (argstr arg)) { p with up := { p.up with xcset := 1 } }
    else if key = .short 'y' then
      readDouble (env.anydouble (argstr arg)) { p with up := { p.up with ycset := 1 } }
    else if key = .short 'a' then
      readSize (env.sizetlzero (argstr arg))
        (fun v => { p with iwidth := v, up := { p.up with iwidthset := 1 } })
    else if key = .short 'w' then
      readDouble (env.doublel0 (argstr arg)) { p with up := { p.up with wwidthset := 1 } }
    else if key = .short 's' then
      .ok ({ p with sectionstr := arg, up := { p.up with sectionset := 1 } }, .zero)
    else if key = .short 'z' then .ok ({ p with zeroisnotblank := 1 }, .zero)
    else if key = .ARGP_KEY_ARG then
      if env.nameisfits (argstr arg) ≠ 0 then
        .ok ({ p with numimg := p.numimg + 1,
                      up := { p.up with stll := argstr arg :: p.up.stll } }, .zero)
      else if p.up.catname ≠ none then
        .error (.argp_error "Only one catalog file can be given.")
      else
        .ok ({ p with up := { p.up with catname := arg, catset := 1 } }, .zero)
    else if key = .ARGP_KEY_END then
      if p.cp.setdirconf = 0 ∧ p.cp.setusrconf = 0 ∧ p.cp.printparams = 0 then
        if arg_num = 0 then .error (.argp_error "No argument given!")
        else if p.up.catname = none ∧
            ¬ (p.up.xcset ≠ 0 ∨ p.up.ycset ≠ 0 ∨ p.up.raset ≠ 0 ∨ p.up.decset ≠ 0
               ∨ p.up.sectionset ≠ 0) then
          .error (.argp_error "No catalog provided!")
        else if p.up.stll = [] then
          .error (.argp_error "No FITS image(s) provided!")
        else .ok (p, .zero)
      else .ok (p, .zero)
    else .ok (p, .ARGP_ERR_UNKNOWN)

/-- One call of `parse_opt` as argp makes it: the key, `arg`, and the value
of `state->arg_num` at that call. -/
structure Call where
  key : Key
  arg : Option String
  arg_num : Nat
deriving DecidableEq, Repr

/-- The calls `calls` of `parse_opt` made one after the other on the same
structure, as argp does while it goes through the command line; the first
fatal error ends the run. (A return of `ARGP_ERR_UNKNOWN` is left to argp
and does not stop the run here.) -/
def parse_all (env : ArgEnv) : List Call → imgcropparams → Except ArgFatal imgcropparams
  | [], p => .ok p
  | c :: rest, p =>
    match parse_opt env c.key c.arg c.arg_num p with
    | .error e => .error e
    | .ok (p1, _) => parse_all env rest p1

/-- The structure before the command line is read: nothing set. -/
def params_init : imgcropparams where
  up := { catname := none, stll := [], catset := 0, imgmodeset := 0, wcsmodeset := 0,
          checkcenterset := 0, suffixset := 0, racolset := 0, deccolset := 0, raset := 0,
          decset := 0, xcolset := 0, ycolset := 0, xcset := 0, ycset := 0, iwidthset := 0,
          wwidthset := 0, sectionset := 0 }
  cp := { setdirconf := 0, setusrconf := 0, printparams := 0 }
  imgmode := 0
  wcsmode := 0
  noblank := 0
  keepblankcenter := 0
  zeroisnotblank := 0
  checkcenter := 0
  racol := 0
  deccol := 0
  xcol := 0
  ycol := 0
  iwidth := 0
  suffix := none
  sectionstr := none
  numimg := 0

/-- Helpers that accept every argument; every name but `cat.txt` is taken
for a FITS image. -/
def argenv0 : ArgEnv where
  nameisfits := fun a => if a = "cat.txt" then 0 else 1
  sizetlzero := fun _ => some 1
  sizetelzero := fun _ => some 0
  anydouble := fun _ => true
  doublel0 := fun _ => true
  malloc := true

end Args

/-!
# FITS helper library (src/lib/fits.c, src/lib/gnuastro/data.h)

A shallow embedding of the type conversions, of the keyword list, of
`gal_fits_file_name_in_keywords`, `gal_fits_update_keys`, the size check of
`gal_fits_read_float_kernel`, `gal_fits_read_wcs_from_pointer` and
`gal_fits_write_img_fitsptr`.

* `error(EXIT_FAILURE, ...)` ends the process: functions that can reach it
  return `Except FitsFatal _`.
* The macros of CFITSIO's `fitsio.h` are not part of the sources under
  study: the embedding is parametric in them (`Cfitsio`); `cfitsio` holds
  the values of `fitsio.h`. The results of the calls into CFITSIO and
  WCSLIB are parameters too.
* `malloc` is taken to return memory.
-/

namespace Fits

/-! ## data.h: `enum gal_data_alltypes` -/

/-- Member 0 of `enum gal_data_alltypes`. -/
def GAL_DATA_TYPE_BIT : Int := 0
/-- Member 1 of `enum gal_data_alltypes`. -/
def GAL_DATA_TYPE_UCHAR : Int := 1
/-- Member 2 of `enum gal_data_alltypes`. -/
def GAL_DATA_TYPE_CHAR : Int := 2
/-- Member 3 of `enum gal_data_alltypes`. -/
def GAL_DATA_TYPE_LOGICAL : Int := 3
/-- Member 4 of `enum gal_data_alltypes`. -/
def GAL_DATA_TYPE_STRING : Int := 4
/-- Member 5 of `enum gal_data_alltypes`. -/
def GAL_DATA_TYPE_USHORT : Int := 5
/-- Member 6 of `enum gal_data_alltypes`. -/
def GAL_DATA_TYPE_SHORT : Int := 6
/-- Member 7 of `enum gal_data_alltypes`. -/
def GAL_DATA_TYPE_UINT : Int := 7
/-- Member 8 of `enum gal_data_alltypes`. -/
def GAL_DATA_TYPE_INT : Int := 8
/-- Member 9 of `enum gal_data_alltypes`. -/
def GAL_DATA_TYPE_ULONG : Int := 9
/-- Member 10 of `enum gal_data_alltypes`. -/
def GAL_DATA_TYPE_LONG : Int := 10
/-- Member 11 of `enum gal_data_alltypes`. -/
def GAL_DATA_TYPE_LONGLONG : Int := 11
/-- Member 12 of `enum gal_data_alltypes`. -/
def GAL_DATA_TYPE_FLOAT : Int := 12
/-- Member 13 of `enum gal_data_alltypes`. -/
def GAL_DATA_TYPE_DOUBLE : Int := 13
/-- Member 14 of `enum gal_data_alltypes`. -/
def GAL_DATA_TYPE_COMPLEX : Int := 14
/-- Member 15 of `enum gal_data_alltypes`. -/
def GAL_DATA_TYPE_DCOMPLEX : Int := 15

/-- The members of `enum gal_data_alltypes`, in the order of data.h. -/
def gal_data_alltypes : List Int :=
  [GAL_DATA_TYPE_BIT, GAL_DATA_TYPE_UCHAR, GAL_DATA_TYPE_CHAR, GAL_DATA_TYPE_LOGICAL,
   GAL_DATA_TYPE_STRING, GAL_DATA_TYPE_USHORT, GAL_DATA_TYPE_SHORT, GAL_DATA_TYPE_UINT,
   GAL_DATA_TYPE_INT, GAL_DATA_TYPE_ULONG, GAL_DATA_TYPE_LONG, GAL_DATA_TYPE_LONGLONG,
   GAL_DATA_TYPE_FLOAT, GAL_DATA_TYPE_DOUBLE, GAL_DATA_TYPE_COMPLEX, GAL_DATA_TYPE_DCOMPLEX]

/-! ## Constants of CFITSIO -/

/-- The macros of `fitsio.h` that fits.c uses: the data type codes, the
image type (`BITPIX`) codes and two buffer lengths. -/
structure Cfitsio where
  TBIT : Int
  TBYTE : Int
  TSBYTE : Int
  TLOGICAL : Int
  TSTRING : Int
  TUSHORT : Int
  TSHORT : Int
  TUINT : Int
  TINT : Int
  TULONG : Int
  TLONG : Int
  TLONGLONG : Int
  TFLOAT : Int
  TDOUBLE : Int
  TCOMPLEX : Int
  TDBLCOMPLEX : Int
  BYTE_IMG : Int
  SBYTE_IMG : Int
  USHORT_IMG : Int
  SHORT_IMG : Int
  ULONG_IMG : Int
  LONG_IMG : Int
  LONGLONG_IMG : Int
  FLOAT_IMG : Int
  DOUBLE_IMG : Int
  FLEN_VALUE : Nat
  FLEN_KEYWORD : Nat

/-- The values that `fitsio.h` gives to the macros of `Cfitsio`. -/
def cfitsio : Cfitsio where
  TBIT := 1
  TBYTE := 11
  TSBYTE := 12
  TLOGICAL := 14
  TSTRING := 16
  TUSHORT := 20
  TSHORT := 21
  TUINT := 30
  TINT := 31
  TULONG := 40
  TLONG := 41
  TLONGLONG := 81
  TFLOAT := 42
  TDOUBLE := 82
  TCOMPLEX := 83
  TDBLCOMPLEX := 163
  BYTE_IMG := 8
  SBYTE_IMG := 10
  USHORT_IMG := 20
  SHORT_IMG := 16
  ULONG_IMG := 40
  LONG_IMG := 32
  LONGLONG_IMG := 64
  FLOAT_IMG := -32
  DOUBLE_IMG := -64
  FLEN_VALUE := 71
  FLEN_KEYWORD := 75

/-- The fatal exits of the embedded functions of fits.c. -/
inductive FitsFatal where
  /-- "type value of %d not recognized in gal_fits_type_to_bitpix" -/
  | type_to_bitpix (type : Int)
  /-- "'%d' is not a recognized Gnuastro type" -/
  | type_to_datatype (type : Int)
  /-- the exit of `gal_fits_io_error` for a non-zero status -/
  | io_error (status : Int)
  /-- "the filename ... has at least one span of %zu characters without a /" -/
  | no_slash (maxlength : Nat)
  /-- "the kernel image has to have an odd number of pixels in all dimensions" -/
  | even_kernel
  /-- "wcshdo ERROR %d" -/
  | wcshdo (status : Int)
  /-- an exit inside `gal_data_alloc_blank` -/
  | alloc_blank (type : Int)
deriving DecidableEq, Repr

/-! ## Type codes -/

/-- The function `gal_fits_type_to_bitpix` (the `switch` written as the
chain of tests of `type` against its case labels). -/
def gal_fits_type_to_bitpix (c : Cfitsio) (type : Int) : Except FitsFatal Int :=
  if type = GAL_DATA_TYPE_UCHAR then .ok c.BYTE_IMG
  else if type = GAL_DATA_TYPE_CHAR then .ok c.SBYTE_IMG
  else if type = GAL_DATA_TYPE_USHORT then .ok c.USHORT_IMG
  else if type = GAL_DATA_TYPE_SHORT then .ok c.SHORT_IMG
  else if type = GAL_DATA_TYPE_ULONG then .ok c.ULONG_IMG
  else if type = GAL_DATA_TYPE_LONG then .ok c.LONG_IMG
  else if type = GAL_DATA_TYPE_LONGLONG then .ok c.LONGLONG_IMG
  else if type = GAL_DATA_TYPE_FLOAT then .ok c.FLOAT_IMG
  else if type = GAL_DATA_TYPE_DOUBLE then .ok c.DOUBLE_IMG
  else .error (.type_to_bitpix type)

/-- The function `gal_fits_type_to_datatype`. -/
def gal_fits_type_to_datatype (c : Cfitsio) (type : Int) : Except FitsFatal Int :=
  if type = GAL_DATA_TYPE_BIT then .ok c.TBIT
  else if type = GAL_DATA_TYPE_UCHAR then .ok c.TBYTE
  else if type = GAL_DATA_TYPE_CHAR then .ok c.TSBYTE
  else if type = GAL_DATA_TYPE_STRING then .ok c.TSTRING
  else if type = GAL_DATA_TYPE_USHORT then .ok c.TUSHORT
  else if type = GAL_DATA_TYPE_SHORT then .ok c.TSHORT
  else if type = GAL_DATA_TYPE_UINT then .ok c.TUINT
  else if type = GAL_DATA_TYPE_INT then .ok c.TINT
  else if type = GAL_DATA_TYPE_ULONG then .ok c.TULONG
  else if type = GAL_DATA_TYPE_LONG then .ok c.TLONG
  else if type = GAL_DATA_TYPE_LONGLONG then .ok c.TLONGLONG
  else if type = GAL_DATA_TYPE_FLOAT then .ok c.TFLOAT
  else if type = GAL_DATA_TYPE_DOUBLE then .ok c.TDOUBLE
  else if type = GAL_DATA_TYPE_COMPLEX then .ok c.TCOMPLEX
  else if type = GAL_DATA_TYPE_DCOMPLEX then .ok c.TDBLCOMPLEX
  else .error (.type_to_datatype type)

/-- The CFITSIO code that the comment beside each member of
`enum gal_data_alltypes` in data.h names, in the order of the enum. -/
def data_h_comment (c : Cfitsio) : List Int :=
  [c.TBIT, c.TBYTE, c.TSBYTE, c.TLOGICAL, c.TSTRING, c.TUSHORT, c.TSHORT, c.TUINT, c.TINT,
   c.TLONG, c.TLONG, c.TLONGLONG, c.TFLOAT, c.TDOUBLE, c.TCOMPLEX, c.TDBLCOMPLEX]

/-! ## The list of keywords -/

/-- The byte that ends a C string. -/
def NUL : Char := Char.ofNat 0

/-- One node of `struct gal_fits_key_ll`; the list itself (the `next`
pointers) is a `List`. `value` is the buffer that the `void *` points to, as
its bytes (`none` is `NULL`). -/
structure gal_fits_key_ll where
  type : Int
  keyname : String
  value : Option (List Char)
  comment : Option String
  unit : Option String
  kfree : Int
  vfree : Int
  cfree : Int
deriving DecidableEq, Repr

/-- The function `gal_fits_add_to_key_ll_end`. -/
def gal_fits_add_to_key_ll_end (list : List gal_fits_key_ll) (type : Int) (keyname : String)
    (kfree : Int) (value : Option (List Char)) (vfree : Int) (comment : Option String)
    (cfree : Int) (unit : Option String) : List gal_fits_key_ll :=
  let newnode : gal_fits_key_ll :=
    { type := type, keyname := keyname, value := value, comment := comment, unit := unit,
      kfree := kfree, vfree := vfree, cfree := cfree }
  if list ≠ [] then list ++ [newnode]
  else newnode :: list

/-- The C string held in a buffer: the bytes before the first NUL. -/
def cstring (buf : List Char) : List Char :=
  buf.takeWhile (fun ch => decide (ch ≠ NUL))

/-- The buffer of `n` bytes after `strncpy(value, from, n)`, `from` being a C
string with the characters `src`: the first `n` characters of `src`, then
NUL bytes up to `n`. -/
def strncpy (src : List Char) (n : Nat) : List Char :=
  src.take n ++ List.replicate (n - src.length) NUL

/-- The loop `for(j=maxlength-2;j>0;--j) if(value[j]=='/') { value[j+1]='\0';
break; }` of `gal_fits_file_name_in_keywords`, entered with the given `j`:
the value of `j` after the loop and the buffer. -/
def find_slash (value : List Char) : (j : Nat) → Nat × List Char
  | 0 => (0, value)
  | j + 1 =>
    if value.getD (j + 1) NUL = '/' then (j + 1, value.set (j + 2) NUL)
    else find_slash value j

/-- The loop `while(i<len)` of `gal_fits_file_name_in_keywords`, entered
with the given `i`, `numkey` and list. `fuel` bounds the number of rounds;
`none` is returned when it does not suffice. (`malloc` is taken to succeed,
and `sprintf` to find room for the name in the `FLEN_KEYWORD` bytes of
`keyname`.) -/
def file_name_loop (c : Cfitsio) (keynamebase : String) (filename : List Char) :
    (fuel : Nat) → (i numkey : Nat) → List gal_fits_key_ll →
    Option (Except FitsFatal (List gal_fits_key_ll))
  | 0, i, _, list => if i < filename.length then none else some (.ok list)
  | fuel + 1, i, numkey, list =>
    if i < filename.length then
      let maxlength := c.FLEN_VALUE - 3
      let keyname := keynamebase ++ "_" ++ toString numkey
      let value := strncpy (filename.drop i) maxlength
      if value.getD (maxlength - 1) NUL = NUL then
        some (.ok (gal_fits_add_to_key_ll_end list c.TSTRING keyname 1 (some value) 1
          none 0 none))
      else
        let r := find_slash value (maxlength - 2)
        if r.1 = 0 then some (.error (.no_slash maxlength))
        else
          file_name_loop c keynamebase filename fuel (i + r.1 + 1) (numkey + 1)
            (gal_fits_add_to_key_ll_end list c.TSTRING keyname 1 (some r.2) 1 none 0 none)
    else some (.ok list)

/-- The function `gal_fits_file_name_in_keywords`; `filename` is the
characters of the C string. Every round of the loop but the last moves `i`
forward, so `len` rounds suffice. -/
def gal_fits_file_name_in_keywords (c : Cfitsio) (keynamebase : String)
    (filename : List Char) (list : List gal_fits_key_ll) :
    Option (Except FitsFatal (List gal_fits_key_ll)) :=
  file_name_loop c keynamebase filename filename.length 0 1 list

/-- Results of the CFITSIO calls of `gal_fits_update_keys`, by keyword
name: the status the call returns. -/
structure KeysEnv where
  fits_update_key : String → Int
  fits_update_key_null : String → Int
  fits_write_key_unit : String → Int

/-- The function `gal_fits_update_keys`: the keywords written, as pairs of
the CFITSIO data type (`none` for `fits_update_key_null`) and the name. The
arguments of `fits_update_key` are evaluated before it is called. -/
def gal_fits_update_keys (c : Cfitsio) (env : KeysEnv) :
    List gal_fits_key_ll → Except FitsFatal (List (Option Int × String))
  | [] => .ok []
  | tmp :: rest =>
    let written : Except FitsFatal (Option Int × String) :=
      if tmp.value ≠ none then
        match gal_fits_type_to_datatype c tmp.type with
        | .error e => .error e
        | .ok datatype =>
          if env.fits_update_key tmp.keyname ≠ 0 then
            .error (.io_error (env.fits_update_key tmp.keyname))
          else .ok (some datatype, tmp.keyname)
      else
        if env.fits_update_key_null tmp.keyname ≠ 0 then
          .error (.io_error (env.fits_update_key_null tmp.keyname))
        else .ok (none, tmp.keyname)
    match written with
    | .error e => .error e
    | .ok w =>
      if tmp.unit ≠ none ∧ env.fits_write_key_unit tmp.keyname ≠ 0 then
        .error (.io_error (env.fits_write_key_unit tmp.keyname))
      else
        match gal_fits_update_keys c env rest with
        | .error e => .error e
        | .ok ws => .ok (w :: ws)

/-- Whether the list has a run of at least `n` consecutive characters none
of which is '/': whether, from some position on, the characters before the
next '/' are at least `n`. -/
def hasRun (n : Nat) (l : List Char) : Bool :=
  l.tails.any (fun t => decide (n ≤ (t.takeWhile (fun ch => decide (ch ≠ '/'))).length))

/-- The node that one round of the loop of `gal_fits_file_name_in_keywords`
adds: `gal_fits_add_to_key_ll_end(list, TSTRING, keyname, 1, value, 1, NULL,
0, NULL)` with the name `keynamebase_numkey` and the buffer `value`. -/
def file_name_node (c : Cfitsio) (keynamebase : String) (numkey : Nat) (value : List Char) :
    gal_fits_key_ll :=
  { type := c.TSTRING, keyname := keynamebase ++ "_" ++ toString numkey,
    value := some value, comment := none, unit := none, kfree := 1, vfree := 1, cfree := 0 }

/-- The string value of a node: the C string in its buffer (empty for
`NULL`). -/
def node_string (n : gal_fits_key_ll) : List Char :=
  match n.value with
  | some buf => cstring buf
  | none => []

/-! ## The kernel -/

/-- The loop `for(i=0;i<kernel->ndim;++i) check=kernel->dsize[i]%2;` of
`gal_fits_read_float_kernel`: the value of `check` after it (`%` of C
rounds towards zero). -/
def kernel_check : List Int → Int → Int
  | [], check => check
  | d :: rest, _ => kernel_check rest (d.tmod 2)

/-- Lines 1322-1331 of `gal_fits_read_float_kernel`: the test of the sizes
`dsize` of the kernel (`ndim` is their number). In `check!=kernel->ndim` the
`int` is converted to `size_t`. -/
def kernel_size_test (dsize : List Int) : Except FitsFatal Unit :=
  let check := kernel_check dsize 0
  if check % (2 ^ 64 : Int) ≠ (dsize.length : Int) then .error .even_kernel
  else .ok ()

/-- The loop `for(i=0;i<kernel->size/2;++i) { tmp=f[i]; f[i]=f[size-i-1];
f[size-i-1]=tmp; }` of `gal_fits_read_float_kernel`, entered with the given
`i` and array `f` (the elements are only moved, so their type is left
open). `fuel` bounds the number of rounds; `none` is returned when it does
not suffice, and when a round would touch an element outside the array. -/
def flip_loop {α : Type} (size : Nat) : (fuel i : Nat) → List α → Option (List α)
  | 0, i, f => if i < size / 2 then none else some f
  | fuel + 1, i, f =>
    if i < size / 2 then
      match f[i]?, f[size - i - 1]? with
      | some tmp, some last =>
        flip_loop size fuel (i + 1) ((f.set i last).set (size - i - 1) tmp)
      | _, _ => none
    else some f

/-- Lines 1345-1353 of `gal_fits_read_float_kernel`: the flip of the array
`f` of a kernel with `size` elements. Every round moves `i` forward, so
`size/2` rounds suffice. -/
def kernel_flip {α : Type} (size : Nat) (f : List α) : Option (List α) :=
  flip_loop size (size / 2) 0 f

/-! ## Reading the WCS -/

/-- Results of the calls that `gal_fits_read_wcs_from_pointer` makes. A
`wcsprm` structure is stood for by a number; `none` is `NULL`. A CFITSIO
call returns the status it leaves in `status`. -/
structure WcsEnv where
  /-- the status `fits_hdr2str` returns -/
  fits_hdr2str : Int
  /-- the status `wcspih` returns -/
  wcspih : Int
  /-- what `wcspih` stores in `*nwcs` -/
  wcspih_nwcs : Int
  /-- what `wcspih` stores in `*wcs` -/
  wcspih_wcs : Option Nat
  /-- the status `fits_free_memory` returns, from the status it is given -/
  fits_free_memory : Int → Int
  /-- the status `wcsset` returns for its argument -/
  wcsset : Option Nat → Int

/-- The function `gal_fits_read_wcs_from_pointer`: the values it leaves in
`*nwcs` and `*wcs`. (The cut of the header to the keywords between
`hstartwcs` and `hendwcs` only changes what `wcspih` is given.) -/
def gal_fits_read_wcs_from_pointer (env : WcsEnv) : Except FitsFatal (Int × Option Nat) :=
  if env.fits_hdr2str ≠ 0 then .error (.io_error env.fits_hdr2str)
  else
    let status := env.wcspih
    let r : Int × Option Nat :=
      if status ≠ 0 then (0, none) else (env.wcspih_nwcs, env.wcspih_wcs)
    let status1 := env.fits_free_memory status
    if status1 ≠ 0 then .error (.io_error status1)
    else
      let status2 := env.wcsset r.2
      if status2 ≠ 0 then .ok (0, none) else .ok r

/-! ## Writing an image -/

/-- The fields of `gal_data_t` that `gal_fits_write_img_fitsptr` reads. -/
structure gal_data_t where
  type : Int
  ndim : Nat
  dsize : List Int
  anyblank : Int
  wcs : Option Nat
deriving DecidableEq, Repr

/-- The calls into CFITSIO and WCSLIB that `gal_fits_write_img_fitsptr`
makes. -/
inductive FitsCall where
  | fits_open_file
  | fits_create_file
  | fits_create_img (bitpix : Int)
  | fits_write_img (datatype : Int)
  | fits_write_key (datatype : Int) (keyname : String)
  | wcshdo
  | fits_write_record (n : Nat)
deriving DecidableEq, Repr

/-- Results of the calls of `gal_fits_write_img_fitsptr`. A CFITSIO call
returns the status it leaves in `status`, as a function of the status it is
given. -/
structure WriteEnv where
  /-- the value of `access(filename,F_OK)` -/
  access : Int
  fits_open_file : Int → Int
  fits_create_file : Int → Int
  fits_create_img : Int → Int
  fits_write_img : Int → Int
  /-- whether `gal_data_alloc_blank(type)` returns; its body is not among
  the sources, and a call that does not return ends the process -/
  gal_data_alloc_blank : Int → Bool
  /-- `fits_write_key` for "BLANK" -/
  fits_write_key_blank : Int → Int
  /-- `fits_write_key` for "EXTNAME" -/
  fits_write_key_extname : Int → Int
  /-- the status `wcshdo` returns, and the `nkeyrec` it stores -/
  wcshdo : Int
  nkeyrec : Int
  /-- `fits_write_record` for the `n`-th record that
  `gal_fits_add_wcs_to_header` writes -/
  fits_write_record : Nat → Int → Int

/-- What a run of `gal_fits_write_img_fitsptr` did: the calls made, in
order, and the fatal exit if it ended in one. -/
structure WriteResult where
  calls : List FitsCall
  fatal : Option FitsFatal
deriving DecidableEq, Repr

/-- The loop `for(h=0;h<nkeyrec-1;++h) fits_write_record(...)` of
`gal_fits_add_wcs_to_header`: the status after the records `n`, `n+1`, ...
(`count` of them). -/
def write_records (env : WriteEnv) : (count : Nat) → (n : Nat) → Int → Int
  | 0, _, status => status
  | count + 1, n, status => write_records env count (n + 1) (env.fits_write_record n status)

/-- The function `gal_fits_add_wcs_to_header`. -/
def gal_fits_add_wcs_to_header (env : WriteEnv) (nkeyrec : Int) : WriteResult :=
  let s1 := env.fits_write_record 0 0
  if s1 ≠ 0 then { calls := [.fits_write_record 0], fatal := some (.io_error s1) }
  else
    let s2 := env.fits_write_record 1 s1
    if s2 ≠ 0 then
      { calls := [.fits_write_record 0, .fits_write_record 1], fatal := some (.io_error s2) }
    else
      let count := (nkeyrec - 1).toNat
      let s3 := write_records env count 2 s2
      { calls := [.fits_write_record 0, .fits_write_record 1]
          ++ (List.range count).map (fun h => .fits_write_record (h + 2)),
        fatal := if s3 ≠ 0 then some (.io_error s3) else none }

/-- The test of lines 1390-1394: the type is one of the nine listed. -/
def blank_types (type : Int) : Bool :=
  decide (type = GAL_DATA_TYPE_UCHAR ∨ type = GAL_DATA_TYPE_CHAR
    ∨ type = GAL_DATA_TYPE_USHORT ∨ type = GAL_DATA_TYPE_SHORT
    ∨ type = GAL_DATA_TYPE_UINT ∨ type = GAL_DATA_TYPE_INT
    ∨ type = GAL_DATA_TYPE_ULONG ∨ type = GAL_DATA_TYPE_LONG
    ∨ type = GAL_DATA_TYPE_LONGLONG)

/-- The function `gal_fits_write_img_fitsptr`. -/
def gal_fits_write_img_fitsptr (c : Cfitsio) (env : WriteEnv) (data : gal_data_t) :
    WriteResult :=
  match gal_fits_type_to_datatype c data.type with
  | .error e => { calls := [], fatal := some e }
  | .ok datatype =>
    let calls1 : List FitsCall :=
      if env.access ≠ -1 then [.fits_open_file] else [.fits_create_file]
    let status1 : Int :=
      if env.access ≠ -1 then env.fits_open_file 0 else env.fits_create_file 0
    match gal_fits_type_to_bitpix c data.type with
    | .error e => { calls := calls1, fatal := some e }
    | .ok bitpix =>
      let status2 := env.fits_create_img status1
      let status3 := env.fits_write_img status2
      let calls3 := calls1 ++ [.fits_create_img bitpix, .fits_write_img datatype]
      let blankstep : Bool := decide (data.anyblank ≠ 0) && blank_types data.type
      if blankstep = true ∧ env.gal_data_alloc_blank data.type = false then
        { calls := calls3, fatal := some (.alloc_blank data.type) }
      else
      let status4 := if blankstep then env.fits_write_key_blank status3 else status3
      let calls4 := if blankstep then calls3 ++ [.fits_write_key datatype "BLANK"] else calls3
      if blankstep = true ∧ status4 ≠ 0 then
        { calls := calls4, fatal := some (.io_error status4) }
      else
        let status5 := env.fits_write_key_extname status4
        let calls5 := calls4 ++ [.fits_write_key c.TSTRING "EXTNAME"]
        if status5 ≠ 0 then { calls := calls5, fatal := some (.io_error status5) }
        else if data.wcs ≠ none then
          if env.wcshdo ≠ 0 then
            { calls := calls5 ++ [.wcshdo], fatal := some (.wcshdo env.wcshdo) }
          else
            let w := gal_fits_add_wcs_to_header env env.nkeyrec
            { calls := calls5 ++ [.wcshdo] ++ w.calls, fatal := w.fatal }
        else { calls := calls5, fatal := none }

/-! ## Test data -/

/-- CFITSIO calls that all succeed. -/
def keysenv0 : KeysEnv where
  fits_update_key := fun _ => 0
  fits_update_key_null := fun _ => 0
  fits_write_key_unit := fun _ => 0

/-- A header that `wcspih` rejects with status 4; `fits_free_memory`, as
every CFITSIO routine, returns at once with the status it is given when that
status is positive. -/
def wcsenv_rejected : WcsEnv where
  fits_hdr2str := 0
  wcspih := 4
  wcspih_nwcs := 0
  wcspih_wcs := none
  fits_free_memory := fun status => status
  wcsset := fun w => if w = none then 1 else 0

/-- A header that `wcspih` and `wcsset` accept. -/
def wcsenv_accepted : WcsEnv where
  fits_hdr2str := 0
  wcspih := 0
  wcspih_nwcs := 1
  wcspih_wcs := some 7
  fits_free_memory := fun status => status
  wcsset := fun w => if w = none then 1 else 0

/-- CFITSIO and WCSLIB calls that keep the status they are given; the file
does not exist yet. -/
def writeenv0 : WriteEnv where
  access := -1
  fits_open_file := fun status => status
  fits_create_file := fun status => status
  fits_create_img := fun status => status
  fits_write_img := fun status => status
  gal_data_alloc_blank := fun _ => true
  fits_write_key_blank := fun status => status
  fits_write_key_extname := fun status => status
  wcshdo := 0
  nkeyrec := 1
  fits_write_record := fun _ status => status

/-- Sixty-seven times the letter a, then a '/'. -/
def name67 : List Char := List.replicate 67 'a' ++ ['/']

/-- An image of 3 x 3 bytes with blank pixels and no WCS. -/
def data_uchar_blank : gal_data_t :=
  { type := GAL_DATA_TYPE_UCHAR, ndim := 2, dsize := [3, 3], anyblank := 1, wcs := none }

/-- Sixty-eight times the letter a. -/
def name68 : List Char := List.replicate 68 'a'

/-- A directory of forty letters and a file of forty letters in it. -/
def name81 : List Char := List.replicate 40 'd' ++ ['/'] ++ List.replicate 40 'f'

end Fits

namespace ImgCrop

/-! ## Basic facts about the state operations -/

@[simp]
theorem emit_trace (s : State) (e : Ev) : (s.emit e).trace = s.trace ++ [e] := rfl
@[simp]
theorem emit_log (s : State) (e : Ev) : (s.emit e).log = s.log := rfl
@[simp]
theorem emit_done (s : State) (e : Ev) : (s.emit e).done = s.done := rfl
@[simp]
theorem emit_catset (s : State) (e : Ev) : (s.emit e).catset = s.catset := rfl
@[simp]
theorem setLog_trace (s : State) (i : Nat) (f : imgcroplog → imgcroplog) :
    (s.setLog i f).trace = s.trace := rfl
@[simp]
theorem setLog_done (s : State) (i : Nat) (f : imgcroplog → imgcroplog) :
    (s.setLog i f).done = s.done := rfl
@[simp]
theorem setLog_catset (s : State) (i : Nat) (f : imgcroplog → imgcroplog) :
    (s.setLog i f).catset = s.catset := rfl
@[simp]
theorem setLog_log_same (s : State) (i : Nat) (f : imgcroplog → imgcroplog) :
    (s.setLog i f).log i = f (s.log i) := by
  simp [State.setLog]

theorem setLog_log_other (s : State) (i j : Nat) (f : imgcroplog → imgcroplog) (h : j ≠ i) :
    (s.setLog i f).log j = s.log j := by
  simp [State.setLog, Function.update, h]

@[simp]
theorem setCatset_trace (s : State) (c : Int) : (s.setCatset c).trace = s.trace := rfl
@[simp]
theorem setCatset_log (s : State) (c : Int) : (s.setCatset c).log = s.log := rfl
@[simp]
theorem setCatset_done (s : State) (c : Int) : (s.setCatset c).done = s.done := rfl
@[simp]
theorem setCatset_catset (s : State) (c : Int) : (s.setCatset c).catset = c := rfl

theorem advances_refl (P : Ev → Bool) (B : List Nat) (s : State) : Advances P B s s :=
  ⟨⟨[], by simp, by simp⟩, rfl, fun _ _ => rfl⟩

theorem advances_trans {P : Ev → Bool} {B : List Nat} {s s1 s2 : State}
    (h1 : Advances P B s s1) (h2 : Advances P B s1 s2) : Advances P B s s2 := by
  obtain ⟨⟨ev1, ht1, hp1⟩, hd1, hl1⟩ := h1
  obtain ⟨⟨ev2, ht2, hp2⟩, hd2, hl2⟩ := h2
  refine ⟨⟨ev1 ++ ev2, by rw [ht2, ht1, List.append_assoc], ?_⟩, by rw [hd2, hd1], ?_⟩
  · intro e he
    rcases List.mem_append.mp he with h | h
    · exact hp1 e h
    · exact hp2 e h
  · intro j hj
    rw [hl2 j hj, hl1 j hj]

theorem advances_mono {P : Ev → Bool} {B B' : List Nat} {s s' : State}
    (hB : ∀ j, j ∈ B → j ∈ B') (h : Advances P B s s') : Advances P B' s s' :=
  ⟨h.1, h.2.1, fun j hj => h.2.2 j (fun hjB => hj (hB j hjB))⟩

theorem advances_weaken {P Q : Ev → Bool} {B : List Nat} {s s' : State}
    (hPQ : ∀ e, P e = true → Q e = true) (h : Advances P B s s') : Advances Q B s s' := by
  obtain ⟨⟨ev, ht, hp⟩, hd, hl⟩ := h
  exact ⟨⟨ev, ht, fun e he => hPQ e (hp e he)⟩, hd, hl⟩

theorem advances_emit {P : Ev → Bool} {B : List Nat} {s s1 : State} (e : Ev)
    (h : Advances P B s s1) (he : P e = true) : Advances P B s (s1.emit e) :=
  advances_trans h ⟨⟨[e], rfl, by simpa using he⟩, rfl, fun _ _ => rfl⟩

theorem advances_setLog {P : Ev → Bool} {B : List Nat} {s s1 : State} (i : Nat)
    (f : imgcroplog → imgcroplog) (h : Advances P B s s1) (hi : i ∈ B) :
    Advances P B s (s1.setLog i f) :=
  advances_trans h ⟨⟨[], by simp, by simp⟩, rfl, fun j hj =>
    setLog_log_other s1 i j f (fun hji => hj (hji ▸ hi))⟩

theorem advances_setCatset {P : Ev → Bool} {B : List Nat} {s s1 : State} (c : Int)
    (h : Advances P B s s1) : Advances P B s (s1.setCatset c) :=
  advances_trans h ⟨⟨[], by simp, by simp⟩, rfl, fun _ _ => rfl⟩

theorem advances_cropname {P : Ev → Bool} {B : List Nat} {s s1 : State} (env : Env) (i : Nat)
    (h : Advances P B s s1) (hP : ∀ c, P (.cropname i c) = true) (hi : i ∈ B) :
    Advances P B s (cropname env s1 i) :=
  advances_setLog i _ (advances_emit _ h (hP _)) hi

theorem advances_onecrop {P : Ev → Bool} {B : List Nat} {s s1 : State} (env : Env) (i k : Nat)
    (h : Advances P B s s1) (hP : P (.onecrop i k) = true) (hi : i ∈ B) :
    Advances P B s (onecrop env s1 i k) :=
  advances_setLog i _ (advances_emit _ h hP) hi

theorem advances_report {P : Ev → Bool} {B : List Nat} {s s1 : State} (p : imgcropparams)
    (i : Nat) (h : Advances P B s s1) (hP : P (.reporttiming i) = true) :
    Advances P B s (report p s1 i) := by
  unfold report
  split
  · exact advances_emit _ h hP
  · exact h

theorem imgReqEv_wcsReqEv (e : Ev) (h : imgReqEv e = true) : wcsReqEv e = true := by
  cases e <;> simp_all [imgReqEv, wcsReqEv]

theorem checkEv_imgReqEv (e : Ev) (h : checkEv e = true) : imgReqEv e = true := by
  cases e <;> simp_all [imgReqEv, checkEv]

/-- The check step of either mode, when it returns: calls of the request
kind, writes to slot `outindex` only. -/
theorem imgmode_check_advances (env : Env) (p : imgcropparams) (s s' : State) (outindex : Nat)
    (h : imgmode_check env p s outindex = .ok s') : Advances checkEv [outindex] s s' := by
  have hm : outindex ∈ [outindex] := by simp
  unfold imgmode_check at h
  simp only at h
  split_ifs at h <;> cases h
  · exact advances_emit _ (advances_emit _ (advances_emit _ (advances_setLog _ _
      (advances_emit _ (advances_refl _ _ _) rfl) hm) rfl) rfl) rfl
  · exact advances_emit _ (advances_emit _ (advances_setLog _ _
      (advances_emit _ (advances_refl _ _ _) rfl) hm) rfl) rfl
  · exact advances_setLog _ _ (advances_refl _ _ _) hm

theorem imgmode_request_advances (env : Env) (p : imgcropparams) (s s' : State) (outindex : Nat)
    (h : imgmode_request env p s outindex = .ok s') : Advances imgReqEv [outindex] s s' := by
  have hm : outindex ∈ [outindex] := by simp
  unfold imgmode_request at h
  simp only at h
  split at h
  · cases h
  · rename_i s4 hc
    cases h
    have h3 : Advances imgReqEv [outindex] s
        (onecrop env (cropname env (s.setLog outindex (fun l => { l with numimg := 0 }))
          outindex) outindex 0) :=
      advances_onecrop env _ _ (advances_cropname env _
        (advances_setLog _ _ (advances_refl _ _ _) hm) (fun _ => rfl) hm) rfl hm
    exact advances_report p _
      (advances_trans h3 (advances_weaken checkEv_imgReqEv
        (imgmode_check_advances env p _ _ outindex hc))) rfl

theorem takeWhile_cons_ne (S x : Nat) (rest : List Nat) (hx : x ≠ S) :
    (x :: rest).takeWhile (fun y => decide (y ≠ S))
      = x :: rest.takeWhile (fun y => decide (y ≠ S)) := by
  rw [List.takeWhile_cons_of_pos]
  simpa using hx

theorem imgmode_loop_advances (env : Env) (p : imgcropparams) :
    ∀ (l : List Nat) (s s' : State), imgmode_loop env p l s = .ok s' →
      Advances imgReqEv (l.takeWhile (fun y => decide (y ≠ env.NONTHRDINDEX))) s s' := by
  intro l
  induction l with
  | nil =>
    intro s s' h
    simp only [imgmode_loop] at h
    cases h
    exact advances_refl _ _ _
  | cons x rest ih =>
    intro s s' h
    simp only [imgmode_loop] at h
    split_ifs at h with hx
    · cases h
      exact advances_refl _ _ _
    · split at h
      · cases h
      · rename_i s1 hr
        rw [takeWhile_cons_ne _ _ _ hx]
        exact advances_trans
          (advances_mono (fun j hj => by
              rw [List.mem_singleton] at hj
              rw [hj]
              exact List.mem_cons_self _ _)
            (imgmode_request_advances env p s s1 x hr))
          (advances_mono (fun j hj => List.mem_cons_of_mem _ hj) (ih s1 s' h))

theorem wcs_image_advances (env : Env) (s s' : State) (outindex imgindex : Nat)
    (h : wcs_image env s outindex imgindex = .ok s') : Advances wcsReqEv [outindex] s s' := by
  have hm : outindex ∈ [outindex] := by simp
  unfold wcs_image at h
  simp only at h
  split_ifs at h <;> cases h
  · exact advances_emit _ (advances_onecrop env _ _ (advances_cropname env _
      (advances_emit _ (advances_emit _ (advances_refl _ _ _) rfl) rfl) (fun _ => rfl) hm)
      rfl hm) rfl
  · exact advances_emit _ (advances_onecrop env _ _
      (advances_emit _ (advances_emit _ (advances_refl _ _ _) rfl) rfl) rfl hm) rfl
  · exact advances_emit _ (advances_refl _ _ _) rfl

theorem wcs_images_advances (env : Env) (outindex : Nat) :
    ∀ (more imgindex : Nat) (s s' : State),
      wcs_images env outindex more imgindex s = .ok s' → Advances wcsReqEv [outindex] s s' := by
  intro more
  induction more with
  | zero =>
    intro imgindex s s' h
    exact wcs_image_advances env s s' outindex imgindex h
  | succ more ih =>
    intro imgindex s s' h
    simp only [wcs_images] at h
    split at h
    · cases h
    · rename_i s1 h1
      exact advances_trans (wcs_image_advances env s s1 outindex imgindex h1)
        (ih (imgindex + 1) s1 s' h)

theorem wcs_check_advances (env : Env) (p : imgcropparams) (s s' : State) (t t' : Int)
    (outindex : Nat) (h : wcs_check env p s t outindex = .ok (s', t')) :
    Advances checkEv [outindex] s s' := by
  have hm : outindex ∈ [outindex] := by simp
  unfold wcs_check at h
  simp only at h
  split_ifs at h <;> cases h
  · exact advances_emit _ (advances_emit _ (advances_emit _ (advances_setLog _ _
      (advances_emit _ (advances_refl _ _ _) rfl) hm) rfl) rfl) rfl
  · exact advances_emit _ (advances_emit _ (advances_setLog _ _
      (advances_emit _ (advances_refl _ _ _) rfl) hm) rfl) rfl
  · exact advances_setLog _ _ (advances_setCatset _ (advances_cropname env _
      (advances_setCatset _ (advances_refl _ _ _)) (fun _ => rfl) hm)) hm
  · exact advances_setLog _ _ (advances_setCatset _ (advances_cropname env _
      (advances_setCatset _ (advances_refl _ _ _)) (fun _ => rfl) hm)) hm
  · exact advances_setLog _ _ (advances_setCatset _ (advances_cropname env _
      (advances_refl _ _ _) (fun _ => rfl) hm)) hm
  · exact advances_setLog _ _ (advances_cropname env _
      (advances_refl _ _ _) (fun _ => rfl) hm) hm

theorem wcs_request_advances (env : Env) (p : imgcropparams) (s s' : State) (t t' : Int)
    (outindex : Nat) (h : wcs_request env p s t outindex = .ok (s', t')) :
    Advances wcsReqEv [outindex] s s' := by
  have hm : outindex ∈ [outindex] := by simp
  unfold wcs_request at h
  simp only at h
  split at h
  · cases h
  · rename_i s3 h3
    split at h
    · cases h
    · rename_i s4 t4 h4
      cases h
      have h2 : Advances wcsReqEv [outindex] s
          ((s.setLog outindex (fun l => { l with name := none, numimg := 0 })).emit
            (.setcsides outindex)) :=
        advances_emit _ (advances_setLog _ _ (advances_refl _ _ _) hm) rfl
      exact advances_report p _ (advances_trans (advances_trans h2
        (wcs_images_advances env outindex _ _ _ _ h3))
        (advances_weaken (fun e he => imgReqEv_wcsReqEv e (checkEv_imgReqEv e he))
          (wcs_check_advances env p _ _ _ _ outindex h4))) rfl

theorem wcs_loop_advances (env : Env) (p : imgcropparams) :
    ∀ (l : List Nat) (s s' : State) (t t' : Int), wcs_loop env p l s t = .ok (s', t') →
      Advances wcsReqEv (l.takeWhile (fun y => decide (y ≠ env.NONTHRDINDEX))) s s' := by
  intro l
  induction l with
  | nil =>
    intro s s' t t' h
    simp only [wcs_loop] at h
    cases h
    exact advances_refl _ _ _
  | cons x rest ih =>
    intro s s' t t' h
    simp only [wcs_loop] at h
    split_ifs at h with hx
    · cases h
      exact advances_refl _ _ _
    · split at h
      · cases h
      · rename_i s1 t1 hr
        rw [takeWhile_cons_ne _ _ _ hx]
        exact advances_trans
          (advances_mono (fun j hj => by
              rw [List.mem_singleton] at hj
              rw [hj]
              exact List.mem_cons_self _ _)
            (wcs_request_advances env p s s1 t t1 x hr))
          (advances_mono (fun j hj => List.mem_cons_of_mem _ hj) (ih s1 s' t1 t' h))

/-! ## The workers as a whole -/

theorem signal_done_log (p : imgcropparams) (s : State) : (signal_done p s).log = s.log := by
  unfold signal_done
  split <;> rfl

theorem signal_done_single (p : imgcropparams) (s : State) (h : p.numthreads ≤ 1) :
    signal_done p s = s := by
  unfold signal_done
  rw [if_neg (by omega)]

theorem signal_done_multi (p : imgcropparams) (s : State) (h : 1 < p.numthreads) :
    (signal_done p s).done = s.done + 1 ∧
    (signal_done p s).trace = s.trace ++ [.pthread_mutex_lock, .done_increment,
      .pthread_cond_signal, .pthread_mutex_unlock] := by
  unfold signal_done
  rw [if_pos h]
  simp [State.emit]

theorem since_of_trace (s s' : State) (evs : List Ev) (h : s'.trace = s.trace ++ evs) :
    s'.since s.trace.length = evs := by
  simp [State.since, h]

/-- A call of the mode function that returns has processed its block
(calls of the request kind, writes to the log slots of the block only) and
then gone through the update of `done`. -/
theorem runmode_ok (m : Mode) (env : Env) (p : imgcropparams) (l : List Nat) (s s' : State)
    (h : runmode m env p l s = .ok s') :
    ∃ s1, Advances wcsReqEv (l.takeWhile (fun y => decide (y ≠ env.NONTHRDINDEX))) s s1 ∧
      s' = signal_done p s1 := by
  cases m with
  | img =>
    simp only [runmode, imgmodecrop] at h
    split at h
    · cases h
    · rename_i s1 h1
      split_ifs at h
      cases h
      exact ⟨_, advances_emit (.fits_close_infits 0) (advances_trans
        (advances_emit (.readfitshdu 0) (advances_refl _ _ _) rfl)
        (advances_weaken imgReqEv_wcsReqEv (imgmode_loop_advances env p l _ s1 h1))) rfl, rfl⟩
  | wcs =>
    simp only [runmode, wcsmodecrop] at h
    split at h
    · cases h
    · rename_i s1 t1 h1
      cases h
      exact ⟨_, wcs_loop_advances env p l s s1 0 t1 h1, rfl⟩

theorem imgmode_loop_eq_direct (env : Env) (p : imgcropparams) :
    ∀ (l : List Nat) (s : State), imgmode_loop env p l s
      = direct_img env p (l.takeWhile (fun y => decide (y ≠ env.NONTHRDINDEX))) s := by
  intro l
  induction l with
  | nil => intro s; rfl
  | cons x rest ih =>
    intro s
    by_cases hx : x = env.NONTHRDINDEX
    · rw [List.takeWhile_cons_of_neg (by simpa using hx)]
      simp [imgmode_loop, direct_img, hx]
    · rw [takeWhile_cons_ne _ _ _ hx]
      simp only [imgmode_loop, direct_img, if_neg hx]
      cases imgmode_request env p s x with
      | error e => rfl
      | ok s1 => exact ih s1

theorem wcs_loop_eq_direct (env : Env) (p : imgcropparams) :
    ∀ (l : List Nat) (s : State) (t : Int), wcs_loop env p l s t
      = direct_wcs env p (l.takeWhile (fun y => decide (y ≠ env.NONTHRDINDEX))) s t := by
  intro l
  induction l with
  | nil => intro s t; rfl
  | cons x rest ih =>
    intro s t
    by_cases hx : x = env.NONTHRDINDEX
    · rw [List.takeWhile_cons_of_neg (by simpa using hx)]
      simp [wcs_loop, direct_wcs, hx]
    · rw [takeWhile_cons_ne _ _ _ hx]
      simp only [wcs_loop, direct_wcs, if_neg hx]
      cases wcs_request env p s t x with
      | error e => rfl
      | ok r => exact ih r.1 r.2

/-- With one thread, the call of the mode function on a block is the direct
processing of the indices of the block. -/
theorem runmode_single_eq_direct (m : Mode) (env : Env) (p : imgcropparams) (l : List Nat)
    (s : State) (hnt : p.numthreads = 1) :
    runmode m env p l s
      = crop_direct m env p (l.takeWhile (fun y => decide (y ≠ env.NONTHRDINDEX))) s := by
  cases m with
  | img =>
    simp only [runmode, imgmodecrop, crop_direct, imgmode_loop_eq_direct]
    cases direct_img env p (l.takeWhile (fun y => decide (y ≠ env.NONTHRDINDEX)))
        (s.emit (.readfitshdu 0)) with
    | error e => rfl
    | ok s1 =>
      simp only
      rw [signal_done_single p _ (by omega)]
  | wcs =>
    simp only [runmode, wcsmodecrop, crop_direct, wcs_loop_eq_direct]
    cases direct_wcs env p (l.takeWhile (fun y => decide (y ≠ env.NONTHRDINDEX))) s 0 with
    | error e => rfl
    | ok r =>
      simp only
      rw [signal_done_single p _ (by omega)]

theorem wcsReqEv_not_threadEv (e : Ev) (h : wcsReqEv e = true) : threadEv e = false := by
  cases e <;> simp_all [wcsReqEv, imgReqEv, threadEv]

/-! ## The calls made for one request in sky mode -/

theorem overlapTests_append (a b : List Ev) :
    overlapTests (a ++ b) = overlapTests a ++ overlapTests b := by
  simp [overlapTests, List.filterMap_append]

theorem onecropCalls_append (a b : List Ev) :
    onecropCalls (a ++ b) = onecropCalls a ++ onecropCalls b := by
  simp [onecropCalls, List.filterMap_append]

theorem handleScan_append (a b : List Ev) : ∀ h : Handle,
    handleScan h (a ++ b) = (handleScan h a).bind (fun h1 => handleScan h1 b) := by
  induction a with
  | nil => intro h; rfl
  | cons e es ih =>
    intro h
    simp only [List.cons_append, handleScan]
    cases handleStep h e with
    | none => rfl
    | some h1 => exact ih h1

theorem tailEv_one (e : Ev) (he : tailEv e = true) :
    overlapTests [e] = [] ∧ onecropCalls [e] = [] ∧ handleStep .closed e = some .closed := by
  cases e <;> first
    | exact ⟨rfl, rfl, rfl⟩
    | exact absurd he (by decide)
    | (simp [tailEv, checkEv] at he)

/-- Calls of the check step and the report are none of `radecoverlap`,
`onecrop`, and leave a closed handle closed. -/
theorem tailEv_neutral (evs : List Ev) (h : ∀ e ∈ evs, tailEv e = true) :
    overlapTests evs = [] ∧ onecropCalls evs = [] ∧
      handleScan .closed evs = some .closed := by
  induction evs with
  | nil => exact ⟨rfl, rfl, rfl⟩
  | cons e es ih =>
    obtain ⟨g1, g2, g3⟩ := tailEv_one e (h e (List.mem_cons_self _ _))
    obtain ⟨h1, h2, h3⟩ := ih (fun x hx => h x (List.mem_cons_of_mem _ hx))
    have hcons : e :: es = [e] ++ es := rfl
    refine ⟨?_, ?_, ?_⟩
    · rw [hcons, overlapTests_append, h1, g1]
      rfl
    · rw [hcons, onecropCalls_append, h2, g2]
      rfl
    · simp only [handleScan, g3]
      exact h3

/-- The calls of one round of the `do ... while` of `wcsmodecrop`. -/
theorem wcs_image_trace (env : Env) (s s' : State) (outindex imgindex : Nat)
    (h : wcs_image env s outindex imgindex = .ok s') :
    ∃ pre, (pre = [] ∨ ∃ c, pre = [Ev.cropname outindex c]) ∧
      s'.trace = s.trace ++
        (if env.radecoverlap outindex imgindex ≠ 0
         then [.radecoverlap outindex imgindex, .readfitshdu imgindex] ++ pre ++
           [.onecrop outindex imgindex, .fits_close_infits imgindex]
         else [.radecoverlap outindex imgindex]) := by
  unfold wcs_image at h
  simp only at h
  split_ifs at h with h1 h2 h3 <;> cases h
  · exact ⟨[Ev.cropname outindex s.catset], Or.inr ⟨_, rfl⟩, by simp [cropname, onecrop, h1]⟩
  · exact ⟨[], Or.inl rfl, by simp [onecrop, h1]⟩
  · exact ⟨[], Or.inl rfl, by simp [h1]⟩

/-- What one round of the `do ... while` contributes to the three readings
of the trace. -/
theorem wcs_image_reading (env : Env) (s s' : State) (outindex imgindex : Nat)
    (h : wcs_image env s outindex imgindex = .ok s') :
    ∃ evs, s'.trace = s.trace ++ evs ∧
      overlapTests evs = [(outindex, imgindex)] ∧
      onecropCalls evs = (if env.radecoverlap outindex imgindex ≠ 0
        then [(outindex, imgindex)] else []) ∧
      handleScan .closed evs = some .closed := by
  obtain ⟨pre, hpre, ht⟩ := wcs_image_trace env s s' outindex imgindex h
  refine ⟨_, ht, ?_⟩
  by_cases hov : env.radecoverlap outindex imgindex = 0
  · simp [hov, overlapTests, onecropCalls, handleScan, handleStep]
  · rcases hpre with hp | ⟨c, hp⟩ <;> subst hp <;>
      simp [hov, overlapTests, onecropCalls, handleScan, handleStep]

theorem wcs_images_reading (env : Env) (outindex : Nat) :
    ∀ (more imgindex : Nat) (s s' : State),
      wcs_images env outindex more imgindex s = .ok s' →
      ∃ evs, s'.trace = s.trace ++ evs ∧
        overlapTests evs = (List.range' imgindex (more + 1)).map (fun i => (outindex, i)) ∧
        onecropCalls evs = ((List.range' imgindex (more + 1)).filter
          (fun i => decide (env.radecoverlap outindex i ≠ 0))).map (fun i => (outindex, i)) ∧
        handleScan .closed evs = some .closed := by
  intro more
  induction more with
  | zero =>
    intro imgindex s s' h
    obtain ⟨evs, ht, h1, h2, h3⟩ := wcs_image_reading env s s' outindex imgindex h
    refine ⟨evs, ht, by simpa using h1, ?_, h3⟩
    rw [h2]
    by_cases hov : env.radecoverlap outindex imgindex = 0 <;> simp [hov]
  | succ more ih =>
    intro imgindex s s' h
    simp only [wcs_images] at h
    split at h
    · cases h
    · rename_i s1 hs1
      obtain ⟨ev1, ht1, h11, h12, h13⟩ := wcs_image_reading env s s1 outindex imgindex hs1
      obtain ⟨ev2, ht2, h21, h22, h23⟩ := ih (imgindex + 1) s1 s' h
      refine ⟨ev1 ++ ev2, by rw [ht2, ht1, List.append_assoc], ?_, ?_, ?_⟩
      · rw [overlapTests_append, h11, h21, List.range'_succ imgindex (more + 1)]
        rfl
      · rw [onecropCalls_append, h12, h22, List.range'_succ imgindex (more + 1)]
        by_cases hov : env.radecoverlap outindex imgindex = 0 <;> simp [hov]
      · rw [handleScan_append, h13]
        exact h23

/-- The calls of one request of `wcsmodecrop`: `setcsides`, the rounds of
the `do ... while`, then the check step and the report. -/
theorem wcs_request_reading (env : Env) (p : imgcropparams) (s s' : State) (t t' : Int)
    (outindex : Nat) (h : wcs_request env p s t outindex = .ok (s', t')) :
    ∃ evs, s'.trace = s.trace ++ evs ∧
      overlapTests evs = (List.range' 0 (p.numimg - 1 + 1)).map (fun i => (outindex, i)) ∧
      onecropCalls evs = ((List.range' 0 (p.numimg - 1 + 1)).filter
        (fun i => decide (env.radecoverlap outindex i ≠ 0))).map (fun i => (outindex, i)) ∧
      handleScan .closed evs = some .closed := by
  unfold wcs_request at h
  simp only at h
  split at h
  · cases h
  · rename_i s3 h3
    split at h
    · cases h
    · rename_i s4 t4 h4
      cases h
      obtain ⟨ev1, ht1, h11, h12, h13⟩ := wcs_images_reading env outindex _ _ _ _ h3
      obtain ⟨⟨ev2, ht2, hp2⟩, _, _⟩ := @advances_report tailEv _ _ _ p outindex
        (advances_weaken (fun e he => by cases e <;> simp_all [tailEv, checkEv])
          (wcs_check_advances env p _ _ _ _ outindex h4)) rfl
      obtain ⟨h21, h22, h23⟩ := tailEv_neutral ev2 hp2
      refine ⟨[Ev.setcsides outindex] ++ ev1 ++ ev2, ?_, ?_, ?_, ?_⟩
      · rw [ht2, ht1]
        simp
      · rw [overlapTests_append, overlapTests_append, h11, h21]
        simp [overlapTests]
      · rw [onecropCalls_append, onecropCalls_append, h12, h22]
        simp [onecropCalls]
      · rw [handleScan_append, handleScan_append]
        simp only [handleScan, handleStep, Option.bind]
        rw [h13]
        exact h23

theorem wcs_image_total (env : Env) (s : State) (outindex imgindex : Nat)
    (h : env.fits_close_infits imgindex = 0) :
    ∃ s', wcs_image env s outindex imgindex = .ok s' := by
  unfold wcs_image
  simp only [h, ne_eq, not_true_eq_false, if_false]
  split_ifs <;> exact ⟨_, rfl⟩

theorem wcs_images_total (env : Env) (outindex : Nat) (h : ∀ i, env.fits_close_infits i = 0) :
    ∀ (more imgindex : Nat) (s : State),
      ∃ s', wcs_images env outindex more imgindex s = .ok s' := by
  intro more
  induction more with
  | zero =>
    intro imgindex s
    exact wcs_image_total env s outindex imgindex (h imgindex)
  | succ more ih =>
    intro imgindex s
    obtain ⟨s1, h1⟩ := wcs_image_total env s outindex imgindex (h imgindex)
    obtain ⟨s2, h2⟩ := ih (imgindex + 1) s1
    exact ⟨s2, by simp only [wcs_images, h1, h2]⟩

theorem wcs_check_total (env : Env) (p : imgcropparams) (s : State) (t : Int) (outindex : Nat)
    (hout : env.fits_close_outfits outindex = 0) (hun : env.unlink outindex = 0) :
    ∃ s' t', wcs_check env p s t outindex = .ok (s', t') := by
  unfold wcs_check
  simp only [hout, hun, ne_eq, not_true_eq_false, if_false]
  split_ifs <;> exact ⟨_, _, rfl⟩

theorem wcs_request_total (env : Env) (p : imgcropparams) (s : State) (t : Int) (outindex : Nat)
    (hin : ∀ i, env.fits_close_infits i = 0)
    (hout : env.fits_close_outfits outindex = 0) (hun : env.unlink outindex = 0) :
    ∃ s' t', wcs_request env p s t outindex = .ok (s', t') := by
  unfold wcs_request
  simp only
  obtain ⟨s3, h3⟩ := wcs_images_total env outindex hin (p.numimg - 1) 0
    ((s.setLog outindex (fun l => { l with name := none, numimg := 0 })).emit
      (.setcsides outindex))
  obtain ⟨s4, t4, h4⟩ := wcs_check_total env p s3 t outindex hout hun
  rw [h3]
  simp only
  rw [h4]
  exact ⟨_, _, rfl⟩

theorem sourceOpens_append (a b : List Ev) :
    sourceOpens (a ++ b) = sourceOpens a + sourceOpens b := by
  simp [sourceOpens, List.filter_append]

theorem sourceCloses_append (a b : List Ev) :
    sourceCloses (a ++ b) = sourceCloses a + sourceCloses b := by
  simp [sourceCloses, List.filter_append]

theorem imgReqEv_no_source (evs : List Ev) (h : ∀ e ∈ evs, imgReqEv e = true) :
    sourceOpens evs = 0 ∧ sourceCloses evs = 0 := by
  induction evs with
  | nil => exact ⟨rfl, rfl⟩
  | cons e es ih =>
    obtain ⟨h1, h2⟩ := ih (fun x hx => h x (List.mem_cons_of_mem _ hx))
    have he := h e (List.mem_cons_self _ _)
    have hcons : e :: es = [e] ++ es := rfl
    rw [hcons, sourceOpens_append, sourceCloses_append, h1, h2]
    cases e <;> first
      | exact ⟨rfl, rfl⟩
      | (simp [imgReqEv] at he)

/-- The calls that `signal_done` adds: none, or the four of the update of
`done`. -/
theorem signal_done_trace (p : imgcropparams) (s : State) :
    ∃ sig, (signal_done p s).trace = s.trace ++ sig ∧
      (sig = [] ∨ sig = [.pthread_mutex_lock, .done_increment, .pthread_cond_signal,
        .pthread_mutex_unlock]) := by
  by_cases h : 1 < p.numthreads
  · exact ⟨_, (signal_done_multi p s h).2, Or.inr rfl⟩
  · rw [signal_done_single p s (by omega)]
    exact ⟨[], by simp, Or.inl rfl⟩

theorem wcs_loop_scan (env : Env) (p : imgcropparams) :
    ∀ (l : List Nat) (s s' : State) (t t' : Int), wcs_loop env p l s t = .ok (s', t') →
      ∃ evs, s'.trace = s.trace ++ evs ∧ handleScan .closed evs = some .closed := by
  intro l
  induction l with
  | nil =>
    intro s s' t t' h
    simp only [wcs_loop] at h
    cases h
    exact ⟨[], by simp, rfl⟩
  | cons x rest ih =>
    intro s s' t t' h
    simp only [wcs_loop] at h
    split_ifs at h with hx
    · cases h
      exact ⟨[], by simp, rfl⟩
    · split at h
      · cases h
      · rename_i s1 t1 hr
        obtain ⟨ev1, ht1, _, _, h1⟩ := wcs_request_reading env p s s1 t t1 x hr
        obtain ⟨ev2, ht2, h2⟩ := ih s1 s' t1 t' h
        refine ⟨ev1 ++ ev2, by rw [ht2, ht1, List.append_assoc], ?_⟩
        rw [handleScan_append, h1]
        exact h2

/-- While the discipline of `handleStep` is kept, the sources opened so far
exceed the sources closed so far by at most one. -/
theorem handleScan_open_le_one : ∀ (evs : List Ev) (h h' : Handle),
    handleScan h evs = some h' → ∀ k,
      sourceOpens (evs.take k) ≤ sourceCloses (evs.take k)
        + (if h = .closed then 1 else 0) := by
  intro evs
  induction evs with
  | nil => intro h h' _ k; simp [sourceOpens]
  | cons e es ih =>
    intro h h' hs k
    cases k with
    | zero => simp [sourceOpens]
    | succ k =>
      simp only [handleScan] at hs
      cases hstep : handleStep h e with
      | none => rw [hstep] at hs; cases hs
      | some h1 =>
        rw [hstep] at hs
        have hrec := ih h1 h' hs k
        have hcons : (e :: es).take (k + 1) = [e] ++ es.take k := rfl
        rw [hcons, sourceOpens_append, sourceCloses_append]
        cases h <;> cases e <;> simp [handleStep] at hstep <;>
          (try (obtain ⟨_, rfl⟩ := hstep)) <;>
          simp [sourceOpens, sourceCloses] at hrec ⊢ <;> omega

/-! ## The multi-threaded branch -/

theorem created_append (a b : List Ev) : created (a ++ b) = created a ++ created b := by
  simp [created, List.filterMap_append]

theorem created_emit (s : State) (e : Ev) :
    created (s.emit e).trace = created s.trace ++ created [e] := by
  rw [emit_trace, created_append]

theorem wcsReqEv_not_created (evs : List Ev) (h : ∀ e ∈ evs, wcsReqEv e = true) :
    created evs = [] := by
  induction evs with
  | nil => rfl
  | cons e es ih =>
    have he := h e (List.mem_cons_self _ _)
    have hcons : e :: es = [e] ++ es := rfl
    rw [hcons, created_append, ih (fun x hx => h x (List.mem_cons_of_mem _ hx))]
    cases e <;> first
      | rfl
      | (simp [wcsReqEv, imgReqEv] at he)

/-- A thread of the multi-threaded branch that returns has added one to
`done`, as the last thing it did, and has created no thread. -/
theorem worker_counts_once (m : Mode) (env : Env) (p : imgcropparams) (l : List Nat)
    (s s' : State) (h : runmode m env p l s = .ok s') (hnt : 1 < p.numthreads) :
    s'.done = s.done + 1 ∧ created s'.trace = created s.trace ∧
    ∃ work, s'.since s.trace.length = work ++ [.pthread_mutex_lock, .done_increment,
        .pthread_cond_signal, .pthread_mutex_unlock] ∧
      ∀ e ∈ work, wcsReqEv e = true := by
  obtain ⟨s1, ⟨⟨evs, ht, hp⟩, hd, _⟩, hs⟩ := runmode_ok m env p l s s' h
  obtain ⟨h1, h2⟩ := signal_done_multi p s1 hnt
  subst hs
  have htr : (signal_done p s1).trace = s.trace ++ (evs ++ [.pthread_mutex_lock,
      .done_increment, .pthread_cond_signal, .pthread_mutex_unlock]) := by
    rw [h2, ht, List.append_assoc]
  refine ⟨by rw [h1, hd], ?_, evs, since_of_trace s _ _ htr, hp⟩
  rw [htr, created_append, created_append, wcsReqEv_not_created evs hp]
  simp [created]

theorem launched_succ (S : Nat) (indexs : List Nat) (thrdcols k : Nat) :
    launched S indexs thrdcols (k + 1)
      = launched S indexs thrdcols k ++
        (if indexs.getD (k * thrdcols) S ≠ S then [k] else []) := by
  unfold launched
  rw [List.range_succ, List.filter_append]
  by_cases h : indexs.getD (k * thrdcols) S = S
  · simp only [List.filter, ne_eq, h, not_true_eq_false, decide_False, if_false]
  · simp only [List.filter, ne_eq, h, not_false_eq_true, decide_True, if_true]

theorem launched_length_le (S : Nat) (indexs : List Nat) (thrdcols k : Nat) :
    (launched S indexs thrdcols k).length ≤ k := by
  unfold launched
  have h := List.length_filter_le
    (fun i => decide (indexs.getD (i * thrdcols) S ≠ S)) (List.range k)
  simpa using h

theorem barrier_inv (env : Env) (p : imgcropparams) (indexs : List Nat) (thrdcols : Nat)
    (base : List Nat) (sys : Sys) (numactive : Nat)
    (hready : ∀ i ∈ sys.ready, i < p.numthreads)
    (hc : created sys.st.trace
      = base ++ launched env.NONTHRDINDEX indexs thrdcols p.numthreads)
    (hna : numactive = (launched env.NONTHRDINDEX indexs thrdcols p.numthreads).length)
    (hd : sys.st.done + sys.ready.length = numactive) :
    SysInv env p indexs thrdcols base (barrier numactive sys) := by
  unfold barrier
  split_ifs with h
  · refine ⟨hready, ?_⟩
    simp only [created_emit, emit_done, hc]
    exact ⟨by simp [created], hna, hd⟩
  · refine ⟨hready, ?_⟩
    simp only [created_emit, emit_done, hc]
    refine ⟨by simp [created], by omega, ?_⟩
    apply List.eq_nil_of_length_eq_zero
    omega

theorem sysStep_inv (env : Env) (p : imgcropparams) (m : Mode) (indexs : List Nat)
    (thrdcols : Nat) (base : List Nat) (hnt : p.numthreads ≠ 1) (a : Act) (sys : Sys)
    (hinv : SysInv env p indexs thrdcols base sys) :
    SysInv env p indexs thrdcols base (sysStep env p m indexs thrdcols a sys) := by
  obtain ⟨st, ctrl, ready⟩ := sys
  obtain ⟨hready, hctrl⟩ := hinv
  have hworker : ∀ i, (∀ e, ctrl ≠ .aborted e) →
      SysInv env p indexs thrdcols base
        (if i ∈ ready then
          match runmode m env p (indexs.drop (i * thrdcols)) st with
          | .error e => { st := st, ctrl := .aborted e, ready := ready }
          | .ok st1 => { st := st1, ctrl := ctrl, ready := ready.erase i }
        else { st := st, ctrl := ctrl, ready := ready }) := by
    intro i hna
    split_ifs with hi
    · split
      · exact ⟨hready, trivial⟩
      · rename_i st1 hrun
        have h1 : 1 < p.numthreads := by
          have := hready i hi
          omega
        obtain ⟨hd, hc, _⟩ := worker_counts_once m env p _ st st1 hrun h1
        have hlen : (ready.erase i).length + 1 = ready.length := by
          rw [List.length_erase_of_mem hi]
          have : 0 < ready.length := List.length_pos_of_mem hi
          omega
        refine ⟨fun k hk => hready k (List.mem_of_mem_erase hk), ?_⟩
        cases ctrl with
        | spawning k na =>
          simp only at hctrl ⊢
          exact ⟨hctrl.1, by rw [hc]; exact hctrl.2.1, hctrl.2.2.1, by omega⟩
        | waiting na =>
          simp only at hctrl ⊢
          exact ⟨by rw [hc]; exact hctrl.1, hctrl.2.1, by omega⟩
        | finished =>
          simp only at hctrl
          rw [hctrl.2.2] at hi
          cases hi
        | aborted e => exact absurd rfl (hna e)
    · exact ⟨hready, hctrl⟩
  cases a with
  | controller =>
    cases ctrl with
    | spawning i na =>
      simp only at hctrl
      obtain ⟨hi, hc, hna, hd⟩ := hctrl
      simp only [sysStep]
      split_ifs with h1 h2 h3
      · exact ⟨hready, trivial⟩
      · refine ⟨?_, ?_⟩
        · intro k hk
          rcases List.mem_append.mp hk with hk | hk
          · exact hready k hk
          · rw [List.mem_singleton] at hk
            omega
        · simp only [created_emit, emit_done, hc, launched_succ, if_pos h2,
            List.length_append, List.length_singleton]
          refine ⟨by omega, by simp [created], by omega, by omega⟩
      · refine ⟨hready, ?_⟩
        simp only [launched_succ, if_neg h2, List.append_nil]
        exact ⟨by omega, hc, hna, hd⟩
      · have hi2 : i = p.numthreads := by omega
        subst hi2
        exact barrier_inv env p indexs thrdcols base _ na hready
          (by simp only [created_emit, hc]; simp [created]) hna hd
    | waiting na =>
      simp only at hctrl
      exact barrier_inv env p indexs thrdcols base _ na hready hctrl.1 hctrl.2.1 hctrl.2.2
    | finished => exact ⟨hready, hctrl⟩
    | aborted e => exact ⟨hready, trivial⟩
  | worker i =>
    cases ctrl with
    | spawning k na => exact hworker i (fun e => by simp)
    | waiting na => exact hworker i (fun e => by simp)
    | finished => exact hworker i (fun e => by simp)
    | aborted e => exact ⟨hready, trivial⟩

theorem sysRun_inv (env : Env) (p : imgcropparams) (m : Mode) (indexs : List Nat)
    (thrdcols : Nat) (base : List Nat) (hnt : p.numthreads ≠ 1) :
    ∀ (sched : List Act) (sys : Sys), SysInv env p indexs thrdcols base sys →
      SysInv env p indexs thrdcols base (sysRun env p m indexs thrdcols sched sys) := by
  intro sched
  induction sched with
  | nil => intro sys h; exact h
  | cons a rest ih =>
    intro sys h
    exact ih _ (sysStep_inv env p m indexs thrdcols base hnt a sys h)

theorem threads_init_ok (env : Env) (s s1 : State) (h : threads_init env s = .ok s1) :
    s1.done = 0 ∧ created s1.trace = created s.trace := by
  unfold threads_init at h
  simp only at h
  split_ifs at h
  cases h
  simp [created_append, created, State.emit]

/-- Every state of the process that `imgcrop` reaches in its multi-threaded
branch satisfies `SysInv`. -/
theorem imgcrop_inv (env : Env) (p : imgcropparams) (sched : List Act) (s : State)
    (hnt : p.numthreads ≠ 1) :
    SysInv env p (distribute env p s).1 (distribute env p s).2
      (created s.trace) (imgcrop env p sched s)
    ∨ ∃ e, imgcrop env p sched s = { st := s, ctrl := .aborted e, ready := [] } := by
  unfold imgcrop
  cases hm : modefunction p with
  | none => exact Or.inr ⟨_, rfl⟩
  | some m =>
    simp only
    generalize distribute env p s = d
    by_cases hcrp : env.malloc_crp = false
    · rw [if_pos hcrp]
      exact Or.inr ⟨_, rfl⟩
    · rw [if_neg hcrp, if_neg hnt]
      cases hini : threads_init env s with
      | error e => exact Or.inr ⟨_, rfl⟩
      | ok s1 =>
        left
        obtain ⟨hd, hcr⟩ := threads_init_ok env s s1 hini
        apply sysRun_inv env p m _ _ _ hnt
        refine ⟨by simp, ?_⟩
        simp only
        exact ⟨Nat.zero_le _, by simp [launched, hcr], by simp [launched], by simp [hd, launched]⟩

/-! ## C1 -/

/-- C1: for a crop request whose log entry has `numimg > 0`, the check step
of `imgmodecrop` and that of `wcsmodecrop` (whose calls to close and unlink
succeed) do the same thing: `iscenterfilled`, then `copyrightandend` and
`fits_close_file` on the output, and after these `unlink` if and only if
`iscenterfilled` returned 0 and `keepblankcenter` is 0. The log entry keeps
the value of `iscenterfilled`; with `keepblankcenter = 1` nothing is
unlinked and an unfilled centre stays recorded as 0. -/
theorem check_unlinks_iff_blank_center (env : Env) (p : imgcropparams) (s : State)
    (tcatset : Int) (outindex : Nat)
    (hnum : 0 < (s.log outindex).numimg)
    (hclose : env.fits_close_outfits outindex = 0)
    (hunlink : env.iscenterfilled outindex = 0 → p.keepblankcenter = 0 →
      env.unlink outindex = 0) :
    ∃ s', imgmode_check env p s outindex = .ok s' ∧
      wcs_check env p s tcatset outindex = .ok (s', tcatset) ∧
      s'.trace = s.trace ++
        ([.iscenterfilled outindex, .copyrightandend outindex, .fits_close_outfits outindex]
          ++ if env.iscenterfilled outindex = 0 ∧ p.keepblankcenter = 0
             then [.unlink outindex] else []) ∧
      (s'.log outindex).centerfilled = env.iscenterfilled outindex ∧
      (Ev.unlink outindex ∈ s'.since s.trace.length ↔
        env.iscenterfilled outindex = 0 ∧ p.keepblankcenter = 0) ∧
      (p.keepblankcenter = 1 → Ev.unlink outindex ∉ s'.since s.trace.length ∧
        (env.iscenterfilled outindex = 0 → (s'.log outindex).centerfilled = 0)) := by
  have hn : (s.log outindex).numimg ≠ 0 := by omega
  by_cases hc : env.iscenterfilled outindex = 0 ∧ p.keepblankcenter = 0
  · have hu := hunlink hc.1 hc.2
    refine ⟨(((((s.emit (.iscenterfilled outindex)).setLog outindex
      (fun l => { l with centerfilled := env.iscenterfilled outindex })).emit
        (.copyrightandend outindex)).emit (.fits_close_outfits outindex)).emit
          (.unlink outindex)), ?_, ?_, ?_, ?_, ?_, ?_⟩
    · simp [imgmode_check, hn, hclose, hc, hu]
    · simp [wcs_check, hn, hclose, hc, hu]
    · simp [hc]
    · simp
    · simp [State.since, hc]
    · intro hk
      rw [hc.2] at hk
      exact absurd hk (by decide)
  · refine ⟨((((s.emit (.iscenterfilled outindex)).setLog outindex
      (fun l => { l with centerfilled := env.iscenterfilled outindex })).emit
        (.copyrightandend outindex)).emit (.fits_close_outfits outindex)), ?_, ?_, ?_, ?_, ?_, ?_⟩
    · simp only [not_and] at hc
      simp [imgmode_check, hn, hclose]
      intro h1 h2
      exact absurd h2 (hc h1)
    · simp only [not_and] at hc
      simp [wcs_check, hn, hclose]
      intro h1 h2
      exact absurd h2 (hc h1)
    · simp [hc]
    · simp
    · simp [State.since, hc]
    · intro _
      constructor
      · simp [State.since]
      · intro h
        simp [h]

/-- C1 at a concrete request: image 0 contributed to output 0, the centre is
not filled and `keepblankcenter` is 0. -/
theorem check_unlinks_iff_blank_center_witness :
    ∃ s', imgmode_check env0 params0 state1 0 = .ok s' ∧
      wcs_check env0 params0 state1 0 0 = .ok (s', 0) ∧
      s'.trace = state1.trace ++
        ([.iscenterfilled 0, .copyrightandend 0, .fits_close_outfits 0]
          ++ if env0.iscenterfilled 0 = 0 ∧ params0.keepblankcenter = 0
             then [.unlink 0] else []) ∧
      (s'.log 0).centerfilled = env0.iscenterfilled 0 ∧
      (Ev.unlink 0 ∈ s'.since state1.trace.length ↔
        env0.iscenterfilled 0 = 0 ∧ params0.keepblankcenter = 0) ∧
      (params0.keepblankcenter = 1 → Ev.unlink 0 ∉ s'.since state1.trace.length ∧
        (env0.iscenterfilled 0 = 0 → (s'.log 0).centerfilled = 0)) :=
  check_unlinks_iff_blank_center env0 params0 state1 0 0 (by decide) rfl (fun _ _ => rfl)

/-! ## C2 -/

theorem blockStart_zero (n nt : Nat) : blockStart n nt 0 = 0 := by
  simp [blockStart]

theorem blockStart_succ (n nt i : Nat) :
    blockStart n nt (i + 1) = blockStart n nt i + blockSize n nt i := by
  unfold blockStart blockSize
  rw [Nat.add_mul, Nat.one_mul]
  split <;> omega

theorem blockStart_total (n nt : Nat) (h : 1 ≤ nt) : blockStart n nt nt = n := by
  unfold blockStart
  have h1 : n % nt < nt := Nat.mod_lt n h
  have h2 : nt * (n / nt) + n % nt = n := Nat.div_add_mod n nt
  rw [Nat.min_eq_right (Nat.le_of_lt h1)]
  exact h2

theorem blockStart_mono (n nt : Nat) : ∀ i j, i ≤ j → blockStart n nt i ≤ blockStart n nt j := by
  intro i j h
  induction j with
  | zero =>
    have : i = 0 := by omega
    subst this
    exact Nat.le_refl _
  | succ j ih =>
    by_cases hij : i = j + 1
    · subst hij
      exact Nat.le_refl _
    · have := ih (by omega)
      rw [blockStart_succ]
      omega

/-- The blocks, taken in worker order, make up the indices below
`blockStart n nt k`. -/
theorem blocks_concat (n nt : Nat) : ∀ k,
    (List.range k).flatMap
      (fun i => List.range' (blockStart n nt i) (blockSize n nt i))
      = List.range' 0 (blockStart n nt k) := by
  intro k
  induction k with
  | zero => simp [blockStart_zero]
  | succ k ih =>
    rw [List.range_succ, List.flatMap_append, ih, blockStart_succ]
    simp only [List.flatMap_cons, List.flatMap_nil, List.append_nil]
    have h := List.range'_append 0 (blockStart n nt k) (blockSize n nt k) 1
    simp only [Nat.one_mul, Nat.zero_add] at h
    rw [h, Nat.add_comm]

theorem distRow_length (S n nt i : Nat) :
    (distRow S n nt (n / nt + 2) i).length = n / nt + 2 := by
  unfold distRow blockSize
  simp only [List.length_append, List.length_range', List.length_replicate]
  split <;> omega

/-- Dropping `i` rows of equal length `c` from a concatenation of rows. -/
theorem drop_flatMap_rows {α : Type} (f : α → List Nat) (c : Nat)
    (hf : ∀ x, (f x).length = c) :
    ∀ (l : List α) (i : Nat), (l.flatMap f).drop (i * c) = (l.drop i).flatMap f := by
  intro l
  induction l with
  | nil => intro i; simp
  | cons x xs ih =>
    intro i
    cases i with
    | zero => simp
    | succ i =>
      have h := @List.drop_append _ (f x) (xs.flatMap f) (i * c)
      rw [hf x] at h
      rw [List.flatMap_cons, List.drop_succ_cons, ← ih i, ← h]
      congr 1
      rw [Nat.add_mul, Nat.one_mul, Nat.add_comm]

/-- The block that worker `i` reads from the array of `distinthreads` is
the `i`-th contiguous block. -/
theorem blockOf_distinthreads (S n nt i : Nat) (hi : i < nt) (hS : n ≤ S) :
    blockOf S (distinthreads S n nt).1 (i * (distinthreads S n nt).2)
      = List.range' (blockStart n nt i) (blockSize n nt i) := by
  have hnt : 1 ≤ nt := by omega
  simp only [blockOf, distinthreads]
  rw [drop_flatMap_rows _ _ (distRow_length S n nt) _ i]
  have hlen : i < (List.range nt).length := by simpa using hi
  rw [List.drop_eq_getElem_cons hlen, List.getElem_range, List.flatMap_cons]
  have hsz : blockSize n nt i ≤ n / nt + 1 := by
    unfold blockSize
    split <;> omega
  obtain ⟨k, hk⟩ : ∃ k, n / nt + 2 - blockSize n nt i = k + 1 := ⟨n / nt + 1 - blockSize n nt i, by omega⟩
  have hend : blockStart n nt i + blockSize n nt i ≤ n := by
    have h1 := blockStart_mono n nt (i + 1) nt hi
    rw [blockStart_total n nt hnt, blockStart_succ] at h1
    exact h1
  unfold distRow
  rw [hk, List.replicate_succ, List.append_assoc, List.takeWhile_append_of_pos]
  · rw [List.cons_append, List.takeWhile_cons_of_neg]
    · simp
    · simp
  · intro a ha
    rw [List.mem_range'_1] at ha
    simp only [ne_eq, decide_not, Bool.not_eq_eq_eq_not, Bool.not_true, decide_eq_false_iff_not]
    omega

/-- C2: for `totalJobs` jobs (all below the sentinel) and `workerCount ≥ 1`
workers, the blocks that `imgcrop` reads from the array of `distinthreads`
(block `i` starts at `indexs[i*thrdcols]` and ends before the first
sentinel), concatenated in worker order, are exactly the indices
`0, ..., totalJobs-1` in that order; so every job lies in the block of
exactly one worker. -/
theorem distinthreads_blocks_partition (S totalJobs workerCount : Nat)
    (hw : 1 ≤ workerCount) (hS : totalJobs ≤ S) :
    (List.range workerCount).flatMap
        (fun i => blockOf S (distinthreads S totalJobs workerCount).1
          (i * (distinthreads S totalJobs workerCount).2))
      = List.range totalJobs ∧
    ∀ j, j < totalJobs → ∃! i, i < workerCount ∧
      j ∈ blockOf S (distinthreads S totalJobs workerCount).1
        (i * (distinthreads S totalJobs workerCount).2) := by
  have hcat : (List.range workerCount).flatMap
        (fun i => blockOf S (distinthreads S totalJobs workerCount).1
          (i * (distinthreads S totalJobs workerCount).2))
      = List.range totalJobs := by
    have h1 := blocks_concat totalJobs workerCount workerCount
    rw [blockStart_total totalJobs workerCount hw, ← List.range_eq_range'] at h1
    rw [← h1]
    apply List.flatMap_congr
    intro i hi
    exact blockOf_distinthreads S totalJobs workerCount i (List.mem_range.mp hi) hS
  refine ⟨hcat, ?_⟩
  intro j hj
  have hmem : j ∈ (List.range workerCount).flatMap
        (fun i => blockOf S (distinthreads S totalJobs workerCount).1
          (i * (distinthreads S totalJobs workerCount).2)) := by
    rw [hcat]
    exact List.mem_range.mpr hj
  obtain ⟨i, hi, hji⟩ := List.mem_flatMap.mp hmem
  refine ⟨i, ⟨List.mem_range.mp hi, hji⟩, ?_⟩
  rintro k ⟨hk, hjk⟩
  have hnd : ((List.range workerCount).flatMap
        (fun i => blockOf S (distinthreads S totalJobs workerCount).1
          (i * (distinthreads S totalJobs workerCount).2))).Nodup := by
    rw [hcat]
    exact List.nodup_range totalJobs
  have hpw := (List.nodup_flatMap.mp hnd).2
  by_contra hne
  have hdis : ∀ a b, a ∈ List.range workerCount → b ∈ List.range workerCount → a < b →
      List.Disjoint
        (blockOf S (distinthreads S totalJobs workerCount).1
          (a * (distinthreads S totalJobs workerCount).2))
        (blockOf S (distinthreads S totalJobs workerCount).1
          (b * (distinthreads S totalJobs workerCount).2)) := by
    intro a b ha hb hab
    have hlt := List.pairwise_lt_range workerCount
    have hboth := hlt.and hpw
    rw [List.pairwise_iff_getElem] at hboth
    have ha2 : a < (List.range workerCount).length := by simpa using ha
    have hb2 : b < (List.range workerCount).length := by simpa using hb
    have := (hboth a b ha2 hb2 hab).2
    simpa [Function.onFun] using this
  rcases Nat.lt_or_gt_of_ne hne with hlt | hgt
  · exact hdis k i (List.mem_range.mpr hk) hi hlt hjk hji
  · exact hdis i k hi (List.mem_range.mpr hk) hgt hji hjk

/-- C2 for five jobs and three workers. -/
theorem distinthreads_blocks_partition_witness :
    (List.range 3).flatMap
        (fun i => blockOf 18446744073709551615 (distinthreads 18446744073709551615 5 3).1
          (i * (distinthreads 18446744073709551615 5 3).2))
      = List.range 5 ∧
    ∀ j, j < 5 → ∃! i, i < 3 ∧
      j ∈ blockOf 18446744073709551615 (distinthreads 18446744073709551615 5 3).1
        (i * (distinthreads 18446744073709551615 5 3).2) :=
  distinthreads_blocks_partition 18446744073709551615 5 3 (by decide) (by decide)

/-! ## C3 -/

/-- C3: with `numthreads = 1`, `imgcrop` calls the mode function once, on
the whole array returned by `distinthreads`, whatever the scheduler does;
that call is the direct processing, in order, of the job indices of the
array (same resulting state, so the same log entries, and the same fatal
exit if there is one). When it returns, `imgcrop` has made no thread, mutex
or condition-variable call and `done` is as it was. -/
theorem single_thread_is_direct (env : Env) (p : imgcropparams) (sched : List Act) (s : State)
    (m : Mode)
    (hnt : p.numthreads = 1) (hm : modefunction p = some m) (hcrp : env.malloc_crp = true) :
    imgcrop env p sched s
      = (match runmode m env p (distribute env p s).1 s with
         | .error e => { st := s, ctrl := .aborted e, ready := [] }
         | .ok s1 => { st := s1.emit .printlog, ctrl := .finished, ready := [] }) ∧
    runmode m env p (distribute env p s).1 s
      = crop_direct m env p (blockOf env.NONTHRDINDEX (distribute env p s).1 0) s ∧
    ∀ s1, crop_direct m env p (blockOf env.NONTHRDINDEX (distribute env p s).1 0) s = .ok s1 →
      (imgcrop env p sched s).ctrl = .finished ∧
      (imgcrop env p sched s).st.log = s1.log ∧
      (imgcrop env p sched s).st.done = s.done ∧
      ∀ e ∈ (imgcrop env p sched s).st.since s.trace.length, threadEv e = false := by
  have hrun : runmode m env p (distribute env p s).1 s
      = crop_direct m env p (blockOf env.NONTHRDINDEX (distribute env p s).1 0) s :=
    runmode_single_eq_direct m env p _ s hnt
  have himg : imgcrop env p sched s
      = (match runmode m env p (distribute env p s).1 s with
         | .error e => { st := s, ctrl := .aborted e, ready := [] }
         | .ok s1 => { st := s1.emit .printlog, ctrl := .finished, ready := [] }) := by
    unfold imgcrop
    simp only [hm, hcrp]
    simp [hnt]
  refine ⟨himg, hrun, ?_⟩
  intro s1 h1
  rw [← hrun] at h1
  rw [himg, h1]
  obtain ⟨s2, hadv, hs2⟩ := runmode_ok m env p _ s s1 h1
  rw [signal_done_single p _ (by omega)] at hs2
  subst hs2
  obtain ⟨⟨evs, ht, hp⟩, hdone, _⟩ := hadv
  refine ⟨rfl, rfl, hdone, ?_⟩
  intro e he
  have hsince : (s1.emit Ev.printlog).since s.trace.length = evs ++ [Ev.printlog] := by
    apply since_of_trace
    simp [ht]
  simp only [hsince, List.mem_append, List.mem_singleton] at he
  rcases he with he | he
  · exact wcsReqEv_not_threadEv e (hp e he)
  · subst he
    rfl

/-- C3 for the catalog of three rows of `params0`, in pixel mode. -/
theorem single_thread_is_direct_witness :
    imgcrop env0 params0 [.worker 0, .controller] (state0 1)
      = (match runmode .img env0 params0 (distribute env0 params0 (state0 1)).1 (state0 1) with
         | .error e => { st := state0 1, ctrl := .aborted e, ready := [] }
         | .ok s1 => { st := s1.emit .printlog, ctrl := .finished, ready := [] }) ∧
    runmode .img env0 params0 (distribute env0 params0 (state0 1)).1 (state0 1)
      = crop_direct .img env0 params0
          (blockOf env0.NONTHRDINDEX (distribute env0 params0 (state0 1)).1 0) (state0 1) ∧
    ∀ s1, crop_direct .img env0 params0
        (blockOf env0.NONTHRDINDEX (distribute env0 params0 (state0 1)).1 0) (state0 1)
          = .ok s1 →
      (imgcrop env0 params0 [.worker 0, .controller] (state0 1)).ctrl = .finished ∧
      (imgcrop env0 params0 [.worker 0, .controller] (state0 1)).st.log = s1.log ∧
      (imgcrop env0 params0 [.worker 0, .controller] (state0 1)).st.done = (state0 1).done ∧
      ∀ e ∈ (imgcrop env0 params0 [.worker 0, .controller] (state0 1)).st.since
        (state0 1).trace.length, threadEv e = false :=
  single_thread_is_direct env0 params0 [.worker 0, .controller] (state0 1) .img rfl rfl rfl

/-! ## C4 -/

/-- C4: in sky mode, with `numimg ≥ 1` configured sources, a crop request
that runs to its end has evaluated `radecoverlap` for the image indices
`0, 1, ..., numimg-1`, in that order and once each, and has called `onecrop`
for exactly those indices, in order, whose test was non-zero. The request
does run to its end when the calls that close files and `unlink` succeed. -/
theorem wcs_request_tests_images_in_order (env : Env) (p : imgcropparams) (s : State)
    (t : Int) (outindex : Nat) (hn : 1 ≤ p.numimg) :
    (∀ s' t', wcs_request env p s t outindex = .ok (s', t') →
      overlapTests (s'.since s.trace.length)
        = (List.range p.numimg).map (fun i => (outindex, i)) ∧
      onecropCalls (s'.since s.trace.length)
        = ((List.range p.numimg).filter
            (fun i => decide (env.radecoverlap outindex i ≠ 0))).map (fun i => (outindex, i))) ∧
    ((∀ i, env.fits_close_infits i = 0) → env.fits_close_outfits outindex = 0 →
      env.unlink outindex = 0 → ∃ s' t', wcs_request env p s t outindex = .ok (s', t')) := by
  refine ⟨?_, fun hin hout hun => wcs_request_total env p s t outindex hin hout hun⟩
  intro s' t' h
  obtain ⟨evs, ht, h1, h2, _⟩ := wcs_request_reading env p s s' t t' outindex h
  have hnum : p.numimg - 1 + 1 = p.numimg := by omega
  rw [since_of_trace s s' evs ht, h1, h2, hnum, List.range_eq_range']
  exact ⟨rfl, rfl⟩

/-- C4 for the two sources of `params0` and request 0. -/
theorem wcs_request_tests_images_in_order_witness :
    (∀ s' t', wcs_request env0 params0 (state0 1) 0 0 = .ok (s', t') →
      overlapTests (s'.since (state0 1).trace.length)
        = (List.range params0.numimg).map (fun i => (0, i)) ∧
      onecropCalls (s'.since (state0 1).trace.length)
        = ((List.range params0.numimg).filter
            (fun i => decide (env0.radecoverlap 0 i ≠ 0))).map (fun i => (0, i))) ∧
    ((∀ i, env0.fits_close_infits i = 0) → env0.fits_close_outfits 0 = 0 →
      env0.unlink 0 = 0 → ∃ s' t', wcs_request env0 params0 (state0 1) 0 0 = .ok (s', t')) :=
  wcs_request_tests_images_in_order env0 params0 (state0 1) 0 0 (by decide)

/-! ## C5 -/

/-- C5 fails as stated: in the run of `imgmodecrop` on the one request 0, to
which no source contributes, the worker makes none of the calls
`iscenterfilled`, `copyrightandend`, `fits_close_file` on the output; the
flag is 0 although `iscenterfilled` would have answered 1. -/
theorem zero_sources_skip_validator :
    (imgmodecrop env1 params0 [0, env1.NONTHRDINDEX] (state0 1)).toOption.map
        (fun s' => (s'.trace, (s'.log 0).numimg, (s'.log 0).centerfilled))
      = some ([.readfitshdu 0, .cropname 0 1, .onecrop 0 0, .reporttiming 0,
          .fits_close_infits 0], 0, 0) ∧
    env1.iscenterfilled 0 = 1 := by
  decide

/-- C5 as amended: for a crop request whose log entry has `numimg = 0`, the
check step of either mode cannot exit with a fatal error; it makes none of
the calls of the other branch (pixel mode makes no call at all, sky mode only
calls `cropname` to have a name for the log) and itself sets `centerfilled`
to 0. -/
theorem zero_sources_flag_set_directly (env : Env) (p : imgcropparams) (s : State)
    (t : Int) (outindex : Nat) (hnum : (s.log outindex).numimg = 0) :
    (∃ s', imgmode_check env p s outindex = .ok s' ∧ s'.trace = s.trace ∧
      (s'.log outindex).centerfilled = 0) ∧
    (∃ s' t', wcs_check env p s t outindex = .ok (s', t') ∧
      s'.trace = s.trace ++ [.cropname outindex (if s.catset = 0 then 1 else s.catset)] ∧
      (s'.log outindex).centerfilled = 0) := by
  constructor
  · refine ⟨s.setLog outindex (fun l => { l with centerfilled := 0 }), ?_, ?_, ?_⟩
    · simp [imgmode_check, hnum]
    · simp
    · simp
  · unfold wcs_check
    simp only [hnum, ne_eq, not_true_eq_false, if_false]
    by_cases hc : s.catset = 0
    · simp only [hc, if_true]
      exact ⟨_, _, rfl, by simp [cropname], by simp⟩
    · simp only [hc, if_false]
      by_cases ht : t = 0
      · exact ⟨_, _, rfl, by simp [cropname, ht], by simp [ht]⟩
      · exact ⟨_, _, rfl, by simp [cropname, ht], by simp [ht]⟩

/-- C5 as amended, for request 0 before any source was tried. -/
theorem zero_sources_flag_set_directly_witness :
    (∃ s', imgmode_check env1 params0 (state0 1) 0 = .ok s' ∧ s'.trace = (state0 1).trace ∧
      (s'.log 0).centerfilled = 0) ∧
    (∃ s' t', wcs_check env1 params0 (state0 1) 0 0 = .ok (s', t') ∧
      s'.trace = (state0 1).trace ++
        [.cropname 0 (if (state0 1).catset = 0 then 1 else (state0 1).catset)] ∧
      (s'.log 0).centerfilled = 0) :=
  zero_sources_flag_set_directly env1 params0 (state0 1) 0 0 rfl

/-! ## C6 -/

/-- C6: in sky mode the source handle is scoped to one image. For an
overlapping image the calls are `radecoverlap`, `readfitshdu`, possibly
`cropname`, `onecrop`, and at once `fits_close_file` on the source; over a
whole request, and over a whole run of `wcsmodecrop`, the discipline "open
only when nothing is open, close right after `onecrop`, test the next image
only when nothing is open" is kept and ends with nothing open; so at no
moment of the run are two sources open. -/
theorem source_handle_scoped (env : Env) (p : imgcropparams) :
    (∀ s outindex imgindex s', env.radecoverlap outindex imgindex ≠ 0 →
      wcs_image env s outindex imgindex = .ok s' →
      ∃ pre, (pre = [] ∨ ∃ c, pre = [Ev.cropname outindex c]) ∧
        s'.since s.trace.length
          = [.radecoverlap outindex imgindex, .readfitshdu imgindex] ++ pre ++
            [.onecrop outindex imgindex, .fits_close_infits imgindex]) ∧
    (∀ s t outindex s' t', wcs_request env p s t outindex = .ok (s', t') →
      handleScan .closed (s'.since s.trace.length) = some .closed) ∧
    (∀ indexs s s', wcsmodecrop env p indexs s = .ok s' →
      handleScan .closed (s'.since s.trace.length) = some .closed ∧
      ∀ k, sourceOpens ((s'.since s.trace.length).take k)
        ≤ sourceCloses ((s'.since s.trace.length).take k) + 1) := by
  refine ⟨?_, ?_, ?_⟩
  · intro s outindex imgindex s' hov h
    obtain ⟨pre, hpre, ht⟩ := wcs_image_trace env s s' outindex imgindex h
    rw [if_pos hov] at ht
    exact ⟨pre, hpre, since_of_trace s s' _ ht⟩
  · intro s t outindex s' t' h
    obtain ⟨evs, ht, _, _, h3⟩ := wcs_request_reading env p s s' t t' outindex h
    rw [since_of_trace s s' evs ht]
    exact h3
  · intro indexs s s' h
    have hscan : handleScan .closed (s'.since s.trace.length) = some .closed := by
      simp only [wcsmodecrop] at h
      split at h
      · cases h
      · rename_i s1 t1 h1
        cases h
        obtain ⟨evs, ht, hs⟩ := wcs_loop_scan env p indexs s s1 0 t1 h1
        obtain ⟨sig, hsig, hcase⟩ := signal_done_trace p s1
        have htr : (signal_done p s1).trace = s.trace ++ (evs ++ sig) := by
          rw [hsig, ht, List.append_assoc]
        rw [since_of_trace s _ _ htr, handleScan_append, hs]
        rcases hcase with hc | hc <;> subst hc <;> rfl
    refine ⟨hscan, fun k => ?_⟩
    have := handleScan_open_le_one _ _ _ hscan k
    simpa using this

/-! ## C7 -/

/-- C7 fails as stated: on a block of two requests `imgmodecrop` opens the
source once, not twice. -/
theorem imgmode_opens_source_once_for_two :
    (imgmodecrop env0 params0 [0, 1, env0.NONTHRDINDEX] (state0 1)).toOption.map
        (fun s' => sourceOpens s'.trace) = some 1 ∧
    (blockOf env0.NONTHRDINDEX [0, 1, env0.NONTHRDINDEX] 0).length = 2 := by
  decide

/-- C7 as amended: in pixel mode the source is opened once per call of
`imgmodecrop`, that is once per block, whatever the number of requests in
the block: the call is `readfitshdu`, then the calls of the requests (none
of which opens or closes a source), then one `fits_close_file` on the
source, then the update of `done`. -/
theorem imgmode_opens_source_once_per_block (env : Env) (p : imgcropparams)
    (indexs : List Nat) (s s' : State) (h : imgmodecrop env p indexs s = .ok s') :
    (∃ reqs sig, s'.since s.trace.length
        = [.readfitshdu 0] ++ reqs ++ [.fits_close_infits 0] ++ sig ∧
      (∀ e ∈ reqs, imgReqEv e = true) ∧
      (sig = [] ∨ sig = [.pthread_mutex_lock, .done_increment, .pthread_cond_signal,
        .pthread_mutex_unlock])) ∧
    sourceOpens (s'.since s.trace.length) = 1 ∧
    sourceCloses (s'.since s.trace.length) = 1 := by
  simp only [imgmodecrop] at h
  split at h
  · cases h
  · rename_i s1 h1
    split_ifs at h
    cases h
    obtain ⟨⟨reqs, ht, hp⟩, _, _⟩ := imgmode_loop_advances env p indexs _ s1 h1
    obtain ⟨sig, hsig, hcase⟩ := signal_done_trace p (s1.emit (.fits_close_infits 0))
    have htr : (signal_done p (s1.emit (.fits_close_infits 0))).trace
        = s.trace ++ ([.readfitshdu 0] ++ reqs ++ [.fits_close_infits 0] ++ sig) := by
      rw [hsig]
      simp [ht]
    rw [since_of_trace s _ _ htr]
    obtain ⟨h0, h0'⟩ := imgReqEv_no_source reqs hp
    refine ⟨⟨reqs, sig, rfl, hp, hcase⟩, ?_, ?_⟩
    · simp only [sourceOpens_append, h0]
      rcases hcase with hc | hc <;> subst hc <;> rfl
    · simp only [sourceCloses_append, h0']
      rcases hcase with hc | hc <;> subst hc <;> rfl

/-- C7 as amended, for a block of two requests. -/
theorem imgmode_opens_source_once_per_block_witness :
    ∃ s', imgmodecrop env0 params0 [0, 1, env0.NONTHRDINDEX] (state0 1) = .ok s' ∧
      sourceOpens (s'.since (state0 1).trace.length) = 1 ∧
      sourceCloses (s'.since (state0 1).trace.length) = 1 :=
  ⟨_, rfl, (imgmode_opens_source_once_per_block env0 params0 [0, 1, env0.NONTHRDINDEX]
    (state0 1) _ rfl).2⟩

/-! ## C8 -/

/-- C8: a call of `imgmodecrop` or of `wcsmodecrop` on a block leaves every
log slot unchanged whose index is not listed in the block before the
sentinel; so of two calls on disjoint blocks, no slot is changed by both. -/
theorem worker_writes_only_its_block (env : Env) (p : imgcropparams) :
    (∀ indexs s s', imgmodecrop env p indexs s = .ok s' →
      ∀ j, j ∉ blockOf env.NONTHRDINDEX indexs 0 → s'.log j = s.log j) ∧
    (∀ indexs s s', wcsmodecrop env p indexs s = .ok s' →
      ∀ j, j ∉ blockOf env.NONTHRDINDEX indexs 0 → s'.log j = s.log j) ∧
    (∀ m1 m2 indexs1 indexs2 s1 s1' s2 s2',
      runmode m1 env p indexs1 s1 = .ok s1' → runmode m2 env p indexs2 s2 = .ok s2' →
      List.Disjoint (blockOf env.NONTHRDINDEX indexs1 0) (blockOf env.NONTHRDINDEX indexs2 0) →
      ∀ j, s1'.log j ≠ s1.log j → s2'.log j = s2.log j) := by
  have key : ∀ m indexs s s', runmode m env p indexs s = .ok s' →
      ∀ j, j ∉ blockOf env.NONTHRDINDEX indexs 0 → s'.log j = s.log j := by
    intro m indexs s s' h j hj
    obtain ⟨s1, hadv, hs⟩ := runmode_ok m env p indexs s s' h
    rw [hs, signal_done_log]
    exact hadv.2.2 j hj
  refine ⟨key .img, key .wcs, ?_⟩
  intro m1 m2 indexs1 indexs2 s1 s1' s2 s2' h1 h2 hdis j hj
  have hin : j ∈ blockOf env.NONTHRDINDEX indexs1 0 := by
    by_contra hnot
    exact hj (key m1 indexs1 s1 s1' h1 j hnot)
  exact key m2 indexs2 s2 s2' h2 j (fun h => hdis hin h)

/-! ## The block of a worker -/

theorem requestsHandled_append (m : Mode) (a b : List Ev) :
    requestsHandled m (a ++ b) = requestsHandled m a ++ requestsHandled m b := by
  simp [requestsHandled, List.filterMap_append]

theorem requestsHandled_none (m : Mode) (evs : List Ev)
    (h : ∀ e ∈ evs, requestCall m e = none) : requestsHandled m evs = [] := by
  induction evs with
  | nil => rfl
  | cons e es ih =>
    unfold requestsHandled at ih ⊢
    rw [List.filterMap_cons, h e (List.mem_cons_self _ _)]
    exact ih (fun x hx => h x (List.mem_cons_of_mem _ hx))

theorem tailEv_requestCall (e : Ev) (h : tailEv e = true) : requestCall .img e = none := by
  cases e <;> first
    | rfl
    | (simp [tailEv, checkEv] at h)

theorem wcsRestEv_requestCall (e : Ev) (h : wcsRestEv e = true) :
    requestCall .wcs e = none := by
  cases e <;> first
    | rfl
    | (simp [wcsRestEv] at h)

theorem checkEv_wcsRestEv (e : Ev) (h : checkEv e = true) : wcsRestEv e = true := by
  cases e <;> simp_all [wcsRestEv, wcsReqEv, imgReqEv, checkEv]

theorem checkEv_tailEv (e : Ev) (h : checkEv e = true) : tailEv e = true := by
  cases e <;> simp_all [tailEv, checkEv]

theorem wcs_image_rest (env : Env) (s s' : State) (outindex imgindex : Nat)
    (h : wcs_image env s outindex imgindex = .ok s') : Advances wcsRestEv [outindex] s s' := by
  have hm : outindex ∈ [outindex] := by simp
  unfold wcs_image at h
  simp only at h
  split_ifs at h <;> cases h
  · exact advances_emit _ (advances_onecrop env _ _ (advances_cropname env _
      (advances_emit _ (advances_emit _ (advances_refl _ _ _) rfl) rfl) (fun _ => rfl) hm)
      rfl hm) rfl
  · exact advances_emit _ (advances_onecrop env _ _
      (advances_emit _ (advances_emit _ (advances_refl _ _ _) rfl) rfl) rfl hm) rfl
  · exact advances_emit _ (advances_refl _ _ _) rfl

theorem wcs_images_rest (env : Env) (outindex : Nat) :
    ∀ (more imgindex : Nat) (s s' : State),
      wcs_images env outindex more imgindex s = .ok s' →
      Advances wcsRestEv [outindex] s s' := by
  intro more
  induction more with
  | zero =>
    intro imgindex s s' h
    exact wcs_image_rest env s s' outindex imgindex h
  | succ more ih =>
    intro imgindex s s' h
    simp only [wcs_images] at h
    split at h
    · cases h
    · rename_i s1 h1
      exact advances_trans (wcs_image_rest env s s1 outindex imgindex h1)
        (ih (imgindex + 1) s1 s' h)

/-- A request of `wcsmodecrop` that returns has made the call `setcsides`
for its index, once. -/
theorem wcs_request_handles (env : Env) (p : imgcropparams) (s s' : State) (t t' : Int)
    (outindex : Nat) (h : wcs_request env p s t outindex = .ok (s', t')) :
    ∃ evs, s'.trace = s.trace ++ evs ∧ requestsHandled .wcs evs = [outindex] := by
  unfold wcs_request at h
  simp only at h
  split at h
  · cases h
  · rename_i s3 h3
    split at h
    · cases h
    · rename_i s4 t4 h4
      cases h
      obtain ⟨⟨evs, ht, hp⟩, _, _⟩ :=
        advances_report p outindex (advances_trans
          (wcs_images_rest env outindex _ _ _ _ h3)
          (advances_weaken checkEv_wcsRestEv (wcs_check_advances env p _ _ _ _ outindex h4)))
          (rfl : wcsRestEv (.reporttiming outindex) = true)
      refine ⟨.setcsides outindex :: evs, ?_, ?_⟩
      · rw [ht, emit_trace, setLog_trace, List.append_assoc]
        rfl
      · have hcons : Ev.setcsides outindex :: evs = [Ev.setcsides outindex] ++ evs := rfl
        rw [hcons, requestsHandled_append,
          requestsHandled_none .wcs evs (fun e he => wcsRestEv_requestCall e (hp e he))]
        rfl

/-- A request of `imgmodecrop` that returns has made the call `onecrop` for
its index, once. -/
theorem imgmode_request_handles (env : Env) (p : imgcropparams) (s s' : State)
    (outindex : Nat) (h : imgmode_request env p s outindex = .ok s') :
    ∃ evs, s'.trace = s.trace ++ evs ∧ requestsHandled .img evs = [outindex] := by
  unfold imgmode_request at h
  simp only at h
  split at h
  · cases h
  · rename_i s4 hc
    cases h
    obtain ⟨⟨evs, ht, hp⟩, _, _⟩ :=
      advances_report p outindex
        (advances_weaken checkEv_tailEv (imgmode_check_advances env p _ _ outindex hc))
        (rfl : tailEv (.reporttiming outindex) = true)
    refine ⟨[.cropname outindex s.catset, .onecrop outindex 0] ++ evs, ?_, ?_⟩
    · rw [ht]
      simp [onecrop, cropname, State.emit, State.setLog]
    · rw [requestsHandled_append,
        requestsHandled_none .img evs (fun e he => tailEv_requestCall e (hp e he))]
      rfl

theorem direct_img_handles (env : Env) (p : imgcropparams) :
    ∀ (jobs : List Nat) (s s' : State), direct_img env p jobs s = .ok s' →
      ∃ evs, s'.trace = s.trace ++ evs ∧ requestsHandled .img evs = jobs := by
  intro jobs
  induction jobs with
  | nil =>
    intro s s' h
    simp only [direct_img] at h
    cases h
    exact ⟨[], by simp, rfl⟩
  | cons j jobs ih =>
    intro s s' h
    simp only [direct_img] at h
    split at h
    · cases h
    · rename_i s1 h1
      obtain ⟨ev1, ht1, hr1⟩ := imgmode_request_handles env p s s1 j h1
      obtain ⟨ev2, ht2, hr2⟩ := ih s1 s' h
      exact ⟨ev1 ++ ev2, by rw [ht2, ht1, List.append_assoc],
        by rw [requestsHandled_append, hr1, hr2]; rfl⟩

theorem direct_wcs_handles (env : Env) (p : imgcropparams) :
    ∀ (jobs : List Nat) (s s' : State) (t t' : Int),
      direct_wcs env p jobs s t = .ok (s', t') →
      ∃ evs, s'.trace = s.trace ++ evs ∧ requestsHandled .wcs evs = jobs := by
  intro jobs
  induction jobs with
  | nil =>
    intro s s' t t' h
    simp only [direct_wcs] at h
    cases h
    exact ⟨[], by simp, rfl⟩
  | cons j jobs ih =>
    intro s s' t t' h
    simp only [direct_wcs] at h
    split at h
    · cases h
    · rename_i s1 t1 h1
      obtain ⟨ev1, ht1, hr1⟩ := wcs_request_handles env p s s1 t t1 j h1
      obtain ⟨ev2, ht2, hr2⟩ := ih s1 s' t1 t' h
      exact ⟨ev1 ++ ev2, by rw [ht2, ht1, List.append_assoc],
        by rw [requestsHandled_append, hr1, hr2]; rfl⟩

/-- The requests `jobs` processed in order, when that returns: the calls
made handle exactly the requests of `jobs`, in order. -/
theorem crop_direct_handles (m : Mode) (env : Env) (p : imgcropparams) (jobs : List Nat)
    (s s1 : State) (h : crop_direct m env p jobs s = .ok s1) :
    ∃ work, s1.trace = s.trace ++ work ∧ requestsHandled m work = jobs := by
  cases m with
  | img =>
    simp only [crop_direct] at h
    split at h
    · cases h
    · rename_i s2 h2
      split_ifs at h
      cases h
      obtain ⟨evs, ht, hr⟩ := direct_img_handles env p jobs _ s2 h2
      refine ⟨[.readfitshdu 0] ++ evs ++ [.fits_close_infits 0], ?_, ?_⟩
      · rw [emit_trace, ht, emit_trace, List.append_assoc, List.append_assoc,
          List.append_assoc]
      · rw [requestsHandled_append, requestsHandled_append, hr]
        simp [requestsHandled, requestCall]
  | wcs =>
    simp only [crop_direct] at h
    split at h
    · cases h
    · rename_i s2 t2 h2
      cases h
      exact direct_wcs_handles env p jobs s s1 0 t2 h2

/-- A call of the mode function that returns is the requests of its block
processed in order, followed by the update of `done`. -/
theorem runmode_eq_direct_then_signal (m : Mode) (env : Env) (p : imgcropparams)
    (l : List Nat) (s s' : State) (h : runmode m env p l s = .ok s') :
    ∃ s1, crop_direct m env p (l.takeWhile (fun y => decide (y ≠ env.NONTHRDINDEX))) s
        = .ok s1 ∧ s' = signal_done p s1 := by
  cases m with
  | img =>
    simp only [runmode, imgmodecrop, imgmode_loop_eq_direct] at h
    simp only [crop_direct]
    split at h
    · cases h
    · split_ifs at h with hc
      cases h
      exact ⟨_, if_neg hc, rfl⟩
  | wcs =>
    simp only [runmode, wcsmodecrop, wcs_loop_eq_direct] at h
    simp only [crop_direct]
    split at h
    · cases h
    · cases h
      exact ⟨_, rfl, rfl⟩

theorem launched_block_ne_nil (S : Nat) (indexs : List Nat) (thrdcols k i : Nat)
    (h : i ∈ launched S indexs thrdcols k) : blockOf S indexs (i * thrdcols) ≠ [] := by
  unfold launched at h
  rw [List.mem_filter, decide_eq_true_eq] at h
  have hne := h.2
  unfold blockOf
  have hlt : i * thrdcols < indexs.length := by
    by_contra hge
    rw [List.getD_eq_default _ _ (by omega)] at hne
    exact hne rfl
  rw [List.getD_eq_getElem _ _ hlt] at hne
  rw [List.drop_eq_getElem_cons hlt, List.takeWhile_cons_of_pos (by simpa using hne)]
  exact List.cons_ne_nil _ _

/-! ## C9 -/

/-- C9: in the multi-threaded branch of `imgcrop`, whatever the scheduler
does: while the controller is in the loop that starts the threads, about to
test worker `i`, the threads created are exactly the workers below `i` with
a non-empty block (`indexs[k*thrdcols] != NONTHRDINDEX`), in order, and
`numactive` is their number; when it waits at the barrier the same holds
with `i = numthreads`, so the value it waits for is the number of threads
created. The thread of a worker `i < numthreads`, when it returns, has first
processed its whole block (its calls up to there are those of the requests
of the block processed one after the other, each request handled once, in
order, with `done` untouched) and then added one to `done` exactly once, by
lock, increment, signal, unlock as its last calls. The block of a created
worker is not empty. -/
theorem numactive_counts_created_workers (env : Env) (p : imgcropparams) (sched : List Act)
    (s : State) (hnt : p.numthreads ≠ 1) :
    (∀ i numactive, (imgcrop env p sched s).ctrl = .spawning i numactive →
      created (imgcrop env p sched s).st.trace
        = created s.trace ++ launched env.NONTHRDINDEX
          (distribute env p s).1 (distribute env p s).2 i ∧
      numactive = (launched env.NONTHRDINDEX
          (distribute env p s).1 (distribute env p s).2 i).length) ∧
    (∀ numactive, (imgcrop env p sched s).ctrl = .waiting numactive →
      created (imgcrop env p sched s).st.trace
        = created s.trace ++ launched env.NONTHRDINDEX
          (distribute env p s).1 (distribute env p s).2 p.numthreads ∧
      numactive = (launched env.NONTHRDINDEX
          (distribute env p s).1 (distribute env p s).2 p.numthreads).length) ∧
    (∀ m i s0 s', i < p.numthreads →
      runmode m env p ((distribute env p s).1.drop (i * (distribute env p s).2)) s0 = .ok s' →
      s'.done = s0.done + 1 ∧
      ∃ s1 work,
        crop_direct m env p
          (blockOf env.NONTHRDINDEX (distribute env p s).1 (i * (distribute env p s).2)) s0
          = .ok s1 ∧
        s1.trace = s0.trace ++ work ∧ s1.done = s0.done ∧
        requestsHandled m work
          = blockOf env.NONTHRDINDEX (distribute env p s).1 (i * (distribute env p s).2) ∧
        (∀ e ∈ work, wcsReqEv e = true) ∧
        s'.since s0.trace.length = work ++ [.pthread_mutex_lock, .done_increment,
          .pthread_cond_signal, .pthread_mutex_unlock] ∧
        s'.log = s1.log) ∧
    (∀ i ∈ launched env.NONTHRDINDEX (distribute env p s).1 (distribute env p s).2
        p.numthreads,
      blockOf env.NONTHRDINDEX (distribute env p s).1 (i * (distribute env p s).2) ≠ []) := by
  refine ⟨?_, ?_, ?_, ?_⟩
  · intro i numactive hw
    rcases imgcrop_inv env p sched s hnt with hinv | ⟨e, he⟩
    · obtain ⟨_, hctrl⟩ := hinv
      rw [hw] at hctrl
      exact ⟨hctrl.2.1, hctrl.2.2.1⟩
    · rw [he] at hw
      cases hw
  · intro numactive hw
    rcases imgcrop_inv env p sched s hnt with hinv | ⟨e, he⟩
    · obtain ⟨_, hctrl⟩ := hinv
      rw [hw] at hctrl
      exact ⟨hctrl.1, hctrl.2.1⟩
    · rw [he] at hw
      cases hw
  · intro m i s0 s' hi h
    have hnt1 : 1 < p.numthreads := by omega
    obtain ⟨hd, _, work0, hsince0, hwork0⟩ := worker_counts_once m env p _ s0 s' h hnt1
    obtain ⟨s1, hdirect, hs'⟩ := runmode_eq_direct_then_signal m env p _ s0 s' h
    obtain ⟨work, htr, hreq⟩ := crop_direct_handles m env p _ s0 s1 hdirect
    obtain ⟨hd1, htr1⟩ := signal_done_multi p s1 hnt1
    have hsince : s'.since s0.trace.length = work ++ [.pthread_mutex_lock, .done_increment,
        .pthread_cond_signal, .pthread_mutex_unlock] := by
      apply since_of_trace
      rw [hs', htr1, htr, List.append_assoc]
    have hw : work0 = work := by
      rw [hsince] at hsince0
      exact (List.append_cancel_right hsince0).symm
    refine ⟨hd, s1, work, hdirect, htr, ?_, hreq, ?_, hsince, ?_⟩
    · rw [hs', hd1] at hd
      omega
    · rw [← hw]
      exact hwork0
    · rw [hs', signal_done_log]
  · intro i hi
    exact launched_block_ne_nil _ _ _ _ i hi

/-- C9 for two threads and one job: the controller having reached the
barrier, one thread was created, for worker 0, and `numactive` is 1; the
thread of worker 0 returns after the one request of its block, request 0,
and its four last calls add one to `done`. -/
theorem numactive_counts_created_workers_witness :
    ((imgcrop env0 params2 [.controller, .controller, .controller] (state0 0)).ctrl
      = .waiting 1 ∧
    created (imgcrop env0 params2 [.controller, .controller, .controller] (state0 0)).st.trace
      = [0] ∧
    1 = (launched env0.NONTHRDINDEX
          (distribute env0 params2 (state0 0)).1 (distribute env0 params2 (state0 0)).2
          params2.numthreads).length) ∧
    blockOf env0.NONTHRDINDEX (distribute env0 params2 (state0 0)).1
        (0 * (distribute env0 params2 (state0 0)).2) = [0] ∧
    ∃ s', runmode .wcs env0 params2
        ((distribute env0 params2 (state0 0)).1.drop
          (0 * (distribute env0 params2 (state0 0)).2)) (state0 0) = .ok s' ∧
      s'.done = (state0 0).done + 1 ∧
      ∃ s1 work,
        crop_direct .wcs env0 params2
          (blockOf env0.NONTHRDINDEX (distribute env0 params2 (state0 0)).1
            (0 * (distribute env0 params2 (state0 0)).2)) (state0 0) = .ok s1 ∧
        s1.trace = (state0 0).trace ++ work ∧ s1.done = (state0 0).done ∧
        requestsHandled .wcs work
          = blockOf env0.NONTHRDINDEX (distribute env0 params2 (state0 0)).1
            (0 * (distribute env0 params2 (state0 0)).2) ∧
        (∀ e ∈ work, wcsReqEv e = true) ∧
        s'.since (state0 0).trace.length = work ++ [.pthread_mutex_lock, .done_increment,
          .pthread_cond_signal, .pthread_mutex_unlock] ∧
        s'.log = s1.log :=
  ⟨⟨by decide, by decide,
    ((numactive_counts_created_workers env0 params2 [.controller, .controller, .controller]
      (state0 0) (by decide)).2.1 1 (by decide)).2⟩,
   by decide,
   _, rfl,
   (numactive_counts_created_workers env0 params2 [.controller, .controller, .controller]
      (state0 0) (by decide)).2.2.1 .wcs 0 (state0 0) _ (by decide) rfl⟩

/-! ## C10 -/

/-- C10 fails as stated: with two threads and the one job of a run without
catalog, worker 1 has an empty block and gets no thread; the controller
passes the barrier and calls `printlog` with `done = 1`, below
`numthreads = 2`. -/
theorem barrier_passed_below_numthreads :
    (imgcrop env0 params2 sched2 (state0 0)).ctrl = .finished ∧
    (imgcrop env0 params2 sched2 (state0 0)).st.done = 1 ∧
    (imgcrop env0 params2 sched2 (state0 0)).st.done < params2.numthreads ∧
    (imgcrop env0 params2 sched2 (state0 0)).st.trace.getLast? = some .printlog := by
  decide

/-- C10 as amended: the threshold of the barrier is `numactive`, the number
of threads created (the workers with a non-empty block), which is at most
`numthreads`. The test of the barrier lets the controller through exactly
when `done` is not below `numactive`; and whatever the scheduler does, when
the controller is past the barrier `done` equals the number of threads
created and each of them has returned. -/
theorem barrier_threshold_is_numactive (env : Env) (p : imgcropparams) (sched : List Act)
    (s : State) (hnt : p.numthreads ≠ 1) :
    (∀ numactive sys, (barrier numactive sys).ctrl
      = if sys.st.done < numactive then .waiting numactive else .finished) ∧
    ((imgcrop env p sched s).ctrl = .finished →
      (imgcrop env p sched s).st.done
        = (launched env.NONTHRDINDEX (distribute env p s).1 (distribute env p s).2
            p.numthreads).length ∧
      created (imgcrop env p sched s).st.trace
        = created s.trace ++ launched env.NONTHRDINDEX
          (distribute env p s).1 (distribute env p s).2 p.numthreads ∧
      (imgcrop env p sched s).ready = []) ∧
    (launched env.NONTHRDINDEX (distribute env p s).1 (distribute env p s).2
      p.numthreads).length ≤ p.numthreads := by
  refine ⟨?_, ?_, launched_length_le _ _ _ _⟩
  · intro numactive sys
    unfold barrier
    split_ifs <;> rfl
  · intro hf
    rcases imgcrop_inv env p sched s hnt with hinv | ⟨e, he⟩
    · obtain ⟨_, hctrl⟩ := hinv
      rw [hf] at hctrl
      exact ⟨hctrl.2.1, hctrl.1, hctrl.2.2⟩
    · rw [he] at hf
      cases hf

/-- C10 as amended, for two threads and one job. -/
theorem barrier_threshold_is_numactive_witness :
    (∀ numactive sys, (barrier numactive sys).ctrl
      = if sys.st.done < numactive then .waiting numactive else .finished) ∧
    ((imgcrop env0 params2 sched2 (state0 0)).ctrl = .finished →
      (imgcrop env0 params2 sched2 (state0 0)).st.done
        = (launched env0.NONTHRDINDEX (distribute env0 params2 (state0 0)).1
            (distribute env0 params2 (state0 0)).2 params2.numthreads).length ∧
      created (imgcrop env0 params2 sched2 (state0 0)).st.trace
        = created (state0 0).trace ++ launched env0.NONTHRDINDEX
          (distribute env0 params2 (state0 0)).1 (distribute env0 params2 (state0 0)).2
          params2.numthreads ∧
      (imgcrop env0 params2 sched2 (state0 0)).ready = []) ∧
    (launched env0.NONTHRDINDEX (distribute env0 params2 (state0 0)).1
      (distribute env0 params2 (state0 0)).2 params2.numthreads).length
        ≤ params2.numthreads :=
  barrier_threshold_is_numactive env0 params2 sched2 (state0 0) (by decide)

end ImgCrop

namespace Args

/-! ## C11 -/

theorem parse_opt_I (env : ArgEnv) (key : Key) (arg : Option String) (arg_num : Nat)
    (p p1 : imgcropparams) (r : error_t) (hk : key = .short 'I')
    (h : parse_opt env key arg arg_num p = .ok (p1, r)) :
    p.up.imgmodeset = 0 ∧ p1.up.imgmodeset = 1 ∧ p1.up.wcsmodeset = 1 ∧
      p1.imgmode = 1 ∧ p1.wcsmode = 0 := by
  unfold parse_opt at h
  by_cases he : equal_sign arg = true
  · rw [if_pos he] at h
    cases h
  · rw [if_neg he, if_pos hk] at h
    by_cases hs : p.up.imgmodeset ≠ 0
    · rw [if_pos hs] at h
      cases h
    · rw [if_neg hs] at h
      cases h
      exact ⟨by simpa using hs, rfl, rfl, rfl, rfl⟩

theorem parse_opt_W (env : ArgEnv) (key : Key) (arg : Option String) (arg_num : Nat)
    (p p1 : imgcropparams) (r : error_t) (hk : key = .short 'W')
    (h : parse_opt env key arg arg_num p = .ok (p1, r)) :
    p.up.wcsmodeset = 0 ∧ p1.up.imgmodeset = 1 ∧ p1.up.wcsmodeset = 1 ∧
      p1.imgmode = 0 ∧ p1.wcsmode = 1 := by
  have hWI : ¬ key = .short 'I' := by
    rw [hk]
    decide
  unfold parse_opt at h
  by_cases he : equal_sign arg = true
  · rw [if_pos he] at h
    cases h
  · rw [if_neg he, if_neg hWI, if_pos hk] at h
    by_cases hs : p.up.wcsmodeset ≠ 0
    · rw [if_pos hs] at h
      cases h
    · rw [if_neg hs] at h
      cases h
      exact ⟨by simpa using hs, rfl, rfl, rfl, rfl⟩

theorem readSize_ok (r : Option Nat) (store : Nat → imgcropparams) (p1 : imgcropparams)
    (e : error_t) (h : readSize r store = .ok (p1, e)) : ∃ v, p1 = store v := by
  cases r with
  | none => cases h
  | some v =>
    cases h
    exact ⟨v, rfl⟩

theorem readDouble_ok (accepted : Bool) (q p1 : imgcropparams) (e : error_t)
    (h : readDouble accepted q = .ok (p1, e)) : p1 = q := by
  cases accepted with
  | false => cases h
  | true =>
    cases h
    rfl

/-- A call of `parse_opt` for a key other than 'I' and 'W' leaves the mode
fields as they are. -/
theorem parse_opt_other (env : ArgEnv) (key : Key) (arg : Option String) (arg_num : Nat)
    (p p1 : imgcropparams) (r : error_t)
    (hI : key ≠ .short 'I') (hW : key ≠ .short 'W')
    (h : parse_opt env key arg arg_num p = .ok (p1, r)) :
    p1.imgmode = p.imgmode ∧ p1.wcsmode = p.wcsmode ∧
      p1.up.imgmodeset = p.up.imgmodeset ∧ p1.up.wcsmodeset = p.up.wcsmodeset := by
  unfold parse_opt at h
  by_cases he : equal_sign arg = true
  · rw [if_pos he] at h
    cases h
  · rw [if_neg he, if_neg hI, if_neg hW] at h
    by_cases hb : key = .short 'b'
    · rw [if_pos hb] at h
      cases h
      exact ⟨rfl, rfl, rfl, rfl⟩
    rw [if_neg hb] at h
    by_cases hk : key = .short 'k'
    · rw [if_pos hk] at h
      cases h
      exact ⟨rfl, rfl, rfl, rfl⟩
    rw [if_neg hk] at h
    by_cases hc : key = .short 'c'
    · rw [if_pos hc] at h
      obtain ⟨v, hv⟩ := readSize_ok _ _ _ _ h
      rw [hv]
      exact ⟨rfl, rfl, rfl, rfl⟩
    rw [if_neg hc] at h
    by_cases hp : key = .short 'p'
    · rw [if_pos hp] at h
      by_cases hm : env.malloc = false
      · rw [if_pos hm] at h
        cases h
      · rw [if_neg hm] at h
        cases h
        exact ⟨rfl, rfl, rfl, rfl⟩
    rw [if_neg hp] at h
    by_cases hf : key = .short 'f'
    · rw [if_pos hf] at h
      obtain ⟨v, hv⟩ := readSize_ok _ _ _ _ h
      rw [hv]
      exact ⟨rfl, rfl, rfl, rfl⟩
    rw [if_neg hf] at h
    by_cases hg : key = .short 'g'
    · rw [if_pos hg] at h
      obtain ⟨v, hv⟩ := readSize_ok _ _ _ _ h
      rw [hv]
      exact ⟨rfl, rfl, rfl, rfl⟩
    rw [if_neg hg] at h
    by_cases hr : key = .short 'r'
    · rw [if_pos hr] at h
      rw [readDouble_ok _ _ _ _ h]
      exact ⟨rfl, rfl, rfl, rfl⟩
    rw [if_neg hr] at h
    by_cases hd : key = .short 'd'
    · rw [if_pos hd] at h
      rw [readDouble_ok _ _ _ _ h]
      exact ⟨rfl, rfl, rfl, rfl⟩
    rw [if_neg hd] at h
    by_cases hi : key = .short 'i'
    · rw [if_pos hi] at h
      obtain ⟨v, hv⟩ := readSize_ok _ _ _ _ h
      rw [hv]
      exact ⟨rfl, rfl, rfl, rfl⟩
    rw [if_neg hi] at h
    by_cases hj : key = .short 'j'
    · rw [if_pos hj] at h
      obtain ⟨v, hv⟩ := readSize_ok _ _ _ _ h
      rw [hv]
      exact ⟨rfl, rfl, rfl, rfl⟩
    rw [if_neg hj] at h
    by_cases hx : key = .short 'x'
    · rw [if_pos hx] at h
      rw [readDouble_ok _ _ _ _ h]
      exact ⟨rfl, rfl, rfl, rfl⟩
    rw [if_neg hx] at h
    by_cases hy : key = .short 'y'
    · rw [if_pos hy] at h
      rw [readDouble_ok _ _ _ _ h]
      exact ⟨rfl, rfl, rfl, rfl⟩
    rw [if_neg hy] at h
    by_cases ha : key = .short 'a'
    · rw [if_pos ha] at h
      obtain ⟨v, hv⟩ := readSize_ok _ _ _ _ h
      rw [hv]
      exact ⟨rfl, rfl, rfl, rfl⟩
    rw [if_neg ha] at h
    by_cases hw : key = .short 'w'
    · rw [if_pos hw] at h
      rw [readDouble_ok _ _ _ _ h]
      exact ⟨rfl, rfl, rfl, rfl⟩
    rw [if_neg hw] at h
    by_cases hs : key = .short 's'
    · rw [if_pos hs] at h
      cases h
      exact ⟨rfl, rfl, rfl, rfl⟩
    rw [if_neg hs] at h
    by_cases hz : key = .short 'z'
    · rw [if_pos hz] at h
      cases h
      exact ⟨rfl, rfl, rfl, rfl⟩
    rw [if_neg hz] at h
    by_cases hA : key = .ARGP_KEY_ARG
    · rw [if_pos hA] at h
      by_cases hf : env.nameisfits (argstr arg) ≠ 0
      · rw [if_pos hf] at h
        cases h
        exact ⟨rfl, rfl, rfl, rfl⟩
      · rw [if_neg hf] at h
        by_cases hc : p.up.catname ≠ none
        · rw [if_pos hc] at h
          cases h
        · rw [if_neg hc] at h
          cases h
          exact ⟨rfl, rfl, rfl, rfl⟩
    rw [if_neg hA] at h
    by_cases hE : key = .ARGP_KEY_END
    · rw [if_pos hE] at h
      split_ifs at h <;> cases h <;> exact ⟨rfl, rfl, rfl, rfl⟩
    rw [if_neg hE] at h
    cases h
    exact ⟨rfl, rfl, rfl, rfl⟩

/-- Once both `imgmodeset` and `wcsmodeset` are set, a run that meets a
mode option ends in an error. -/
theorem parse_all_locked (env : ArgEnv) : ∀ (calls : List Call) (p : imgcropparams),
    p.up.imgmodeset ≠ 0 → p.up.wcsmodeset ≠ 0 →
    (∃ c ∈ calls, c.key = .short 'I' ∨ c.key = .short 'W') →
    ∃ e, parse_all env calls p = .error e := by
  intro calls
  induction calls with
  | nil =>
    intro p _ _ hc
    obtain ⟨c, hc, _⟩ := hc
    cases hc
  | cons c rest ih =>
    intro p hi hw hc
    cases hr : parse_opt env c.key c.arg c.arg_num p with
    | error e => exact ⟨e, by simp only [parse_all, hr]⟩
    | ok r =>
      obtain ⟨p1, r1⟩ := r
      by_cases hI : c.key = .short 'I'
      · exact absurd (parse_opt_I env _ _ _ p p1 r1 hI hr).1 hi
      · by_cases hW : c.key = .short 'W'
        · exact absurd (parse_opt_W env _ _ _ p p1 r1 hW hr).1 hw
        · obtain ⟨_, _, h3, h4⟩ := parse_opt_other env _ _ _ p p1 r1 hI hW hr
          have hrest : ∃ c' ∈ rest, c'.key = .short 'I' ∨ c'.key = .short 'W' := by
            obtain ⟨c', hmem, hk⟩ := hc
            rcases List.mem_cons.mp hmem with hEq | hIn
            · subst hEq
              rcases hk with hk | hk
              · exact absurd hk hI
              · exact absurd hk hW
            · exact ⟨c', hIn, hk⟩
          obtain ⟨e, he⟩ := ih p1 (by rw [h3]; exact hi) (by rw [h4]; exact hw) hrest
          exact ⟨e, by simp only [parse_all, hr, he]⟩

/-- From any structure, a run that contains both mode options ends in an
error. -/
theorem parse_all_both_modes (env : ArgEnv) : ∀ (calls : List Call) (p : imgcropparams),
    (∃ c ∈ calls, c.key = .short 'I') → (∃ c ∈ calls, c.key = .short 'W') →
    ∃ e, parse_all env calls p = .error e := by
  intro calls
  induction calls with
  | nil =>
    intro p hc _
    obtain ⟨c, hc, _⟩ := hc
    cases hc
  | cons c rest ih =>
    intro p hcI hcW
    cases hr : parse_opt env c.key c.arg c.arg_num p with
    | error e => exact ⟨e, by simp only [parse_all, hr]⟩
    | ok r =>
      obtain ⟨p1, r1⟩ := r
      have hWI : Key.short 'W' ≠ Key.short 'I' := by decide
      by_cases hI : c.key = .short 'I'
      · obtain ⟨_, h2, h3, _⟩ := parse_opt_I env _ _ _ p p1 r1 hI hr
        have hrest : ∃ c' ∈ rest, c'.key = .short 'I' ∨ c'.key = .short 'W' := by
          obtain ⟨c', hmem, hk⟩ := hcW
          rcases List.mem_cons.mp hmem with hEq | hIn
          · subst hEq
            rw [hI] at hk
            exact absurd hk.symm hWI
          · exact ⟨c', hIn, Or.inr hk⟩
        obtain ⟨e, he⟩ := parse_all_locked env rest p1 (by rw [h2]; decide)
          (by rw [h3]; decide) hrest
        exact ⟨e, by simp only [parse_all, hr, he]⟩
      · by_cases hW : c.key = .short 'W'
        · obtain ⟨_, h2, h3, _⟩ := parse_opt_W env _ _ _ p p1 r1 hW hr
          have hrest : ∃ c' ∈ rest, c'.key = .short 'I' ∨ c'.key = .short 'W' := by
            obtain ⟨c', hmem, hk⟩ := hcI
            rcases List.mem_cons.mp hmem with hEq | hIn
            · subst hEq
              exact absurd hk hI
            · exact ⟨c', hIn, Or.inl hk⟩
          obtain ⟨e, he⟩ := parse_all_locked env rest p1 (by rw [h2]; decide)
            (by rw [h3]; decide) hrest
          exact ⟨e, by simp only [parse_all, hr, he]⟩
        · have hrI : ∃ c' ∈ rest, c'.key = .short 'I' := by
            obtain ⟨c', hmem, hk⟩ := hcI
            rcases List.mem_cons.mp hmem with hEq | hIn
            · subst hEq
              exact absurd hk hI
            · exact ⟨c', hIn, hk⟩
          have hrW : ∃ c' ∈ rest, c'.key = .short 'W' := by
            obtain ⟨c', hmem, hk⟩ := hcW
            rcases List.mem_cons.mp hmem with hEq | hIn
            · subst hEq
              exact absurd hk hW
            · exact ⟨c', hIn, hk⟩
          obtain ⟨e, he⟩ := ih p1 hrI hrW
          exact ⟨e, by simp only [parse_all, hr, he]⟩

/-- A run that returns keeps `imgmode` and `wcsmode` from being both 1. -/
theorem parse_all_modes_exclusive (env : ArgEnv) :
    ∀ (calls : List Call) (p p' : imgcropparams),
    ¬ (p.imgmode = 1 ∧ p.wcsmode = 1) → parse_all env calls p = .ok p' →
    ¬ (p'.imgmode = 1 ∧ p'.wcsmode = 1) := by
  intro calls
  induction calls with
  | nil =>
    intro p p' h0 h
    simp only [parse_all] at h
    cases h
    exact h0
  | cons c rest ih =>
    intro p p' h0 h
    cases hr : parse_opt env c.key c.arg c.arg_num p with
    | error e =>
      simp only [parse_all, hr] at h
      cases h
    | ok r =>
      obtain ⟨p1, r1⟩ := r
      simp only [parse_all, hr] at h
      refine ih p1 p' ?_ h
      by_cases hI : c.key = .short 'I'
      · obtain ⟨_, _, _, h4, h5⟩ := parse_opt_I env _ _ _ p p1 r1 hI hr
        rw [h4, h5]
        decide
      · by_cases hW : c.key = .short 'W'
        · obtain ⟨_, _, _, h4, h5⟩ := parse_opt_W env _ _ _ p p1 r1 hW hr
          rw [h4, h5]
          decide
        · obtain ⟨h1, h2, _, _⟩ := parse_opt_other env _ _ _ p p1 r1 hI hW hr
          rw [h1, h2]
          exact h0

/-- C11: starting from a structure with no mode flag set, every sequence of
calls of `parse_opt` that contains both the option 'I' and the option 'W'
ends in a fatal error; and after every initial part of a sequence that runs
without error, `imgmode` and `wcsmode` are not both 1. -/
theorem mode_options_exclusive (env : ArgEnv) (calls : List Call) (p : imgcropparams)
    (h0 : p.up.imgmodeset = 0 ∧ p.up.wcsmodeset = 0 ∧ p.imgmode = 0 ∧ p.wcsmode = 0) :
    ((∃ c ∈ calls, c.key = .short 'I') → (∃ c ∈ calls, c.key = .short 'W') →
      ∃ e, parse_all env calls p = .error e) ∧
    (∀ k p', parse_all env (calls.take k) p = .ok p' →
      ¬ (p'.imgmode = 1 ∧ p'.wcsmode = 1)) := by
  refine ⟨parse_all_both_modes env calls p, ?_⟩
  intro k p' h
  refine parse_all_modes_exclusive env _ p p' ?_ h
  rw [h0.2.2.1]
  intro hc
  exact absurd hc.1 (by decide)

/-- C11 for the command line `-I a.fits -W`, and its part `-I a.fits`. -/
theorem mode_options_exclusive_witness :
    (∃ e, parse_all argenv0
      [⟨.short 'I', none, 0⟩, ⟨.ARGP_KEY_ARG, some "a.fits", 0⟩, ⟨.short 'W', none, 1⟩]
      params_init = .error e) ∧
    (∀ p', parse_all argenv0
      ([⟨.short 'I', none, 0⟩, ⟨.ARGP_KEY_ARG, some "a.fits", 0⟩, ⟨.short 'W', none, 1⟩].take 2)
      params_init = .ok p' → ¬ (p'.imgmode = 1 ∧ p'.wcsmode = 1)) :=
  ⟨(mode_options_exclusive argenv0
      [⟨.short 'I', none, 0⟩, ⟨.ARGP_KEY_ARG, some "a.fits", 0⟩, ⟨.short 'W', none, 1⟩]
      params_init ⟨rfl, rfl, rfl, rfl⟩).1 ⟨_, List.mem_cons_self _ _, rfl⟩
      ⟨_, List.mem_cons_of_mem _ (List.mem_cons_of_mem _ (List.mem_cons_self _ _)), rfl⟩,
   (mode_options_exclusive argenv0
      [⟨.short 'I', none, 0⟩, ⟨.ARGP_KEY_ARG, some "a.fits", 0⟩, ⟨.short 'W', none, 1⟩]
      params_init ⟨rfl, rfl, rfl, rfl⟩).2 2⟩

/-! ## C12 -/

/-- C12: in a normal run (`setdirconf`, `setusrconf` and `printparams` all
0) the call of `parse_opt` for `ARGP_KEY_END` ends in an error whenever no
catalog was given and none of `xc`, `yc`, `ra`, `dec`, `section` was set,
and whenever no FITS image was given; it returns 0 and changes nothing when
there was at least one argument, the list of images is not empty, and a
catalog or one of those options is present. -/
theorem end_of_arguments_checks (env : ArgEnv) (arg_num : Nat) (p : imgcropparams)
    (hnormal : p.cp.setdirconf = 0 ∧ p.cp.setusrconf = 0 ∧ p.cp.printparams = 0) :
    (p.up.catname = none → p.up.xcset = 0 → p.up.ycset = 0 → p.up.raset = 0 →
      p.up.decset = 0 → p.up.sectionset = 0 →
      parse_opt env .ARGP_KEY_END none arg_num p
        = .error (.argp_error
            (if arg_num = 0 then "No argument given!" else "No catalog provided!"))) ∧
    (p.up.stll = [] → ∃ e, parse_opt env .ARGP_KEY_END none arg_num p = .error e) ∧
    (0 < arg_num → p.up.stll ≠ [] →
      (p.up.catname ≠ none ∨ p.up.xcset ≠ 0 ∨ p.up.ycset ≠ 0 ∨ p.up.raset ≠ 0 ∨
        p.up.decset ≠ 0 ∨ p.up.sectionset ≠ 0) →
      parse_opt env .ARGP_KEY_END none arg_num p = .ok (p, .zero)) := by
  have hstep : parse_opt env .ARGP_KEY_END none arg_num p
      = (if arg_num = 0 then .error (.argp_error "No argument given!")
         else if p.up.catname = none ∧
            ¬ (p.up.xcset ≠ 0 ∨ p.up.ycset ≠ 0 ∨ p.up.raset ≠ 0 ∨ p.up.decset ≠ 0
               ∨ p.up.sectionset ≠ 0) then
          .error (.argp_error "No catalog provided!")
        else if p.up.stll = [] then
          .error (.argp_error "No FITS image(s) provided!")
        else .ok (p, .zero)) := by
    simp [parse_opt, equal_sign, hnormal]
  rw [hstep]
  refine ⟨?_, ?_, ?_⟩
  · intro h1 h2 h3 h4 h5 h6
    by_cases ha : arg_num = 0
    · simp [ha]
    · simp [ha, h1, h2, h3, h4, h5, h6]
  · intro hs
    split_ifs
    · exact ⟨_, rfl⟩
    · exact ⟨_, rfl⟩
    · exact ⟨_, rfl⟩
  · intro ha hs hc
    have ha0 : arg_num ≠ 0 := by omega
    rw [if_neg ha0, if_neg, if_neg hs]
    rintro ⟨hcat, hpos⟩
    rcases hc with hc | hc
    · exact hc hcat
    · exact hpos hc

/-- C12 for a run in which one image and the option `ra` were given. -/
theorem end_of_arguments_checks_witness :
    parse_opt argenv0 .ARGP_KEY_END none 1
        { params_init with up := { params_init.up with stll := ["a.fits"], raset := 1 } }
      = .ok ({ params_init with up := { params_init.up with stll := ["a.fits"], raset := 1 } },
          .zero) :=
  (end_of_arguments_checks argenv0 1
    { params_init with up := { params_init.up with stll := ["a.fits"], raset := 1 } }
    ⟨rfl, rfl, rfl⟩).2.2 (by decide) (by decide) (by decide)

end Args

namespace Fits

/-! ## C13 -/

theorem tmod_two_cases (d : Int) : d.tmod 2 = -1 ∨ d.tmod 2 = 0 ∨ d.tmod 2 = 1 := by
  cases d with
  | ofNat m =>
    show ((m % 2 : Nat) : Int) = -1 ∨ ((m % 2 : Nat) : Int) = 0 ∨ ((m % 2 : Nat) : Int) = 1
    omega
  | negSucc m =>
    show -(((m + 1) % 2 : Nat) : Int) = -1 ∨ -(((m + 1) % 2 : Nat) : Int) = 0
      ∨ -(((m + 1) % 2 : Nat) : Int) = 1
    omega

/-- After at least one round, `check` is the remainder of the last size. -/
theorem kernel_check_cases : ∀ (dsize : List Int) (check : Int),
    (check = -1 ∨ check = 0 ∨ check = 1) →
    (kernel_check dsize check = -1 ∨ kernel_check dsize check = 0
      ∨ kernel_check dsize check = 1) := by
  intro dsize
  induction dsize with
  | nil => intro check h; exact h
  | cons d rest ih =>
    intro check _
    exact ih (d.tmod 2) (tmod_two_cases d)

/-- C13 fails on the code: the loop assigns `check` instead of adding to it,
so `check` is at most 1 and differs from `ndim` for every kernel of two or
more dimensions. The kernel of 3 x 3 pixels, both sides odd, is rejected with
the odd-size error; so is every kernel of two or more dimensions. -/
theorem kernel_three_by_three_rejected :
    kernel_size_test [3, 3] = .error .even_kernel ∧
    (∀ d ∈ ([3, 3] : List Int), d.tmod 2 = 1) ∧
    (∀ dsize : List Int, 2 ≤ dsize.length → dsize.length < 2 ^ 64 - 1 →
      kernel_size_test dsize = .error .even_kernel) := by
  refine ⟨rfl, by decide, ?_⟩
  intro dsize h2 hlt
  unfold kernel_size_test
  simp only
  rw [if_pos]
  have hlen : (2 : Int) ≤ (dsize.length : Int) := by exact_mod_cast h2
  have hlen2 : (dsize.length : Int) < 2 ^ 64 - 1 := by
    have : ((dsize.length : Nat) : Int) < ((2 ^ 64 - 1 : Nat) : Int) := by exact_mod_cast hlt
    simpa using this
  rcases kernel_check_cases dsize 0 (Or.inr (Or.inl rfl)) with h | h | h <;> rw [h] <;> omega

/-! ## C14 -/

/-- C14 fails on the code: when `wcspih` rejects the header (status 4), the
function hands that status to `fits_free_memory`, which returns it, and
`gal_fits_io_error` ends the process; the function does not return. In
general it ends the process whenever `fits_free_memory` returns a non-zero
status; when that call returns 0, it does return `*wcs = NULL`, `*nwcs = 0`
for a header that `wcspih` or `wcsset` rejects, and what `wcspih` stored
when both accept. -/
theorem wcs_rejected_header_aborts :
    gal_fits_read_wcs_from_pointer wcsenv_rejected = .error (.io_error 4) ∧
    (∀ env : WcsEnv, env.fits_hdr2str = 0 → env.fits_free_memory env.wcspih ≠ 0 →
      gal_fits_read_wcs_from_pointer env
        = .error (.io_error (env.fits_free_memory env.wcspih))) ∧
    (∀ env : WcsEnv, env.fits_hdr2str = 0 → env.fits_free_memory env.wcspih = 0 →
      (env.wcspih ≠ 0 ∨ env.wcsset env.wcspih_wcs ≠ 0) → env.wcsset none ≠ 0 →
      gal_fits_read_wcs_from_pointer env = .ok (0, none)) ∧
    (∀ env : WcsEnv, env.fits_hdr2str = 0 → env.fits_free_memory env.wcspih = 0 →
      env.wcspih = 0 → env.wcsset env.wcspih_wcs = 0 →
      gal_fits_read_wcs_from_pointer env = .ok (env.wcspih_nwcs, env.wcspih_wcs)) := by
  refine ⟨rfl, ?_, ?_, ?_⟩
  · intro env h1 h2
    simp [gal_fits_read_wcs_from_pointer, h1, h2]
  · intro env h1 h2 h3 h4
    by_cases hp : env.wcspih = 0
    · have h5 : env.wcsset env.wcspih_wcs ≠ 0 := by
        rcases h3 with h3 | h3
        · exact absurd hp h3
        · exact h3
      rw [hp] at h2
      simp [gal_fits_read_wcs_from_pointer, h1, h2, hp, h5]
    · simp [gal_fits_read_wcs_from_pointer, h1, h2, hp, h4]
  · intro env h1 h2 h3 h4
    rw [h3] at h2
    simp [gal_fits_read_wcs_from_pointer, h1, h2, h3, h4]

/-! ## C15 -/

/-- C15 fails as stated: for `GAL_DATA_TYPE_ULONG` the function returns
`TULONG`, which is not the `TLONG` of the comment in data.h; and for the
member `GAL_DATA_TYPE_LOGICAL` of the enum it ends the process. -/
theorem type_to_datatype_differs_from_comment :
    gal_fits_type_to_datatype cfitsio GAL_DATA_TYPE_ULONG = .ok cfitsio.TULONG ∧
    (data_h_comment cfitsio).getD 9 0 = cfitsio.TLONG ∧
    cfitsio.TULONG ≠ cfitsio.TLONG ∧
    GAL_DATA_TYPE_LOGICAL ∈ gal_data_alltypes ∧
    gal_fits_type_to_datatype cfitsio GAL_DATA_TYPE_LOGICAL
      = .error (.type_to_datatype GAL_DATA_TYPE_LOGICAL) := by
  refine ⟨rfl, rfl, by decide, by decide, rfl⟩

/-- C15 as amended: for every type of the enum other than
`GAL_DATA_TYPE_LOGICAL`, `gal_fits_type_to_datatype` returns, without ending
the process, the CFITSIO code of the same name: the one that the comment in
data.h names, except that `GAL_DATA_TYPE_ULONG` gives `TULONG`. -/
theorem type_to_datatype_table (c : Cfitsio) :
    gal_fits_type_to_datatype c GAL_DATA_TYPE_BIT = .ok c.TBIT ∧
    gal_fits_type_to_datatype c GAL_DATA_TYPE_UCHAR = .ok c.TBYTE ∧
    gal_fits_type_to_datatype c GAL_DATA_TYPE_CHAR = .ok c.TSBYTE ∧
    gal_fits_type_to_datatype c GAL_DATA_TYPE_STRING = .ok c.TSTRING ∧
    gal_fits_type_to_datatype c GAL_DATA_TYPE_USHORT = .ok c.TUSHORT ∧
    gal_fits_type_to_datatype c GAL_DATA_TYPE_SHORT = .ok c.TSHORT ∧
    gal_fits_type_to_datatype c GAL_DATA_TYPE_UINT = .ok c.TUINT ∧
    gal_fits_type_to_datatype c GAL_DATA_TYPE_INT = .ok c.TINT ∧
    gal_fits_type_to_datatype c GAL_DATA_TYPE_ULONG = .ok c.TULONG ∧
    gal_fits_type_to_datatype c GAL_DATA_TYPE_LONG = .ok c.TLONG ∧
    gal_fits_type_to_datatype c GAL_DATA_TYPE_LONGLONG = .ok c.TLONGLONG ∧
    gal_fits_type_to_datatype c GAL_DATA_TYPE_FLOAT = .ok c.TFLOAT ∧
    gal_fits_type_to_datatype c GAL_DATA_TYPE_DOUBLE = .ok c.TDOUBLE ∧
    gal_fits_type_to_datatype c GAL_DATA_TYPE_COMPLEX = .ok c.TCOMPLEX ∧
    gal_fits_type_to_datatype c GAL_DATA_TYPE_DCOMPLEX = .ok c.TDBLCOMPLEX :=
  ⟨rfl, rfl, rfl, rfl, rfl, rfl, rfl, rfl, rfl, rfl, rfl, rfl, rfl, rfl, rfl⟩

/-! ## C16 -/

/-- C16 fails on the code: for the file name `a.fits` the one node that
`gal_fits_file_name_in_keywords` appends has the CFITSIO code `TSTRING` (16)
in its `type`, not `GAL_DATA_TYPE_STRING` (4); 16 is no member of the enum,
`gal_fits_type_to_datatype` ends the process on it, and so does
`gal_fits_update_keys` on the list. -/
theorem file_name_node_type_not_accepted :
    ∃ l, gal_fits_file_name_in_keywords cfitsio "INPUT" ['a', '.', 'f', 'i', 't', 's'] []
        = some (.ok l) ∧
      l.map (fun n => n.type) = [cfitsio.TSTRING] ∧
      cfitsio.TSTRING = 16 ∧ cfitsio.TSTRING ∉ gal_data_alltypes ∧
      gal_fits_type_to_datatype cfitsio cfitsio.TSTRING = .error (.type_to_datatype 16) ∧
      gal_fits_update_keys cfitsio keysenv0 l = .error (.type_to_datatype 16) :=
  ⟨_, rfl, rfl, rfl, by decide, rfl, rfl⟩

/-! ## The loop of `gal_fits_file_name_in_keywords` -/

theorem add_to_key_ll_end_eq (list : List gal_fits_key_ll) (type : Int) (keyname : String)
    (kfree : Int) (value : Option (List Char)) (vfree : Int) (comment : Option String)
    (cfree : Int) (unit : Option String) :
    gal_fits_add_to_key_ll_end list type keyname kfree value vfree comment cfree unit
      = list ++ [{ type := type, keyname := keyname, value := value, comment := comment,
                   unit := unit, kfree := kfree, vfree := vfree, cfree := cfree }] := by
  unfold gal_fits_add_to_key_ll_end
  by_cases h : list = []
  · subst h
    simp
  · simp [h]

theorem strncpy_length (src : List Char) (n : Nat) : (strncpy src n).length = n := by
  unfold strncpy
  simp only [List.length_append, List.length_take, List.length_replicate]
  omega

theorem strncpy_of_le (src : List Char) (n : Nat) (h : n ≤ src.length) :
    strncpy src n = src.take n := by
  unfold strncpy
  rw [Nat.sub_eq_zero_of_le h]
  simp

theorem strncpy_of_lt (src : List Char) (n : Nat) (h : src.length < n) :
    strncpy src n = src ++ NUL :: List.replicate (n - src.length - 1) NUL := by
  unfold strncpy
  rw [List.take_of_length_le (by omega)]
  have : n - src.length = (n - src.length - 1) + 1 := by omega
  rw [this, List.replicate_succ]
  simp

theorem strncpy_last_of_lt (src : List Char) (n : Nat) (h : src.length < n) :
    (strncpy src n).getD (n - 1) NUL = NUL := by
  unfold strncpy
  rw [List.take_of_length_le (by omega), List.getD_append_right _ _ _ _ (by omega)]
  rw [List.getD_eq_getElem?_getD, List.getElem?_replicate]
  split_ifs <;> rfl

theorem strncpy_last_of_le (src : List Char) (n : Nat) (hn : 1 ≤ n) (h : n ≤ src.length)
    (hnul : ∀ ch ∈ src, ch ≠ NUL) : (strncpy src n).getD (n - 1) NUL ≠ NUL := by
  rw [strncpy_of_le src n h]
  have hlen : n - 1 < (src.take n).length := by
    rw [List.length_take]
    omega
  rw [List.getD_eq_getElem _ _ hlen]
  exact hnul _ (List.mem_of_mem_take (List.getElem_mem _))

theorem cstring_append_nul (s rest : List Char) (hnul : ∀ ch ∈ s, ch ≠ NUL) :
    cstring (s ++ NUL :: rest) = s := by
  induction s with
  | nil => simp [cstring, List.takeWhile]
  | cons a s ih =>
    have ha : a ≠ NUL := hnul a (List.mem_cons_self _ _)
    have hs : ∀ ch ∈ s, ch ≠ NUL := fun ch h => hnul ch (List.mem_cons_of_mem _ h)
    have ih1 := ih hs
    unfold cstring at ih1 ⊢
    rw [List.cons_append, List.takeWhile_cons_of_pos (by simpa using ha), ih1]

theorem cstring_strncpy (src : List Char) (n : Nat) (h : src.length < n)
    (hnul : ∀ ch ∈ src, ch ≠ NUL) : cstring (strncpy src n) = src := by
  rw [strncpy_of_lt src n h]
  exact cstring_append_nul _ _ hnul

theorem nul_mem_strncpy (src : List Char) (n : Nat) (h : src.length < n) :
    NUL ∈ strncpy src n := by
  rw [strncpy_of_lt src n h]
  simp

theorem set_take_eq (src : List Char) (n k : Nat) (hk : k < n) (h : n ≤ src.length) :
    (src.take n).set k NUL = src.take k ++ NUL :: (src.take n).drop (k + 1) := by
  have hlen : k < (src.take n).length := by
    rw [List.length_take]
    omega
  rw [List.set_eq_take_cons_drop _ hlen, List.take_take]
  rw [Nat.min_eq_left (by omega)]

theorem cstring_set_take (src : List Char) (n k : Nat) (hk : k < n) (h : n ≤ src.length)
    (hnul : ∀ ch ∈ src, ch ≠ NUL) : cstring ((src.take n).set k NUL) = src.take k := by
  rw [set_take_eq src n k hk h]
  exact cstring_append_nul _ _ (fun ch hc => hnul ch (List.mem_of_mem_take hc))

theorem nul_mem_set_take (src : List Char) (n k : Nat) (hk : k < n) (h : n ≤ src.length) :
    NUL ∈ (src.take n).set k NUL := by
  rw [set_take_eq src n k hk h]
  simp

/-- What the loop over `j` finds: no '/' at the places 1..j when it ends
with 0, and otherwise a '/' at the place it ends with, the byte after it set
to NUL. -/
theorem find_slash_spec (value : List Char) : ∀ j : Nat,
    (find_slash value j).1 ≤ j ∧
    ((find_slash value j).1 = 0 → ∀ k, 1 ≤ k → k ≤ j → value.getD k NUL ≠ '/') ∧
    ((find_slash value j).1 ≠ 0 →
      value.getD (find_slash value j).1 NUL = '/' ∧
      (find_slash value j).2 = value.set ((find_slash value j).1 + 1) NUL) := by
  intro j
  induction j with
  | zero =>
    refine ⟨Nat.le_refl _, ?_, ?_⟩
    · intro _ k h1 h2
      omega
    · intro h
      exact absurd rfl h
  | succ j ih =>
    by_cases h : value.getD (j + 1) NUL = '/'
    · have hfs : find_slash value (j + 1) = (j + 1, value.set (j + 2) NUL) := by
        rw [find_slash, if_pos h]
      rw [hfs]
      refine ⟨Nat.le_refl _, ?_, ?_⟩
      · intro h0
        exact absurd h0 (Nat.succ_ne_zero j)
      · intro _
        exact ⟨h, rfl⟩
    · have hfs : find_slash value (j + 1) = find_slash value j := by
        rw [find_slash, if_neg h]
      rw [hfs]
      refine ⟨Nat.le_succ_of_le ih.1, ?_, ih.2.2⟩
      intro h0 k h1 h2
      by_cases hk : k = j + 1
      · rw [hk]
        exact h
      · exact ih.2.1 h0 k h1 (by omega)

theorem getD_take_drop (l : List Char) (i m k : Nat) (hk : k < m) :
    ((l.drop i).take m).getD k NUL = l.getD (i + k) NUL := by
  simp only [List.getD_eq_getElem?_getD, List.getElem?_take, List.getElem?_drop, hk, if_true]

/-- One round of the loop, entered with `i < len`: it is the last one when
fewer than `maxlength` characters remain; otherwise it aborts when none of
the bytes 1..maxlength-2 of the buffer is a '/', and goes on behind the last
such '/' when there is one. -/
theorem file_name_round (c : Cfitsio) (keynamebase : String) (filename : List Char)
    (hm : 2 ≤ c.FLEN_VALUE - 3) (hnul : ∀ ch ∈ filename, ch ≠ NUL)
    (i : Nat) (hi : i < filename.length) :
    (filename.length - i < c.FLEN_VALUE - 3 ∧
      ∀ fuel numkey list,
        file_name_loop c keynamebase filename (fuel + 1) i numkey list
          = some (.ok (list ++ [file_name_node c keynamebase numkey
              (strncpy (filename.drop i) (c.FLEN_VALUE - 3))])))
    ∨ (c.FLEN_VALUE - 3 ≤ filename.length - i ∧
      (∀ k, 1 ≤ k → k ≤ c.FLEN_VALUE - 3 - 2 → filename.getD (i + k) NUL ≠ '/') ∧
      ∀ fuel numkey list,
        file_name_loop c keynamebase filename (fuel + 1) i numkey list
          = some (.error (.no_slash (c.FLEN_VALUE - 3))))
    ∨ (∃ j, 1 ≤ j ∧ j ≤ c.FLEN_VALUE - 3 - 2 ∧ c.FLEN_VALUE - 3 ≤ filename.length - i ∧
      filename.getD (i + j) NUL = '/' ∧
      ∀ fuel numkey list,
        file_name_loop c keynamebase filename (fuel + 1) i numkey list
          = file_name_loop c keynamebase filename fuel (i + j + 1) (numkey + 1)
              (list ++ [file_name_node c keynamebase numkey
                (((filename.drop i).take (c.FLEN_VALUE - 3)).set (j + 1) NUL)])) := by
  have hrest : (filename.drop i).length = filename.length - i := List.length_drop _ _
  have hnul1 : ∀ ch ∈ filename.drop i, ch ≠ NUL := fun ch h => hnul ch (List.mem_of_mem_drop h)
  by_cases hlt : filename.length - i < c.FLEN_VALUE - 3
  · refine Or.inl ⟨hlt, ?_⟩
    intro fuel numkey list
    have hlast := strncpy_last_of_lt (filename.drop i) (c.FLEN_VALUE - 3) (by omega)
    rw [file_name_loop, if_pos hi]
    dsimp only
    rw [if_pos hlast, add_to_key_ll_end_eq]
    rfl
  · have hle : c.FLEN_VALUE - 3 ≤ (filename.drop i).length := by omega
    have hlast := strncpy_last_of_le (filename.drop i) (c.FLEN_VALUE - 3) (by omega) hle hnul1
    have hval := strncpy_of_le (filename.drop i) (c.FLEN_VALUE - 3) hle
    rw [hval] at hlast
    have hspec := find_slash_spec ((filename.drop i).take (c.FLEN_VALUE - 3))
      (c.FLEN_VALUE - 3 - 2)
    by_cases h0 : (find_slash ((filename.drop i).take (c.FLEN_VALUE - 3))
        (c.FLEN_VALUE - 3 - 2)).1 = 0
    · refine Or.inr (Or.inl ⟨by omega, ?_, ?_⟩)
      · intro k h1 h2
        have := hspec.2.1 h0 k h1 h2
        rw [getD_take_drop _ _ _ _ (by omega)] at this
        exact this
      · intro fuel numkey list
        rw [file_name_loop, if_pos hi]
        dsimp only
        rw [hval, if_neg hlast, if_pos h0]
    · obtain ⟨hsl, hbuf⟩ := hspec.2.2 h0
      have hj := hspec.1
      refine Or.inr (Or.inr ⟨_, Nat.pos_of_ne_zero h0, hj, by omega, ?_, ?_⟩)
      · rw [getD_take_drop _ _ _ _ (by omega)] at hsl
        exact hsl
      · intro fuel numkey list
        rw [file_name_loop, if_pos hi]
        dsimp only
        rw [hval, if_neg hlast, if_neg h0, add_to_key_ll_end_eq, hbuf]
        rfl

theorem getD_drop_add (l : List Char) (i k : Nat) :
    (l.drop i).getD k NUL = l.getD (i + k) NUL := by
  simp only [List.getD_eq_getElem?_getD, List.getElem?_drop]

theorem getLast_take_succ (l : List Char) (j : Nat) (hj : j < l.length) :
    (l.take (j + 1)).getLast? = some (l.getD j NUL) := by
  rw [List.getLast?_eq_getElem?, List.length_take, Nat.min_eq_left (by omega),
    Nat.add_sub_cancel, List.getElem?_take, if_pos (Nat.lt_succ_self j),
    List.getD_eq_getElem _ _ hj, List.getElem?_eq_getElem hj]

/-- The loop with enough fuel: it aborts with the error of line 856, or
returns the list with new nodes at its end; their names count on from
`numkey`, their strings make up the rest of the file name, every buffer has
`maxlength` bytes with a NUL among them and a string of 1 to `maxlength - 1`
characters, and every string but the last ends with '/'. -/
theorem file_name_loop_spec (c : Cfitsio) (keynamebase : String) (filename : List Char)
    (hm : 2 ≤ c.FLEN_VALUE - 3) (hnul : ∀ ch ∈ filename, ch ≠ NUL) :
    ∀ (fuel i numkey : Nat) (list : List gal_fits_key_ll), filename.length - i ≤ fuel →
      file_name_loop c keynamebase filename fuel i numkey list
        = some (.error (.no_slash (c.FLEN_VALUE - 3)))
      ∨ ∃ news, file_name_loop c keynamebase filename fuel i numkey list
          = some (.ok (list ++ news)) ∧
        news.map (fun n => n.keyname)
          = (List.range news.length).map
              (fun t => keynamebase ++ "_" ++ toString (numkey + t)) ∧
        (news.map node_string).flatten = filename.drop i ∧
        (∀ n ∈ news, n.type = c.TSTRING ∧ ∃ buf, n.value = some buf ∧
          buf.length = c.FLEN_VALUE - 3 ∧ NUL ∈ buf ∧
          1 ≤ (cstring buf).length ∧ (cstring buf).length ≤ c.FLEN_VALUE - 3 - 1) ∧
        (∀ n ∈ news.dropLast, (node_string n).getLast? = some '/') := by
  have hdone : ∀ (fuel i numkey : Nat) (list : List gal_fits_key_ll), ¬ i < filename.length →
      ∃ news, file_name_loop c keynamebase filename fuel i numkey list
          = some (.ok (list ++ news)) ∧
        news.map (fun n => n.keyname)
          = (List.range news.length).map
              (fun t => keynamebase ++ "_" ++ toString (numkey + t)) ∧
        (news.map node_string).flatten = filename.drop i ∧
        (∀ n ∈ news, n.type = c.TSTRING ∧ ∃ buf, n.value = some buf ∧
          buf.length = c.FLEN_VALUE - 3 ∧ NUL ∈ buf ∧
          1 ≤ (cstring buf).length ∧ (cstring buf).length ≤ c.FLEN_VALUE - 3 - 1) ∧
        (∀ n ∈ news.dropLast, (node_string n).getLast? = some '/') := by
    intro fuel i numkey list hi
    refine ⟨[], ?_, rfl, ?_, ?_, ?_⟩
    · cases fuel with
      | zero => rw [file_name_loop, if_neg hi, List.append_nil]
      | succ fuel => rw [file_name_loop, if_neg hi, List.append_nil]
    · rw [List.drop_of_length_le (by omega)]
      rfl
    · intro n hn
      cases hn
    · intro n hn
      cases hn
  intro fuel
  induction fuel with
  | zero =>
    intro i numkey list hfuel
    exact Or.inr (hdone 0 i numkey list (by omega))
  | succ fuel ih =>
    intro i numkey list hfuel
    by_cases hi : i < filename.length
    · have hrest : (filename.drop i).length = filename.length - i := List.length_drop _ _
      have hnul1 : ∀ ch ∈ filename.drop i, ch ≠ NUL :=
        fun ch h => hnul ch (List.mem_of_mem_drop h)
      rcases file_name_round c keynamebase filename hm hnul i hi with
        ⟨hlt, hloop⟩ | ⟨_, _, hloop⟩ | ⟨j, hj1, hj2, hle, hsl, hloop⟩
      · refine Or.inr ⟨[file_name_node c keynamebase numkey
          (strncpy (filename.drop i) (c.FLEN_VALUE - 3))], hloop fuel numkey list, rfl, ?_, ?_, ?_⟩
        · show cstring (strncpy (filename.drop i) (c.FLEN_VALUE - 3)) ++ [] = filename.drop i
          rw [List.append_nil, cstring_strncpy _ _ (by omega) hnul1]
        · intro n hn
          rw [List.mem_singleton] at hn
          subst hn
          refine ⟨rfl, _, rfl, strncpy_length _ _, nul_mem_strncpy _ _ (by omega), ?_, ?_⟩
          · rw [cstring_strncpy _ _ (by omega) hnul1]
            omega
          · rw [cstring_strncpy _ _ (by omega) hnul1]
            omega
        · intro n hn
          cases hn
      · exact Or.inl (hloop fuel numkey list)
      · have hcs := cstring_set_take (filename.drop i) (c.FLEN_VALUE - 3) (j + 1)
          (by omega) (by omega) hnul1
        rcases ih (i + j + 1) (numkey + 1)
          (list ++ [file_name_node c keynamebase numkey
            (((filename.drop i).take (c.FLEN_VALUE - 3)).set (j + 1) NUL)]) (by omega) with
          herr | ⟨news, hok, hnames, hcat, hnodes, hlast⟩
        · exact Or.inl ((hloop fuel numkey list).trans herr)
        · refine Or.inr ⟨file_name_node c keynamebase numkey
            (((filename.drop i).take (c.FLEN_VALUE - 3)).set (j + 1) NUL) :: news, ?_, ?_, ?_, ?_, ?_⟩
          · rw [hloop fuel numkey list, hok, List.append_assoc]
            rfl
          · rw [List.map_cons, hnames, List.length_cons, List.range_succ_eq_map,
              List.map_cons, List.map_map]
            refine congrArg₂ _ rfl (List.map_congr_left ?_)
            intro t _
            show keynamebase ++ "_" ++ toString (numkey + 1 + t)
              = keynamebase ++ "_" ++ toString (numkey + (t + 1))
            rw [Nat.add_assoc, Nat.add_comm 1 t]
          · rw [List.map_cons, List.flatten_cons, hcat]
            show cstring (((filename.drop i).take (c.FLEN_VALUE - 3)).set (j + 1) NUL)
              ++ filename.drop (i + j + 1) = filename.drop i
            rw [hcs, Nat.add_assoc, ← List.drop_drop, List.take_append_drop]
          · intro n hn
            rw [List.mem_cons] at hn
            rcases hn with hn | hn
            · subst hn
              refine ⟨rfl, _, rfl, ?_, nul_mem_set_take _ _ _ (by omega) (by omega), ?_, ?_⟩
              · rw [List.length_set, List.length_take]
                omega
              · rw [hcs, List.length_take]
                omega
              · rw [hcs, List.length_take]
                omega
            · exact hnodes n hn
          · intro n hn
            by_cases hne : news = []
            · subst hne
              cases hn
            · rw [List.dropLast_cons_of_ne_nil hne, List.mem_cons] at hn
              rcases hn with hn | hn
              · subst hn
                show (cstring (((filename.drop i).take (c.FLEN_VALUE - 3)).set (j + 1)
                  NUL)).getLast? = some '/'
                rw [hcs, getLast_take_succ _ _ (by omega), getD_drop_add, hsl]
              · exact hlast n hn
    · exact Or.inr (hdone (fuel + 1) i numkey list hi)

/-- The characters before the first one that fails `p` are at least `n`
exactly when the first `n` characters exist and satisfy `p`. -/
theorem le_length_takeWhile (p : Char → Bool) : ∀ (t : List Char) (n : Nat),
    n ≤ (t.takeWhile p).length ↔ n ≤ t.length ∧ ∀ k < n, p (t.getD k NUL) = true := by
  intro t
  induction t with
  | nil =>
    intro n
    simp only [List.takeWhile_nil, List.length_nil, Nat.le_zero]
    constructor
    · intro h
      subst h
      exact ⟨rfl, fun k hk => absurd hk (Nat.not_lt_zero k)⟩
    · intro h
      exact h.1
  | cons a t ih =>
    intro n
    by_cases hp : p a = true
    · rw [List.takeWhile_cons_of_pos hp]
      cases n with
      | zero =>
        simp
      | succ n =>
        simp only [List.length_cons, Nat.add_le_add_iff_right]
        rw [ih n]
        constructor
        · rintro ⟨h1, h2⟩
          refine ⟨h1, ?_⟩
          intro k hk
          cases k with
          | zero => exact hp
          | succ k => exact h2 k (by omega)
        · rintro ⟨h1, h2⟩
          exact ⟨h1, fun k hk => h2 (k + 1) (by omega)⟩
    · rw [List.takeWhile_cons_of_neg hp]
      simp only [List.length_nil, Nat.le_zero]
      constructor
      · intro h
        subst h
        exact ⟨Nat.zero_le _, fun k hk => absurd hk (Nat.not_lt_zero k)⟩
      · rintro ⟨_, h2⟩
        by_contra hn
        exact hp (h2 0 (Nat.pos_of_ne_zero hn))

/-- The test `hasRun` in terms of positions: some `n` consecutive places
hold no '/'. -/
theorem hasRun_iff (n : Nat) (l : List Char) :
    hasRun n l = true ↔
      ∃ s, s + n ≤ l.length ∧ ∀ k < n, l.getD (s + k) NUL ≠ '/' := by
  unfold hasRun
  rw [List.any_eq_true]
  constructor
  · rintro ⟨t, ht, hrun⟩
    rw [List.mem_tails] at ht
    obtain ⟨pre, hpre⟩ := ht
    rw [decide_eq_true_eq, le_length_takeWhile] at hrun
    refine ⟨pre.length, ?_, ?_⟩
    · rw [← hpre, List.length_append]
      omega
    · intro k hk
      have := hrun.2 k hk
      rw [decide_eq_true_eq] at this
      rw [← hpre, List.getD_append_right _ _ _ _ (by omega), Nat.add_sub_cancel_left]
      exact this
  · rintro ⟨s, hs, hrun⟩
    refine ⟨l.drop s, (List.mem_tails _ _).2 (List.drop_suffix s l), ?_⟩
    rw [decide_eq_true_eq, le_length_takeWhile]
    refine ⟨?_, ?_⟩
    · rw [List.length_drop]
      omega
    · intro k hk
      rw [decide_eq_true_eq, getD_drop_add]
      exact hrun k hk

/-- When the loop aborts, it is with the error of line 856, in a round whose
buffer is full and has no '/' at the places 1..maxlength-2. -/
theorem file_name_loop_abort (c : Cfitsio) (keynamebase : String) (filename : List Char)
    (hm : 2 ≤ c.FLEN_VALUE - 3) (hnul : ∀ ch ∈ filename, ch ≠ NUL) :
    ∀ (fuel i numkey : Nat) (list : List gal_fits_key_ll) (e : FitsFatal),
      file_name_loop c keynamebase filename fuel i numkey list = some (.error e) →
      e = .no_slash (c.FLEN_VALUE - 3) ∧
      ∃ s, s + (c.FLEN_VALUE - 3) ≤ filename.length ∧
        ∀ k, 1 ≤ k → k ≤ c.FLEN_VALUE - 3 - 2 → filename.getD (s + k) NUL ≠ '/' := by
  intro fuel
  induction fuel with
  | zero =>
    intro i numkey list e h
    rw [file_name_loop] at h
    split_ifs at h
    cases h
  | succ fuel ih =>
    intro i numkey list e h
    by_cases hi : i < filename.length
    · rcases file_name_round c keynamebase filename hm hnul i hi with
        ⟨_, hloop⟩ | ⟨hle, hno, hloop⟩ | ⟨j, _, _, _, _, hloop⟩
      · rw [hloop fuel numkey list] at h
        cases h
      · rw [hloop fuel numkey list] at h
        injection h with h
        injection h with h
        exact ⟨h.symm, i, by omega, hno⟩
      · rw [hloop fuel numkey list] at h
        exact ih _ _ _ e h
    · rw [file_name_loop, if_neg hi] at h
      cases h

/-- A run of `maxlength` characters without '/' that starts at or after `i`
makes the loop abort. -/
theorem file_name_loop_run (c : Cfitsio) (keynamebase : String) (filename : List Char)
    (hm : 2 ≤ c.FLEN_VALUE - 3) (hnul : ∀ ch ∈ filename, ch ≠ NUL) (s : Nat)
    (hs : s + (c.FLEN_VALUE - 3) ≤ filename.length)
    (hrun : ∀ k < c.FLEN_VALUE - 3, filename.getD (s + k) NUL ≠ '/') :
    ∀ (fuel i numkey : Nat) (list : List gal_fits_key_ll), i ≤ s →
      filename.length - i ≤ fuel →
      file_name_loop c keynamebase filename fuel i numkey list
        = some (.error (.no_slash (c.FLEN_VALUE - 3))) := by
  intro fuel
  induction fuel with
  | zero =>
    intro i numkey list his hfuel
    omega
  | succ fuel ih =>
    intro i numkey list his hfuel
    rcases file_name_round c keynamebase filename hm hnul i (by omega) with
      ⟨hlt, _⟩ | ⟨_, _, hloop⟩ | ⟨j, hj1, hj2, hle, hsl, hloop⟩
    · omega
    · exact hloop fuel numkey list
    · rw [hloop fuel numkey list]
      have hlt : i + j < s := by
        by_contra hge
        have hk : i + j - s < c.FLEN_VALUE - 3 := by omega
        have := hrun (i + j - s) hk
        rw [show s + (i + j - s) = i + j by omega] at this
        exact this hsl
      exact ih _ _ _ (by omega) (by omega)

/-! ## C17 -/

/-- C17: for a file name (a C string, so without NUL; `FLEN_VALUE` at least
5) the call of `gal_fits_file_name_in_keywords` terminates, and when it does
not abort the list it leaves is the old list followed by k new nodes named
`keynamebase_1`, ..., `keynamebase_k` in that order, the strings of the new
nodes concatenated in that order are the file name, and k = 0 exactly for the
empty file name. -/
theorem file_name_nodes_spell_filename (c : Cfitsio) (keynamebase : String)
    (filename : List Char) (list : List gal_fits_key_ll)
    (hm : 5 ≤ c.FLEN_VALUE) (hnul : ∀ ch ∈ filename, ch ≠ NUL) :
    (∃ r, gal_fits_file_name_in_keywords c keynamebase filename list = some r) ∧
    ∀ l, gal_fits_file_name_in_keywords c keynamebase filename list = some (.ok l) →
      ∃ news, l = list ++ news ∧
        news.map (fun n => n.keyname)
          = (List.range news.length).map
              (fun t => keynamebase ++ "_" ++ toString (t + 1)) ∧
        (news.map node_string).flatten = filename ∧
        (news = [] ↔ filename = []) := by
  have hspec := file_name_loop_spec c keynamebase filename (by omega) hnul filename.length 0 1
    list (by omega)
  unfold gal_fits_file_name_in_keywords
  rcases hspec with herr | ⟨news, hok, hnames, hcat, hnodes, _⟩
  · refine ⟨⟨_, herr⟩, ?_⟩
    intro l hl
    rw [herr] at hl
    cases hl
  · refine ⟨⟨_, hok⟩, ?_⟩
    intro l hl
    rw [hok] at hl
    injection hl with hl
    injection hl with hl
    rw [List.drop_zero] at hcat
    refine ⟨news, hl.symm, ?_, hcat, ?_⟩
    · rw [hnames]
      refine List.map_congr_left ?_
      intro t _
      show keynamebase ++ "_" ++ toString (1 + t) = keynamebase ++ "_" ++ toString (t + 1)
      rw [Nat.add_comm]
    · constructor
      · intro hnil
        rw [← hcat, hnil]
        rfl
      · intro hnil
        cases news with
        | nil => rfl
        | cons n rest =>
          exfalso
          obtain ⟨_, buf, hbuf, _, _, h1, _⟩ := hnodes n (List.mem_cons_self _ _)
          have hlen : (node_string n).length = 0 := by
            have := congrArg List.length hcat
            rw [hnil, List.map_cons, List.flatten_cons, List.length_append,
              List.length_nil] at this
            omega
          have hns : node_string n = cstring buf := by
            unfold node_string
            rw [hbuf]
          rw [hns] at hlen
          omega

/-- C17 for the file name of `name81` with the constants of `cfitsio`. -/
theorem file_name_nodes_spell_filename_witness :
    (∃ r, gal_fits_file_name_in_keywords cfitsio "INPUT" name81 [] = some r) ∧
    ∀ l, gal_fits_file_name_in_keywords cfitsio "INPUT" name81 [] = some (.ok l) →
      ∃ news, l = [] ++ news ∧
        news.map (fun n => n.keyname)
          = (List.range news.length).map (fun t => "INPUT" ++ "_" ++ toString (t + 1)) ∧
        (news.map node_string).flatten = name81 ∧
        (news = [] ↔ name81 = []) :=
  file_name_nodes_spell_filename cfitsio "INPUT" name81 [] (by decide) (by decide)

/-! ## C18 -/

/-- C18 fails as stated: the file name of 67 letters and a '/' after them
makes `gal_fits_file_name_in_keywords` abort with the error of line 856,
although its longest run of characters other than '/' has 67 characters, one
less than `maxlength` = 68. -/
theorem file_name_aborts_without_run :
    gal_fits_file_name_in_keywords cfitsio "INPUT" name67 []
      = some (.error (.no_slash 68)) ∧
    cfitsio.FLEN_VALUE - 3 = 68 ∧ hasRun 68 name67 = false ∧ hasRun 67 name67 = true :=
  ⟨rfl, rfl, rfl, rfl⟩

/-- C18 as amended: a file name (without NUL; `FLEN_VALUE` at least 5) that
has a run of at least `maxlength` = `FLEN_VALUE - 3` characters other than
'/' makes `gal_fits_file_name_in_keywords` abort with the error of line 856;
and when the function aborts, it is with that error and the file name has a
run of at least `maxlength - 2` characters other than '/'. -/
theorem file_name_abort_bounds (c : Cfitsio) (keynamebase : String)
    (filename : List Char) (list : List gal_fits_key_ll)
    (hm : 5 ≤ c.FLEN_VALUE) (hnul : ∀ ch ∈ filename, ch ≠ NUL) :
    (hasRun (c.FLEN_VALUE - 3) filename = true →
      gal_fits_file_name_in_keywords c keynamebase filename list
        = some (.error (.no_slash (c.FLEN_VALUE - 3)))) ∧
    (∀ e, gal_fits_file_name_in_keywords c keynamebase filename list = some (.error e) →
      e = .no_slash (c.FLEN_VALUE - 3) ∧ hasRun (c.FLEN_VALUE - 3 - 2) filename = true) := by
  unfold gal_fits_file_name_in_keywords
  constructor
  · intro hrun
    rw [hasRun_iff] at hrun
    obtain ⟨s, hs, hrun⟩ := hrun
    exact file_name_loop_run c keynamebase filename (by omega) hnul s hs hrun
      filename.length 0 1 list (Nat.zero_le _) (by omega)
  · intro e he
    obtain ⟨h1, s, hs, hno⟩ :=
      file_name_loop_abort c keynamebase filename (by omega) hnul _ _ _ _ e he
    refine ⟨h1, ?_⟩
    rw [hasRun_iff]
    refine ⟨s + 1, by omega, ?_⟩
    intro k hk
    have := hno (1 + k) (by omega) (by omega)
    rw [← Nat.add_assoc] at this
    exact this

/-- C18 as amended, for the file name of 68 letters with the constants of
`cfitsio`: the function aborts. -/
theorem file_name_abort_bounds_witness :
    gal_fits_file_name_in_keywords cfitsio "INPUT" name68 []
      = some (.error (.no_slash (cfitsio.FLEN_VALUE - 3))) :=
  (file_name_abort_bounds cfitsio "INPUT" name68 [] (by decide) (by decide)).1 rfl

/-! ## C19 -/

/-- C19: for a file name (without NUL; `FLEN_VALUE` at least 5) on which
`gal_fits_file_name_in_keywords` does not abort, every node it adds has a
buffer of `maxlength` = `FLEN_VALUE - 3` bytes with a NUL among them, the
string in it has between 1 and `maxlength - 1` = `FLEN_VALUE - 4` characters,
and the string of every added node but the last ends with '/'. -/
theorem file_name_values_terminated (c : Cfitsio) (keynamebase : String)
    (filename : List Char) (list : List gal_fits_key_ll)
    (hm : 5 ≤ c.FLEN_VALUE) (hnul : ∀ ch ∈ filename, ch ≠ NUL) :
    ∀ l, gal_fits_file_name_in_keywords c keynamebase filename list = some (.ok l) →
      ∃ news, l = list ++ news ∧
        (∀ n ∈ news, ∃ buf, n.value = some buf ∧ buf.length = c.FLEN_VALUE - 3 ∧
          NUL ∈ buf ∧ (cstring buf).length < buf.length ∧
          1 ≤ (cstring buf).length ∧ (cstring buf).length ≤ c.FLEN_VALUE - 4) ∧
        (∀ n ∈ news.dropLast, (node_string n).getLast? = some '/') := by
  have hspec := file_name_loop_spec c keynamebase filename (by omega) hnul filename.length 0 1
    list (by omega)
  unfold gal_fits_file_name_in_keywords
  intro l hl
  rcases hspec with herr | ⟨news, hok, _, _, hnodes, hlast⟩
  · rw [herr] at hl
    cases hl
  · rw [hok] at hl
    injection hl with hl
    injection hl with hl
    refine ⟨news, hl.symm, ?_, hlast⟩
    intro n hn
    obtain ⟨_, buf, hbuf, hlen, hmem, h1, h2⟩ := hnodes n hn
    exact ⟨buf, hbuf, hlen, hmem, by omega, h1, by omega⟩

/-- C19 for the file name of `name81` with the constants of `cfitsio`: two
nodes are added, with the strings of 41 and of 40 characters. -/
theorem file_name_values_terminated_witness :
    ∃ l, gal_fits_file_name_in_keywords cfitsio "INPUT" name81 [] = some (.ok l) ∧
      l.map (fun n => (node_string n).length) = [41, 40] ∧
      ∃ news, l = [] ++ news ∧
        (∀ n ∈ news, ∃ buf, n.value = some buf ∧ buf.length = cfitsio.FLEN_VALUE - 3 ∧
          NUL ∈ buf ∧ (cstring buf).length < buf.length ∧
          1 ≤ (cstring buf).length ∧ (cstring buf).length ≤ cfitsio.FLEN_VALUE - 4) ∧
        (∀ n ∈ news.dropLast, (node_string n).getLast? = some '/') :=
  ⟨_, rfl, rfl,
    file_name_values_terminated cfitsio "INPUT" name81 [] (by decide) (by decide) _ rfl⟩

/-! ## C20 -/

theorem add_wcs_calls (env : WriteEnv) (nkeyrec : Int) :
    ∀ call ∈ (gal_fits_add_wcs_to_header env nkeyrec).calls,
      ∃ n, call = FitsCall.fits_write_record n := by
  intro call hc
  unfold gal_fits_add_wcs_to_header at hc
  simp only at hc
  split_ifs at hc <;>
    simp only [List.mem_append, List.mem_cons, List.mem_singleton, List.not_mem_nil,
      or_false, List.mem_map] at hc
  all_goals first
    | exact ⟨_, hc⟩
    | (rcases hc with hc | hc <;> exact ⟨_, hc⟩)
    | (rcases hc with (hc | hc) | ⟨h, _, hc⟩
       · exact ⟨_, hc⟩
       · exact ⟨_, hc⟩
       · exact ⟨_, hc.symm⟩)

/-- The calls of `gal_fits_write_img_fitsptr` when both type conversions
return: the file, the image, the array, the keyword BLANK when the test of
lines 1389-1394 holds, then only `EXTNAME` and the WCS records. -/
theorem write_img_calls (c : Cfitsio) (env : WriteEnv) (data : gal_data_t) (dt bp : Int)
    (h1 : gal_fits_type_to_datatype c data.type = .ok dt)
    (h2 : gal_fits_type_to_bitpix c data.type = .ok bp)
    (h3 : (decide (data.anyblank ≠ 0) && blank_types data.type) = true →
      env.gal_data_alloc_blank data.type = true) :
    ∃ first tail, (first = FitsCall.fits_open_file ∨ first = FitsCall.fits_create_file) ∧
      (gal_fits_write_img_fitsptr c env data).calls
        = [first, .fits_create_img bp, .fits_write_img dt]
          ++ (if (decide (data.anyblank ≠ 0) && blank_types data.type) = true
              then [FitsCall.fits_write_key dt "BLANK"] else []) ++ tail ∧
      ∀ call ∈ tail, call = FitsCall.fits_write_key c.TSTRING "EXTNAME"
        ∨ call = FitsCall.wcshdo ∨ ∃ n, call = FitsCall.fits_write_record n := by
  have hfirst : ∃ first, (first = FitsCall.fits_open_file ∨ first = FitsCall.fits_create_file)
      ∧ (if env.access ≠ -1 then [FitsCall.fits_open_file] else [FitsCall.fits_create_file])
        = [first] := by
    by_cases ha : env.access ≠ -1
    · exact ⟨_, Or.inl rfl, by rw [if_pos ha]⟩
    · exact ⟨_, Or.inr rfl, by rw [if_neg ha]⟩
  obtain ⟨first, hf, hfe⟩ := hfirst
  refine ⟨first, ?_⟩
  unfold gal_fits_write_img_fitsptr
  rw [h1]
  simp only
  rw [h2]
  simp only
  rw [hfe]
  have hw0 := add_wcs_calls env env.nkeyrec
  generalize gal_fits_add_wcs_to_header env env.nkeyrec = w at hw0 ⊢
  have htail : ∀ tail : List FitsCall, (∀ call ∈ tail, call ∈ w.calls) →
      ∀ call ∈ FitsCall.fits_write_key c.TSTRING "EXTNAME" :: FitsCall.wcshdo :: tail,
      call = FitsCall.fits_write_key c.TSTRING "EXTNAME"
        ∨ call = FitsCall.wcshdo ∨ ∃ n, call = FitsCall.fits_write_record n := by
    intro tail ht call hc
    simp only [List.mem_cons] at hc
    rcases hc with hc | hc | hc
    · exact Or.inl hc
    · exact Or.inr (Or.inl hc)
    · exact Or.inr (Or.inr (hw0 call (ht call hc)))
  have he : ∀ call ∈ [FitsCall.fits_write_key c.TSTRING "EXTNAME"],
      call = FitsCall.fits_write_key c.TSTRING "EXTNAME"
        ∨ call = FitsCall.wcshdo ∨ ∃ n, call = FitsCall.fits_write_record n := by
    intro call hc
    exact Or.inl (List.mem_singleton.mp hc)
  by_cases hb : (decide (data.anyblank ≠ 0) && blank_types data.type) = true
  · simp only [hb, h3 hb, Bool.true_eq_false, and_false, if_false, if_true, true_and]
    split_ifs
    all_goals simp only [List.append_assoc, List.cons_append, List.nil_append,
      List.append_nil]
    all_goals refine ⟨_, hf, rfl, ?_⟩
    all_goals first
      | exact List.forall_mem_nil _
      | exact he
      | exact htail [] (fun _ h => absurd h (List.not_mem_nil _))
      | exact htail _ (fun _ h => h)
  · simp only [hb, Bool.false_eq_true, if_false, false_and]
    split_ifs
    all_goals simp only [List.append_assoc, List.cons_append, List.nil_append,
      List.append_nil]
    all_goals refine ⟨_, hf, rfl, ?_⟩
    all_goals first
      | exact he
      | exact htail [] (fun _ h => absurd h (List.not_mem_nil _))
      | exact htail _ (fun _ h => h)

/-- C20 fails as stated: for a dataset of type `GAL_DATA_TYPE_UINT` with
`anyblank` set, `gal_fits_type_to_bitpix` ends the process before the image
is created; the only call made is the one that creates the file, and no
BLANK keyword is written. -/
theorem blank_not_reached_for_uint :
    gal_fits_write_img_fitsptr cfitsio writeenv0
        { type := GAL_DATA_TYPE_UINT, ndim := 2, dsize := [3, 3], anyblank := 1, wcs := none }
      = { calls := [.fits_create_file],
          fatal := some (.type_to_bitpix GAL_DATA_TYPE_UINT) } ∧
    blank_types GAL_DATA_TYPE_UINT = true := by
  decide

/-- C20 as amended: for a dataset with `anyblank` set whose type is one of
`UCHAR`, `CHAR`, `USHORT`, `SHORT`, `ULONG`, `LONG`, `LONGLONG`, the function
creates the image, writes the array and then, `gal_data_alloc_blank` having
returned, calls `fits_write_key` for the keyword BLANK with the CFITSIO type
of the data; for `UINT` and `INT` it ends the process in
`gal_fits_type_to_bitpix` before the image is created and makes no call for
BLANK; for `FLOAT` and `DOUBLE` it makes no call for BLANK. -/
theorem blank_keyword_step (c : Cfitsio) (env : WriteEnv) (data : gal_data_t) :
    (data.anyblank ≠ 0 →
      data.type ∈ [GAL_DATA_TYPE_UCHAR, GAL_DATA_TYPE_CHAR, GAL_DATA_TYPE_USHORT,
        GAL_DATA_TYPE_SHORT, GAL_DATA_TYPE_ULONG, GAL_DATA_TYPE_LONG,
        GAL_DATA_TYPE_LONGLONG] →
      env.gal_data_alloc_blank data.type = true →
      ∃ datatype bitpix first rest,
        gal_fits_type_to_datatype c data.type = .ok datatype ∧
        gal_fits_type_to_bitpix c data.type = .ok bitpix ∧
        (first = .fits_open_file ∨ first = .fits_create_file) ∧
        (gal_fits_write_img_fitsptr c env data).calls
          = [first, .fits_create_img bitpix, .fits_write_img datatype,
             .fits_write_key datatype "BLANK"] ++ rest) ∧
    (data.type = GAL_DATA_TYPE_UINT ∨ data.type = GAL_DATA_TYPE_INT →
      (gal_fits_write_img_fitsptr c env data).fatal = some (.type_to_bitpix data.type) ∧
      ∀ call ∈ (gal_fits_write_img_fitsptr c env data).calls,
        call = .fits_open_file ∨ call = .fits_create_file) ∧
    (data.type = GAL_DATA_TYPE_FLOAT ∨ data.type = GAL_DATA_TYPE_DOUBLE →
      ∀ dt, FitsCall.fits_write_key dt "BLANK"
        ∉ (gal_fits_write_img_fitsptr c env data).calls) := by
  refine ⟨?_, ?_, ?_⟩
  · intro hany hty halloc
    have hconv : ∃ dt bp, gal_fits_type_to_datatype c data.type = .ok dt ∧
        gal_fits_type_to_bitpix c data.type = .ok bp ∧ blank_types data.type = true := by
      simp only [List.mem_cons, List.mem_singleton, List.not_mem_nil, or_false] at hty
      rcases hty with h | h | h | h | h | h | h <;> rw [h] <;>
        exact ⟨_, _, rfl, rfl, by decide⟩
    obtain ⟨dt, bp, h1, h2, h3⟩ := hconv
    obtain ⟨first, tail, hf, hcalls, _⟩ :=
      write_img_calls c env data dt bp h1 h2 (fun _ => halloc)
    have hb : (decide (data.anyblank ≠ 0) && blank_types data.type) = true := by
      simp [hany, h3]
    rw [if_pos hb] at hcalls
    exact ⟨dt, bp, first, tail, h1, h2, hf, by rw [hcalls]; rfl⟩
  · intro hty
    have hconv : ∃ dt, gal_fits_type_to_datatype c data.type = .ok dt ∧
        gal_fits_type_to_bitpix c data.type = .error (.type_to_bitpix data.type) := by
      rcases hty with h | h <;> rw [h] <;> exact ⟨_, rfl, rfl⟩
    obtain ⟨dt, h1, h2⟩ := hconv
    unfold gal_fits_write_img_fitsptr
    rw [h1]
    simp only
    rw [h2]
    simp only
    refine ⟨trivial, ?_⟩
    intro call hc
    split_ifs at hc
    · exact Or.inl (List.mem_singleton.mp hc)
    · exact Or.inr (List.mem_singleton.mp hc)
  · intro hty dt hmem
    have hconv : ∃ dt bp, gal_fits_type_to_datatype c data.type = .ok dt ∧
        gal_fits_type_to_bitpix c data.type = .ok bp ∧ blank_types data.type = false := by
      rcases hty with h | h <;> rw [h] <;> exact ⟨_, _, rfl, rfl, by decide⟩
    obtain ⟨dt1, bp, h1, h2, h3⟩ := hconv
    have hb : ¬ (decide (data.anyblank ≠ 0) && blank_types data.type) = true := by
      simp [h3]
    obtain ⟨first, tail, hf, hcalls, htail⟩ :=
      write_img_calls c env data dt1 bp h1 h2 (fun h => absurd h hb)
    rw [if_neg hb] at hcalls
    rw [hcalls] at hmem
    simp only [List.append_nil, List.mem_append, List.mem_cons, List.mem_singleton,
      List.not_mem_nil, or_false] at hmem
    rcases hmem with (hm | hm | hm) | hm
    · rcases hf with hf | hf <;> rw [hf] at hm <;> cases hm
    · cases hm
    · cases hm
    · rcases htail _ hm with h | h | ⟨n, h⟩
      · injection h with _ hs
        exact absurd hs (by decide)
      · cases h
      · cases h

/-- C20 as amended, for the image `data_uchar_blank` with the constants of
`cfitsio` and calls that all succeed. -/
theorem blank_keyword_step_witness :
    ∃ datatype bitpix first rest,
      gal_fits_type_to_datatype cfitsio data_uchar_blank.type = .ok datatype ∧
      gal_fits_type_to_bitpix cfitsio data_uchar_blank.type = .ok bitpix ∧
      (first = .fits_open_file ∨ first = .fits_create_file) ∧
      (gal_fits_write_img_fitsptr cfitsio writeenv0 data_uchar_blank).calls
        = [first, .fits_create_img bitpix, .fits_write_img datatype,
           .fits_write_key datatype "BLANK"] ++ rest :=
  (blank_keyword_step cfitsio writeenv0 data_uchar_blank).1 (by decide) (by decide) rfl

/-! ## C21 -/

/-- One round of the flip loop on an array of `size` elements: the elements
at `i` and at `size - i - 1` change places. -/
theorem flip_loop_round {α : Type} (size fuel i : Nat) (f : List α) (hlen : f.length = size)
    (hi : i < size / 2) :
    ∃ tmp last, f[i]? = some tmp ∧ f[size - i - 1]? = some last ∧
      flip_loop size (fuel + 1) i f
        = flip_loop size fuel (i + 1) ((f.set i last).set (size - i - 1) tmp) := by
  have h1 : i < f.length := by omega
  have h2 : size - i - 1 < f.length := by omega
  refine ⟨f[i], f[size - i - 1], List.getElem?_eq_getElem h1, List.getElem?_eq_getElem h2, ?_⟩
  rw [flip_loop, if_pos hi, List.getElem?_eq_getElem h1, List.getElem?_eq_getElem h2]

/-- The flip loop with enough fuel, entered when the first `i` and the last
`i` elements are the mirrored ones of `f0` and the others still those of
`f0`: it returns an array all of whose elements are the mirrored ones. -/
theorem flip_loop_spec {α : Type} (size : Nat) (f0 : List α) :
    ∀ (fuel i : Nat) (f : List α), size / 2 - i ≤ fuel → i ≤ size / 2 → f.length = size →
      (∀ k < size, f[k]? = if k < i ∨ size - i ≤ k then f0[size - 1 - k]? else f0[k]?) →
      ∃ g, flip_loop size fuel i f = some g ∧ g.length = size ∧
        ∀ k < size, g[k]? = f0[size - 1 - k]? := by
  have hend : ∀ (i : Nat) (f : List α), ¬ i < size / 2 → i ≤ size / 2 → f.length = size →
      (∀ k < size, f[k]? = if k < i ∨ size - i ≤ k then f0[size - 1 - k]? else f0[k]?) →
      ∀ k < size, f[k]? = f0[size - 1 - k]? := by
    intro i f hi hle hlen hinv k hk
    rw [hinv k hk]
    by_cases hc : k < i ∨ size - i ≤ k
    · rw [if_pos hc]
    · rw [if_neg hc]
      have : size - 1 - k = k := by omega
      rw [this]
  intro fuel
  induction fuel with
  | zero =>
    intro i f hfuel hle hlen hinv
    have hi : ¬ i < size / 2 := by omega
    exact ⟨f, by rw [flip_loop, if_neg hi], hlen, hend i f hi hle hlen hinv⟩
  | succ fuel ih =>
    intro i f hfuel hle hlen hinv
    by_cases hi : i < size / 2
    · obtain ⟨tmp, last, htmp, hlast, hloop⟩ := flip_loop_round size fuel i f hlen hi
      rw [hloop]
      refine ih (i + 1) _ (by omega) (by omega) ?_ ?_
      · rw [List.length_set, List.length_set, hlen]
      · intro k hk
        have hfi : f[i]? = f0[i]? := by
          rw [hinv i (by omega), if_neg (by omega)]
        have hfl : f[size - i - 1]? = f0[size - i - 1]? := by
          rw [hinv (size - i - 1) (by omega), if_neg (by omega)]
        by_cases hk1 : k = size - i - 1
        · subst hk1
          rw [List.getElem?_set_self (by rw [List.length_set, hlen]; omega), if_pos (by omega),
            ← htmp, hfi]
          congr 1
          omega
        · rw [List.getElem?_set_ne (fun h => hk1 h.symm)]
          by_cases hk2 : k = i
          · subst hk2
            rw [List.getElem?_set_self (by rw [hlen]; omega), if_pos (by omega), ← hlast, hfl]
            congr 1
            omega
          · rw [List.getElem?_set_ne (fun h => hk2 h.symm), hinv k hk]
            by_cases hc : k < i ∨ size - i ≤ k
            · rw [if_pos hc, if_pos (by omega)]
            · rw [if_neg hc, if_neg (by omega)]
    · exact ⟨f, by rw [flip_loop, if_neg hi], hlen, hend i f hi hle hlen hinv⟩

/-- C21: for an array `f` of `size` elements the flip step of
`gal_fits_read_float_kernel` returns the reversed array: element `i` of the
result is element `size - 1 - i` of `f` for every `i < size`, the middle
element of an array of odd length is unchanged, and flipping the result
again gives `f` back. -/
theorem flip_reverses_array {α : Type} (size : Nat) (f : List α) (hlen : f.length = size) :
    ∃ g, kernel_flip size f = some g ∧ g = f.reverse ∧ g.length = size ∧
      (∀ i < size, g[i]? = f[size - 1 - i]?) ∧
      (size % 2 = 1 → g[size / 2]? = f[size / 2]?) ∧
      kernel_flip size g = some f := by
  have hmain : ∀ (f : List α), f.length = size →
      ∃ g, kernel_flip size f = some g ∧ g = f.reverse ∧ g.length = size ∧
        (∀ i < size, g[i]? = f[size - 1 - i]?) := by
    intro f hlen
    obtain ⟨g, hg, hglen, hgel⟩ := flip_loop_spec size f (size / 2) 0 f (by omega)
      (Nat.zero_le _) hlen (by
        intro k hk
        rw [if_neg (by omega)])
    refine ⟨g, hg, ?_, hglen, hgel⟩
    apply List.ext_getElem?
    intro k
    by_cases hk : k < size
    · rw [hgel k hk, List.getElem?_reverse (by omega), hlen]
    · rw [List.getElem?_eq_none (by omega), List.getElem?_eq_none (by
        rw [List.length_reverse]
        omega)]
  obtain ⟨g, hg, hrev, hglen, hgel⟩ := hmain f hlen
  refine ⟨g, hg, hrev, hglen, hgel, ?_, ?_⟩
  · intro hodd
    rw [hgel (size / 2) (by omega)]
    congr 1
    omega
  · obtain ⟨g2, hg2, hrev2, _, _⟩ := hmain g hglen
    rw [hg2, hrev2, hrev, List.reverse_reverse]

/-- C21 for the array 1, 2, 3, 4, 5. -/
theorem flip_reverses_array_witness :
    ∃ g, kernel_flip 5 [(1 : Int), 2, 3, 4, 5] = some g ∧ g = [5, 4, 3, 2, 1] ∧
      g.length = 5 ∧
      (∀ i < 5, g[i]? = [(1 : Int), 2, 3, 4, 5][5 - 1 - i]?) ∧
      (5 % 2 = 1 → g[5 / 2]? = [(1 : Int), 2, 3, 4, 5][5 / 2]?) ∧
      kernel_flip 5 g = some [1, 2, 3, 4, 5] :=
  flip_reverses_array 5 [(1 : Int), 2, 3, 4, 5] rfl

end Fits
